import Mathlib

/-!
Ray integration into the occupancy map (ohm, `RayMapperOccupancy`)

A shallow embedding of `RayMapperOccupancy::integrateRays` and of the parts of the
occupancy map it touches, followed by the utilities around it: the map flags, the OpenCL
helpers of `clu.cpp`, the conical ray pattern, the stream operators of glm vectors, the segment
keys and the population loop of `ohmpop`.

Numbers: coordinates (`glm::dvec3`) and log-odds values (`float`) are exact integers in a
fixed sub-unit (fixed point), voxel centres and mean offsets are exact rationals; rounding of
the floating point arithmetic is not modelled.
Pointers to chunks are positions in the chunk list of the map; chunks are only ever appended
while rays are integrated, so a position stays valid for the whole call.
-/

namespace ohm

/-! ## Vectors and keys -/

/-- Vector of three doubles (`glm::dvec3`), in fixed point. -/
structure DVec3 where
  x : Int
  y : Int
  z : Int
deriving DecidableEq

/-- Signed integer triple: a region coordinate (`glm::i16vec3`) or a global voxel coordinate. -/
structure I16Vec3 where
  x : Int
  y : Int
  z : Int
deriving DecidableEq

/-- Unsigned triple (`glm::u8vec3`): region voxel dimensions and local voxel indices. -/
structure U8Vec3 where
  x : Nat
  y : Nat
  z : Nat
deriving DecidableEq

/-- Component-wise difference of two points (`operator-` of `glm::dvec3`). -/
def DVec3.sub (a b : DVec3) : DVec3 := ⟨a.x - b.x, a.y - b.y, a.z - b.z⟩

/-- Voxel key: the region coordinate and the local voxel index inside the region. -/
structure Key where
  regionKey : I16Vec3
  localKey : U8Vec3
deriving DecidableEq

/-- Modelled from the spec: `voxelIndex` (its header is not part of the sources):
`local.z * dims.x * dims.y + local.y * dims.x + local.x`. -/
def voxelIndex (key : Key) (dim : U8Vec3) : Nat :=
  key.localKey.z * dim.x * dim.y + key.localKey.y * dim.x + key.localKey.x

/-! ## Ray flags -/

/-- Modelled from the spec: the ray flags of `RayFlag.h` (not part of the sources), one bit each
in the order the spec enumerates them. -/
def kRfDefault : Nat := 0

/-- Modelled from the spec: `kRfEndPointAsFree`, treat the sample voxel as a miss, never as a
hit. -/
def kRfEndPointAsFree : Nat := 1

/-- Modelled from the spec: `kRfStopOnFirstOccupied`, stop adjusting the voxels of a ray once an
occupied voxel has been visited. -/
def kRfStopOnFirstOccupied : Nat := 2

/-- Modelled from the spec: `kRfClearOnly`, only adjust occupied voxels. -/
def kRfClearOnly : Nat := 4

/-- Modelled from the spec: `kRfExcludeRay`, skip the miss pass. -/
def kRfExcludeRay : Nat := 8

/-- Modelled from the spec: `kRfExcludeSample`, skip the hit pass. -/
def kRfExcludeSample : Nat := 16

/-- Modelled from the spec: `kRffClippedStart`, a result bit of the ray filter (`RayFilter.h` is
not part of the sources): the filter clipped the start point of the ray. -/
def kRffClippedStart : Nat := 1

/-- Modelled from the spec: `kRffClippedEnd`: the filter clipped the end point of the ray. -/
def kRffClippedEnd : Nat := 2

/-- The C++ truth value of `flags & mask`. -/
def flagSet (flags mask : Nat) : Bool := (flags &&& mask) != 0

/-! ## Occupancy arithmetic -/

/-- The value of `std::numeric_limits<float>::max()`, as an exact integer. -/
def floatMax : Int := 340282346638528859811704183484516925440

/-- The value of `std::numeric_limits<float>::lowest()`. -/
def floatLowest : Int := -floatMax

/-- Modelled from the spec: `unobservedOccupancyValue()` (`VoxelOccupancy.h` is not part of the
sources), a sentinel outside the range of every finite float. -/
def unobservedOccupancyValue : Int := floatMax + 1

/-- Modelled from the spec: `occupancyAdjustMiss` (`VoxelOccupancy.h` is not part of the sources),
with the argument list of its call in `integrateRays`; the result is the value stored through the
`occupancy` pointer. An unobserved voxel is written to `miss_value` directly; a saturated voxel
and a voxel visited under `stop_adjustments` keep their value; otherwise the miss value is added
and the sum clamped. -/
def occupancyAdjustMiss (initial_value miss_value unobserved_value min_voxel_value saturation_min
    saturation_max : Int) (stop_adjustments : Bool) : Int :=
  if initial_value = unobserved_value then miss_value
  else if stop_adjustments = true ∨ initial_value ≤ saturation_min ∨ saturation_max ≤ initial_value then
    initial_value
  else max min_voxel_value (max saturation_min (min saturation_max (initial_value + miss_value)))

/-- Modelled from the spec: `occupancyAdjustHit` (`VoxelOccupancy.h` is not part of the sources),
symmetric to `occupancyAdjustMiss` with the hit value and the upper clamp. -/
def occupancyAdjustHit (initial_value hit_value unobserved_value max_voxel_value saturation_min
    saturation_max : Int) (stop_adjustments : Bool) : Int :=
  if initial_value = unobserved_value then hit_value
  else if stop_adjustments = true ∨ initial_value ≤ saturation_min ∨ saturation_max ≤ initial_value then
    initial_value
  else min max_voxel_value (max saturation_min (min saturation_max (initial_value + hit_value)))

/-! ## Voxel mean -/

/-- Modelled from the spec: `VoxelMean` (`VoxelMean.h` is not part of the sources), the record
of the mean layer: the quantised offset of the running mean from the voxel centre
(one signed 16 bit value per axis) and the number of samples. -/
structure VoxelMean where
  coord : I16Vec3
  count : Nat
deriving DecidableEq

/-- Modelled from the spec: `sizeof(VoxelMean)`, the record size of the mean layer. -/
def sizeofVoxelMean : Nat := 16

/-- Modelled from the spec: the largest quantised offset of the packed mean format,
`2^15 - 1`. -/
def meanQuantum : Int := 32767

/-- Vector of three exact rationals: positions that need not be multiples of the coordinate
unit, such as voxel centres and mean positions. -/
structure QVec3 where
  x : ℚ
  y : ℚ
  z : ℚ
deriving DecidableEq

/-- A point as a vector of rationals. -/
def DVec3.toQVec3 (p : DVec3) : QVec3 := ⟨p.x, p.y, p.z⟩

/-- Component-wise difference of two rational vectors. -/
def QVec3.sub (a b : QVec3) : QVec3 := ⟨a.x - b.x, a.y - b.y, a.z - b.z⟩

/-- Component-wise sum of two rational vectors. -/
def QVec3.add (a b : QVec3) : QVec3 := ⟨a.x + b.x, a.y + b.y, a.z + b.z⟩

/-- Clamp `v` to `[lo, hi]`. -/
def clampQ (v lo hi : ℚ) : ℚ := max lo (min hi v)

/-- Modelled from the spec: dequantisation of one axis of the packed mean format: the quantised
range `[-(2^15 - 1), 2^15 - 1]` is mapped linearly to `[-resolution / 2, resolution / 2]`. -/
def dequantiseMean (q : Int) (resolution : Int) : ℚ :=
  (q : ℚ) * resolution / (2 * meanQuantum)

/-- Modelled from the spec: quantisation of one axis of the packed mean format: the offset is
clamped to half a voxel either way and mapped linearly to the quantised range, to the nearest
quantised value. -/
def quantiseMean (d : ℚ) (resolution : Int) : Int :=
  round (clampQ d (-((resolution : ℚ) / 2)) ((resolution : ℚ) / 2) * (2 * meanQuantum) / resolution)

/-- Modelled from the spec: one axis of `subVoxelUpdate` (`VoxelMean.h` is not part of the
sources): dequantise, fold the new offset into the running mean over `n + 1` samples, clamp to
half a voxel either way and quantise again. -/
def subVoxelUpdateAxis (q : Int) (n : Nat) (d_new : ℚ) (resolution : Int) : Int :=
  let d_old := dequantiseMean q resolution
  let d_updated :=
    clampQ ((d_old * n + d_new) / (n + 1)) (-((resolution : ℚ) / 2)) ((resolution : ℚ) / 2)
  quantiseMean d_updated resolution

/-- Modelled from the spec: `subVoxelUpdate(coord, count, offset, resolution)`, axis by axis. -/
def subVoxelUpdate (coord : I16Vec3) (count : Nat) (offset : QVec3) (resolution : Int) : I16Vec3 :=
  ⟨subVoxelUpdateAxis coord.x count offset.x resolution,
   subVoxelUpdateAxis coord.y count offset.y resolution,
   subVoxelUpdateAxis coord.z count offset.z resolution⟩

/-! ## Chunks and the map -/

/-- Modelled from the spec: `MapChunk` (`MapChunk.h` is not part of the sources), the allocated
backing of one region: the occupancy and mean buffers indexed by
voxel index, the first valid voxel hint (`none` is the invalid marker), and the stamps. -/
structure MapChunk where
  region_coord : I16Vec3
  occupancy : Nat → Int
  mean : Nat → VoxelMean
  first_valid_index : Option Nat
  dirty_stamp : Nat
  touched_stamps : Int → Nat

/-- Modelled from the spec: a chunk as `region(coord, create = true)` creates it: every layer at
its initial pattern, no valid voxel, stamps at zero. -/
def newChunk (coord : I16Vec3) : MapChunk :=
  { region_coord := coord
    occupancy := fun _ => unobservedOccupancyValue
    mean := fun _ => ⟨⟨0, 0, 0⟩, 0⟩
    first_valid_index := none
    dirty_stamp := 0
    touched_stamps := fun _ => 0 }

instance : Inhabited MapChunk := ⟨newChunk ⟨0, 0, 0⟩⟩

/-- Modelled from the spec: `MapChunk::updateFirstValid`: writers only lower the hint. -/
def updateFirstValid (first_valid_index : Option Nat) (voxel_index : Nat) : Option Nat :=
  match first_valid_index with
  | none => some voxel_index
  | some i => some (min i voxel_index)

/-- Modelled from the spec: `MapLayer` (not part of the sources), one layer of the layout: the
byte size of a voxel and the layer dimensions for given region
dimensions. -/
structure MapLayer where
  voxelByteSize : Nat
  dimensions : U8Vec3 → U8Vec3

/-- Modelled from the spec: `MapLayout` (not part of the sources), the layer layout of a map:
the layers and the indices of the occupancy and mean layers
(`-1` when the layer is absent). -/
structure MapLayout where
  layers : List MapLayer
  occupancyLayer : Int
  meanLayer : Int

/-- Modelled from the spec: `MapLayout::layer`, the layer at an index. -/
def MapLayout.layer (l : MapLayout) (idx : Int) : MapLayer :=
  l.layers.getD idx.toNat ⟨0, fun d => d⟩

/-- Modelled from the spec: `RayFilterFunction` (`RayFilter.h` is not part of the sources):
receives start, end and the filter flags, may change all three, and tells
whether the ray is kept. -/
abbrev RayFilterFunction := DVec3 → DVec3 → Nat → Bool × DVec3 × DVec3 × Nat

/-- Modelled from the spec: `OccupancyMap` (`OccupancyMap.h` is not part of the sources): its
parameters, its stamp counter and its chunk store. -/
structure OccupancyMap where
  layout : MapLayout
  regionVoxelDimensions : U8Vec3
  origin : DVec3
  resolution : Int
  occupancyThresholdValue : Int
  missValue : Int
  hitValue : Int
  minVoxelValue : Int
  maxVoxelValue : Int
  saturateAtMinValue : Bool
  saturateAtMaxValue : Bool
  rayFilter : Option RayFilterFunction
  stamp : Nat
  chunks : List MapChunk

/-- Modelled from the spec: `OccupancyMap::touch`, the post-increment value of the monotonic
stamp counter of the map. -/
def OccupancyMap.touch (map : OccupancyMap) : Nat × OccupancyMap :=
  (map.stamp + 1, { map with stamp := map.stamp + 1 })

/-- Modelled from the spec: lookup in the chunk store, the position of the first chunk with the
given region coordinate. -/
def findChunk : List MapChunk → I16Vec3 → Option Nat
  | [], _ => none
  | c :: cs, coord => if c.region_coord = coord then some 0 else (findChunk cs coord).map (· + 1)

/-- Modelled from the spec: `OccupancyMap::region(coord, create = true)`: the chunk of the
region, created at the end of the store when there is none. -/
def region (chunks : List MapChunk) (coord : I16Vec3) : List MapChunk × Nat :=
  match findChunk chunks coord with
  | some i => (chunks, i)
  | none => (chunks ++ [newChunk coord], chunks.length)

/-- Write through a chunk pointer: apply `f` to the chunk at position `i`. -/
def modifyChunk (f : MapChunk → MapChunk) : List MapChunk → Nat → List MapChunk
  | [], _ => []
  | c :: cs, 0 => f c :: cs
  | c :: cs, i + 1 => c :: modifyChunk f cs i

/-- Read through a chunk pointer. -/
def chunkAt (chunks : List MapChunk) (i : Nat) : MapChunk := chunks[i]?.getD default

/-! ## Key algebra and the ray walker -/

/-- Modelled from the spec: the voxel coordinate of a local coordinate, rounding towards minus
infinity (half-open cells). -/
def voxelCoord (p resolution : Int) : Int := p / resolution

/-- Modelled from the spec: the key of a global voxel coordinate: region by floor division with
the region dimensions, local index the remainder. -/
def keyOfVoxel (dims : U8Vec3) (g : I16Vec3) : Key :=
  ⟨⟨g.x / dims.x, g.y / dims.y, g.z / dims.z⟩,
   ⟨(g.x % dims.x).toNat, (g.y % dims.y).toNat, (g.z % dims.z).toNat⟩⟩

/-- Modelled from the spec: the global voxel coordinate of a point in map-local coordinates. -/
def voxelOfLocal (resolution : Int) (p : DVec3) : I16Vec3 :=
  ⟨voxelCoord p.x resolution, voxelCoord p.y resolution, voxelCoord p.z resolution⟩

/-- Modelled from the spec: `OccupancyMap::voxelKey`. -/
def OccupancyMap.voxelKey (map : OccupancyMap) (p : DVec3) : Key :=
  keyOfVoxel map.regionVoxelDimensions (voxelOfLocal map.resolution (p.sub map.origin))

/-- Modelled from the spec: `OccupancyMap::voxelCentreGlobal`, the exact centre of a voxel. -/
def OccupancyMap.voxelCentreGlobal (map : OccupancyMap) (key : Key) : QVec3 :=
  let d := map.regionVoxelDimensions
  ⟨map.origin.x + (key.regionKey.x * d.x + key.localKey.x) * map.resolution +
      (map.resolution : ℚ) / 2,
   map.origin.y + (key.regionKey.y * d.y + key.localKey.y) * map.resolution +
      (map.resolution : ℚ) / 2,
   map.origin.z + (key.regionKey.z * d.z + key.localKey.z) * map.resolution +
      (map.resolution : ℚ) / 2⟩

/-- Modelled from the spec: walker state of one axis: current voxel coordinate, step direction, and the parametric
distance `num / den` to the next voxel boundary (`den = 0`: the ray does not move on the axis). -/
structure WalkAxis where
  cur : Int
  step : Int
  num : Int
  den : Int

/-- Modelled from the spec: start state of one axis for a segment from `s` to `e`: step
direction and distance to the first voxel boundary. -/
def WalkAxis.start (s e resolution : Int) : WalkAxis :=
  let g := voxelCoord s resolution
  if s < e then ⟨g, 1, (g + 1) * resolution - s, e - s⟩
  else if e < s then ⟨g, -1, s - g * resolution, s - e⟩
  else ⟨g, 0, 0, 0⟩

/-- Modelled from the spec: strict order of the distances to the next boundary of two axes. -/
def WalkAxis.lt (a b : WalkAxis) : Bool :=
  a.den != 0 && (b.den == 0 || decide (a.num * b.den < b.num * a.den))

/-- Modelled from the spec: cross one voxel boundary on the axis. -/
def WalkAxis.advance (a : WalkAxis) (resolution : Int) : WalkAxis :=
  { a with cur := a.cur + a.step, num := a.num + resolution }

/-- Modelled from the spec: the walker loop: emit the current key and advance the axis with the
smallest distance (the lower axis on a tie) until the end voxel is reached; the end voxel is
emitted iff `include_end`. -/
def walkLoop (dims : U8Vec3) (resolution : Int) (end_voxel : I16Vec3) (include_end : Bool) :
    Nat → WalkAxis → WalkAxis → WalkAxis → List Key
  | 0, _, _, _ => if include_end then [keyOfVoxel dims end_voxel] else []
  | fuel + 1, ax, ay, az =>
    if (⟨ax.cur, ay.cur, az.cur⟩ : I16Vec3) = end_voxel then
      if include_end then [keyOfVoxel dims end_voxel] else []
    else
      keyOfVoxel dims ⟨ax.cur, ay.cur, az.cur⟩ ::
        (if !ay.lt ax && !az.lt ax then
          walkLoop dims resolution end_voxel include_end fuel (ax.advance resolution) ay az
        else if !az.lt ay then
          walkLoop dims resolution end_voxel include_end fuel ax (ay.advance resolution) az
        else
          walkLoop dims resolution end_voxel include_end fuel ax ay (az.advance resolution))

/-- Modelled from the spec: `walkSegmentKeys` (`LineWalk.h` is not part of the sources) with the
key adaptor of the map: the keys of the voxels a segment in map-local coordinates passes through,
in order. The number of steps is the distance between start and end voxel. -/
def walkSegmentKeys (map : OccupancyMap) (start_point end_point : DVec3) (include_end : Bool) :
    List Key :=
  let r := map.resolution
  let s := voxelOfLocal r start_point
  let e := voxelOfLocal r end_point
  walkLoop map.regionVoxelDimensions r e include_end
    ((e.x - s.x).natAbs + (e.y - s.y).natAbs + (e.z - s.z).natAbs)
    (WalkAxis.start start_point.x end_point.x r)
    (WalkAxis.start start_point.y end_point.y r)
    (WalkAxis.start start_point.z end_point.z r)

/-! ## The ray mapper -/

/-- The ray mapper: the layer indices and occupancy dimensions its constructor caches. -/
structure RayMapperOccupancy where
  occupancy_layer : Int
  mean_layer : Int
  occupancy_dim : U8Vec3

/-- Constructor `RayMapperOccupancy::RayMapperOccupancy`: the mean layer is dropped when its
voxel size or its dimensions do not fit. -/
def RayMapperOccupancy.create (map : OccupancyMap) : RayMapperOccupancy :=
  let occupancy_layer := map.layout.occupancyLayer
  let mean_layer := map.layout.meanLayer
  let occupancy_dim := (map.layout.layer occupancy_layer).dimensions map.regionVoxelDimensions
  let mean_layer :=
    if 0 ≤ mean_layer then
      if (map.layout.layer mean_layer).voxelByteSize ≠ sizeofVoxelMean then -1
      else if (map.layout.layer mean_layer).dimensions map.regionVoxelDimensions ≠ occupancy_dim then -1
      else mean_layer
    else mean_layer
  ⟨occupancy_layer, mean_layer, occupancy_dim⟩

/-- Mutable state of the loop of `integrateRays`: the chunk store, the `last_chunk` pointer and
`stop_adjustments`. -/
structure LoopState where
  chunks : List MapChunk
  last_chunk : Option Nat
  stop_adjustments : Bool

/-- Chunk selection of `integrateRays`:
`(last_chunk && key.regionKey() == last_chunk->region.coord) ? last_chunk : region(key, true)`. -/
def selectChunk (s : LoopState) (coord : I16Vec3) : List MapChunk × Nat :=
  match s.last_chunk with
  | some i => if (chunkAt s.chunks i).region_coord = coord then (s.chunks, i) else region s.chunks coord
  | none => region s.chunks coord

/-- Lower saturation bound of `integrateRays`. -/
def saturationMin (map : OccupancyMap) : Int :=
  if map.saturateAtMinValue then map.minVoxelValue else floatLowest

/-- Upper saturation bound of `integrateRays`. -/
def saturationMax (map : OccupancyMap) : Int :=
  if map.saturateAtMaxValue then map.maxVoxelValue else floatMax

/-- Occupancy test of `visit_func`. -/
def isOccupied (map : OccupancyMap) (value : Int) : Bool :=
  value != unobservedOccupancyValue && decide (map.occupancyThresholdValue < value)

/-- Writes of `visit_func` to the chunk of the visited voxel. -/
def missChunk (mapper : RayMapperOccupancy) (map : OccupancyMap) (touch_stamp : Nat)
    (stop_adjustments : Bool) (voxel_index : Nat) (c : MapChunk) : MapChunk :=
  { c with
    occupancy := Function.update c.occupancy voxel_index
      (occupancyAdjustMiss (c.occupancy voxel_index) map.missValue unobservedOccupancyValue
        map.minVoxelValue (saturationMin map) (saturationMax map) stop_adjustments)
    first_valid_index := updateFirstValid c.first_valid_index voxel_index
    dirty_stamp := touch_stamp
    touched_stamps := Function.update c.touched_stamps mapper.occupancy_layer touch_stamp }

/-- The visitor `visit_func` of `integrateRays`, called by the walker for each key. -/
def visit_func (mapper : RayMapperOccupancy) (map : OccupancyMap) (ray_update_flags touch_stamp : Nat)
    (s : LoopState) (key : Key) : LoopState :=
  let sel := selectChunk s key.regionKey
  let voxel_index := voxelIndex key mapper.occupancy_dim
  let initial_value := (chunkAt sel.1 sel.2).occupancy voxel_index
  let is_occupied := isOccupied map initial_value
  { chunks := modifyChunk (missChunk mapper map touch_stamp s.stop_adjustments voxel_index) sel.1 sel.2
    last_chunk := some sel.2
    stop_adjustments :=
      s.stop_adjustments || (flagSet ray_update_flags kRfStopOnFirstOccupied && is_occupied) }

/-- Writes of the hit pass to the chunk of the sample voxel. -/
def hitChunk (mapper : RayMapperOccupancy) (map : OccupancyMap) (touch_stamp : Nat)
    (stop_adjustments : Bool) (key : Key) (end_ : DVec3) (c : MapChunk) : MapChunk :=
  let voxel_index := voxelIndex key mapper.occupancy_dim
  let occupancy := Function.update c.occupancy voxel_index
    (occupancyAdjustHit (c.occupancy voxel_index) map.hitValue unobservedOccupancyValue
      map.maxVoxelValue (saturationMin map) (saturationMax map) stop_adjustments)
  let voxel_mean := c.mean voxel_index
  { c with
    occupancy := occupancy
    mean :=
      if 0 ≤ mapper.mean_layer then
        Function.update c.mean voxel_index
          ⟨subVoxelUpdate voxel_mean.coord voxel_mean.count (end_.toQVec3.sub (map.voxelCentreGlobal key))
              map.resolution,
            (voxel_mean.count + 1) % 2 ^ 32⟩
      else c.mean
    first_valid_index := updateFirstValid c.first_valid_index voxel_index
    dirty_stamp := touch_stamp
    touched_stamps :=
      Function.update
        (if 0 ≤ mapper.mean_layer then Function.update c.touched_stamps mapper.mean_layer touch_stamp
          else c.touched_stamps)
        mapper.occupancy_layer touch_stamp }

/-- The hit pass of `integrateRays` on the voxel of the sample `end_`. -/
def hitPass (mapper : RayMapperOccupancy) (map : OccupancyMap) (touch_stamp : Nat) (s : LoopState)
    (end_ : DVec3) : LoopState :=
  let key := map.voxelKey end_
  let sel := selectChunk s key.regionKey
  { chunks := modifyChunk (hitChunk mapper map touch_stamp s.stop_adjustments key end_) sel.1 sel.2
    last_chunk := some sel.2
    stop_adjustments := s.stop_adjustments }

/-- The miss pass of `integrateRays`: reset `stop_adjustments` and walk the segment. -/
def missPass (mapper : RayMapperOccupancy) (map : OccupancyMap) (ray_update_flags touch_stamp : Nat)
    (s : LoopState) (start end_ : DVec3) (include_sample_in_ray : Bool) : LoopState :=
  (walkSegmentKeys map (start.sub map.origin) (end_.sub map.origin) include_sample_in_ray).foldl
    (visit_func mapper map ray_update_flags touch_stamp) { s with stop_adjustments := false }

/-- The value of `include_sample_in_ray`. -/
def includeSampleInRay (filter_flags ray_update_flags : Nat) : Bool :=
  flagSet filter_flags kRffClippedEnd || flagSet ray_update_flags kRfEndPointAsFree ||
    flagSet ray_update_flags kRfClearOnly

/-- The condition guarding the hit pass. -/
def hitCondition (stop_adjustments include_sample_in_ray : Bool) (ray_update_flags : Nat) : Bool :=
  !stop_adjustments && !include_sample_in_ray &&
    !flagSet ray_update_flags (kRfClearOnly ||| kRfExcludeSample) &&
    !flagSet ray_update_flags kRfExcludeSample

/-- Body of the loop of `integrateRays` after the filter accepted the ray. -/
def integrateAccepted (mapper : RayMapperOccupancy) (map : OccupancyMap)
    (ray_update_flags touch_stamp : Nat) (s : LoopState) (start end_ : DVec3) (filter_flags : Nat) :
    LoopState :=
  let include_sample_in_ray := includeSampleInRay filter_flags ray_update_flags
  let s1 :=
    if !flagSet ray_update_flags kRfExcludeRay then
      missPass mapper map ray_update_flags touch_stamp s start end_ include_sample_in_ray
    else s
  if hitCondition s1.stop_adjustments include_sample_in_ray ray_update_flags then
    hitPass mapper map touch_stamp s1 end_
  else s1

/-- Body of the loop of `integrateRays` for the pair `rays[i]`, `rays[i + 1]`. -/
def integrateRay (mapper : RayMapperOccupancy) (map : OccupancyMap)
    (ray_update_flags touch_stamp : Nat) (s : LoopState) (ray_start ray_end : DVec3) : LoopState :=
  match map.rayFilter with
  | some ray_filter =>
    match ray_filter ray_start ray_end 0 with
    | (false, _, _, _) => s
    | (true, start, end_, filter_flags) =>
      integrateAccepted mapper map ray_update_flags touch_stamp s start end_ filter_flags
  | none => integrateAccepted mapper map ray_update_flags touch_stamp s ray_start ray_end 0

/-- The loop `for (i = 0; i < element_count; i += 2)` of `integrateRays` over the remaining
elements; `none` when `rays[i + 1]` would be read past the end of the array. -/
def integrateLoop (mapper : RayMapperOccupancy) (map : OccupancyMap)
    (ray_update_flags touch_stamp : Nat) : List DVec3 → LoopState → Option LoopState
  | [], s => some s
  | [_], _ => none
  | ray_start :: ray_end :: rest, s =>
    integrateLoop mapper map ray_update_flags touch_stamp rest
      (integrateRay mapper map ray_update_flags touch_stamp s ray_start ray_end)

/-- `RayMapperOccupancy::integrateRays`: the returned count and the map after the call. -/
def RayMapperOccupancy.integrateRays (mapper : RayMapperOccupancy) (map : OccupancyMap)
    (rays : List DVec3) (ray_update_flags : Nat) : Option (Nat × OccupancyMap) :=
  let touched := map.touch
  match integrateLoop mapper map ray_update_flags touched.1 rays ⟨touched.2.chunks, none, false⟩ with
  | none => none
  | some s => some (rays.length / 2, { touched.2 with chunks := s.chunks })

/-! ## Notions used to state the properties -/

/-- The pairs `(rays[i], rays[i + 1])`, `i` even, of a ray array. -/
def rayPairs : List DVec3 → List (DVec3 × DVec3)
  | ray_start :: ray_end :: rest => (ray_start, ray_end) :: rayPairs rest
  | _ => []

/-- Whether the ray filter of the map keeps a pair; every pair is kept when no filter is
installed. -/
def filterAccepts (map : OccupancyMap) (ray : DVec3 × DVec3) : Bool :=
  match map.rayFilter with
  | some ray_filter => (ray_filter ray.1 ray.2 0).1
  | none => true

/-- Number of pairs of a ray array the ray filter of the map keeps. -/
def acceptedPairs (map : OccupancyMap) (rays : List DVec3) : Nat :=
  (rayPairs rays).countP (filterAccepts map)

/-- The `last_chunk` pointer, when set, points into the chunk store. -/
def LoopState.Valid (s : LoopState) : Prop := ∀ i, s.last_chunk = some i → i < s.chunks.length

/-- State of the loop after the miss pass of an accepted ray (the state before it when the ray
flags exclude the ray). -/
def afterMissPass (mapper : RayMapperOccupancy) (map : OccupancyMap)
    (ray_update_flags touch_stamp : Nat) (s : LoopState) (start end_ : DVec3) (filter_flags : Nat) :
    LoopState :=
  if flagSet ray_update_flags kRfExcludeRay then s
  else missPass mapper map ray_update_flags touch_stamp s start end_
    (includeSampleInRay filter_flags ray_update_flags)

/-- A chunk carries the touch stamp as dirty stamp and as stamp of the occupancy layer. -/
def Stamped (touch_stamp : Nat) (occupancy_layer : Int) (c : MapChunk) : Prop :=
  c.dirty_stamp = touch_stamp ∧ c.touched_stamps occupancy_layer = touch_stamp

/-- How the writes of `integrateRays` relate a chunk `c'` to an earlier state `c` of it: either
nothing was written, or the chunk is stamped and every layer stamp is the old one or the touch
stamp. -/
def StampStep (touch_stamp : Nat) (occupancy_layer : Int) (c c' : MapChunk) : Prop :=
  c' = c ∨ (Stamped touch_stamp occupancy_layer c' ∧
    ∀ layer, c'.touched_stamps layer = c.touched_stamps layer ∨ c'.touched_stamps layer = touch_stamp)

/-! ## Map flags (`MapFlag.h`) -/

/-- Flags of `MapFlag.h` (`enum class MapFlag : unsigned`), by their underlying 32 bit value. -/
structure MapFlag where
  val : Nat
deriving DecidableEq

/-- No special features. -/
def MapFlag.kNone : MapFlag := ⟨0⟩

/-- Enable voxel mean position tracking, `1u << 0u`. -/
def MapFlag.kVoxelMean : MapFlag := ⟨1 <<< 0⟩

/-- Maintain compressed voxels in memory, `1u << 1u`. -/
def MapFlag.kCompressed : MapFlag := ⟨1 <<< 1⟩

/-- Default map creation flags. -/
def MapFlag.kDefault : MapFlag := MapFlag.kCompressed

/-- `operator|` of `MapFlag.h`. -/
def MapFlag.or (left right : MapFlag) : MapFlag := ⟨(left.val ||| right.val) % 2 ^ 32⟩

/-- `operator&` of `MapFlag.h`. -/
def MapFlag.and (left right : MapFlag) : MapFlag := ⟨(left.val &&& right.val) % 2 ^ 32⟩

/-- `operator^` of `MapFlag.h`. -/
def MapFlag.xor (left right : MapFlag) : MapFlag := ⟨(left.val ^^^ right.val) % 2 ^ 32⟩

/-- `operator~` of `MapFlag.h`: the complement of the 32 bit value. -/
def MapFlag.not (value : MapFlag) : MapFlag := ⟨(2 ^ 32 - 1 - value.val % 2 ^ 32) % 2 ^ 32⟩

/-- Modelled from the spec: the layer layout of a map constructed with the given flags: the
occupancy layer (a 32 bit float per voxel) and, when `kVoxelMean` is set, the mean layer. -/
def layoutOfFlags (flags : MapFlag) : MapLayout :=
  if flags.and MapFlag.kVoxelMean = MapFlag.kNone then ⟨[⟨4, fun d => d⟩], 0, -1⟩
  else ⟨[⟨4, fun d => d⟩, ⟨sizeofVoxelMean, fun d => d⟩], 0, 1⟩

/-- The map with the mean layer taken out of its layout. -/
def withoutMeanLayer (map : OccupancyMap) : OccupancyMap :=
  { map with layout := { map.layout with meanLayer := -1 } }

/-- Running mean of the spec: `(d_old * n + d_new) / (n + 1)`. -/
def runningMean (d_old : ℚ) (n : Nat) (d_new : ℚ) : ℚ := (d_old * n + d_new) / (n + 1)

/-- Modelled from the spec: `Voxel::position` (`Voxel.h` is not part of the sources) for the
voxel with the given key in the chunk `c`: the voxel centre, moved by the dequantised mean offset
when the layout of the map has a mean layer. -/
def voxelPosition (map : OccupancyMap) (c : MapChunk) (key : Key) : QVec3 :=
  if 0 ≤ map.layout.meanLayer then
    (map.voxelCentreGlobal key).add
      ⟨dequantiseMean (c.mean (voxelIndex key map.regionVoxelDimensions)).coord.x map.resolution,
       dequantiseMean (c.mean (voxelIndex key map.regionVoxelDimensions)).coord.y map.resolution,
       dequantiseMean (c.mean (voxelIndex key map.regionVoxelDimensions)).coord.z map.resolution⟩
  else map.voxelCentreGlobal key

/-- Modelled from the spec: `Voxel::setPosition` (`Voxel.h` is not part of the sources): the
offset of the position from the voxel centre is quantised into the mean record of the voxel; the
sample count is kept. Without mean layer nothing is stored. -/
def setVoxelPosition (map : OccupancyMap) (c : MapChunk) (key : Key) (position : DVec3) :
    MapChunk :=
  if 0 ≤ map.layout.meanLayer then
    { c with
      mean := Function.update c.mean (voxelIndex key map.regionVoxelDimensions)
        ⟨⟨quantiseMean (position.x - (map.voxelCentreGlobal key).x) map.resolution,
          quantiseMean (position.y - (map.voxelCentreGlobal key).y) map.resolution,
          quantiseMean (position.z - (map.voxelCentreGlobal key).z) map.resolution⟩,
         (c.mean (voxelIndex key map.regionVoxelDimensions)).count⟩ }
  else c

/-- Modelled from the spec: the chunk a voxel lookup without creation finds for a key: the chunk
of the region when the store has one, and otherwise a chunk at its initial pattern. -/
def lookupChunk (chunks : List MapChunk) (key : Key) : MapChunk :=
  match findChunk chunks key.regionKey with
  | some i => chunkAt chunks i
  | none => newChunk key.regionKey

/-- Position reported for the voxel of a point after `integrateRays`. -/
def positionAfter (result : Option (Nat × OccupancyMap)) (p : DVec3) : Option QVec3 :=
  result.map fun r => voxelPosition r.2 (lookupChunk r.2.chunks (r.2.voxelKey p)) (r.2.voxelKey p)

/-- Whether the voxel of a point is occupied after `integrateRays`. -/
def occupiedAfter (result : Option (Nat × OccupancyMap)) (p : DVec3) : Option Bool :=
  result.map fun r => isOccupied r.2 ((lookupChunk r.2.chunks (r.2.voxelKey p)).occupancy
    (voxelIndex (r.2.voxelKey p) r.2.regionVoxelDimensions))

/-- The position `q` is within the tolerance `tolerance` of the point `p` on each axis. -/
def withinTolerance (q : QVec3) (p : DVec3) (tolerance : ℚ) : Prop :=
  |q.x - p.x| ≤ tolerance ∧ |q.y - p.y| ≤ tolerance ∧ |q.z - p.z| ≤ tolerance

instance (q : QVec3) (p : DVec3) (tolerance : ℚ) : Decidable (withinTolerance q p tolerance) := by
  unfold withinTolerance
  exact inferInstance

/-- Every unobserved voxel of the chunk has an empty mean record (sample count 0). -/
def MeanCountInv (c : MapChunk) : Prop :=
  ∀ v, c.occupancy v = unobservedOccupancyValue → (c.mean v).count = 0

/-- Modelled from the spec: re-allocation of the layer buffers of a chunk when the layout of
the map changes (`MapChunk` is not part of the sources): the contents of a layer both layouts
have are preserved, a layer only the new layout has starts at its initial pattern. -/
def relayoutChunk (old_layout new_layout : MapLayout) (c : MapChunk) : MapChunk :=
  { c with
    occupancy :=
      if 0 ≤ old_layout.occupancyLayer ∧ 0 ≤ new_layout.occupancyLayer then c.occupancy
      else fun _ => unobservedOccupancyValue
    mean :=
      if 0 ≤ old_layout.meanLayer ∧ 0 ≤ new_layout.meanLayer then c.mean
      else fun _ => ⟨⟨0, 0, 0⟩, 0⟩ }

/-- Modelled from the spec: `OccupancyMap::updateLayout` (not part of the sources): the map
takes the new layout and every chunk is re-allocated for it. -/
def OccupancyMap.updateLayout (map : OccupancyMap) (new_layout : MapLayout) : OccupancyMap :=
  { map with
    layout := new_layout
    chunks := map.chunks.map (relayoutChunk map.layout new_layout) }

/-- Modelled from the spec: `OccupancyMap::addVoxelMeanLayer` (not part of the sources): the
layout gains a mean layer of `sizeof(VoxelMean)` bytes per voxel unless it has one. -/
def OccupancyMap.addVoxelMeanLayer (map : OccupancyMap) : OccupancyMap :=
  if 0 ≤ map.layout.meanLayer then map
  else map.updateLayout
    { map.layout with
      layers := map.layout.layers ++ [⟨sizeofVoxelMean, fun d => d⟩]
      meanLayer := map.layout.layers.length }

/-- A chunk with its stamps erased: region, occupancy values, mean records and first valid
index are kept. -/
def eraseStamps (c : MapChunk) : MapChunk :=
  { c with dirty_stamp := 0, touched_stamps := fun _ => 0 }

/-- The `last_chunk` pointer, when set, points to the chunk the store finds for the region of
that chunk. -/
def LoopState.CacheOK (s : LoopState) : Prop :=
  ∀ i, s.last_chunk = some i → findChunk s.chunks (chunkAt s.chunks i).region_coord = some i

/-- Two states of the loop agree up to stamps: both caches are sound and the chunk stores are
equal once the stamps are erased. -/
def LoopState.Sim (s s' : LoopState) : Prop :=
  s.CacheOK ∧ s'.CacheOK ∧ s.chunks.map eraseStamps = s'.chunks.map eraseStamps

/-! ## OpenCL utilities (`clu.cpp`) -/

/-- The terminating NUL character of a C string. -/
def nulChar : Char := Char.ofNat 0

/-- `isdigit` of the C library. -/
def isdigit (c : Char) : Bool := c.isDigit

/-- The character `version_string[index]`, given the characters from `index` on: the
terminating NUL once the characters are used up. -/
def cstrHead (rest : List Char) : Char := rest.headD nulChar

/-- First loop of `parseVersion`:
`while (version_string[index] && !isdigit(version_string[index])) ++index;`
on the characters from `index` on; the result is the rest from the final `index` on. -/
def skipNonDigits : List Char → List Char
  | [] => []
  | c :: rest => if c ≠ nulChar ∧ isdigit c = false then skipNonDigits rest else c :: rest

/-- The digit loops of `parseVersion`:
`while (version_string[index] && isdigit(version_string[index]))` with body
`have = true; version *= 10u; version += version_string[index] - '0'; ++index;`
in `cl_uint` arithmetic. The result is the version, the flag and the rest of the string. -/
def readDigits (version : Nat) (have_digits : Bool) : List Char → Nat × Bool × List Char
  | [] => (version, have_digits, [])
  | c :: rest =>
    if c ≠ nulChar ∧ isdigit c = true then
      readDigits ((version * 10 % 2 ^ 32 + (c.toNat - (48 : Nat))) % 2 ^ 32) true rest
    else (version, have_digits, c :: rest)

/-- `clu::parseVersion`. The output pointers are `none` when null and hold the pointed-to value
otherwise; the result is the returned flag and the two values after the call. -/
def parseVersion (version_string : List Char) (version_major version_minor : Option Nat) :
    Bool × Option Nat × Option Nat :=
  let rest := skipNonDigits version_string
  if cstrHead rest = nulChar then (false, version_major, version_minor)
  else
    let major := readDigits 0 false rest
    -- Verify and skip the '.'
    if cstrHead major.2.2 = nulChar ∨ cstrHead major.2.2.tail = nulChar then
      (false, version_major, version_minor)
    else
      let minor := readDigits 0 false major.2.2.tail
      (major.2.1 && minor.2.1, version_major.map (fun _ => major.1),
        version_minor.map (fun _ => minor.1))

/-- Decimal value of a string of digits. -/
def decimalValue (digits : List Char) : Nat :=
  digits.foldl (fun v c => v * 10 + (c.toNat - (48 : Nat))) 0

/-- The inner loop of `filterPlatforms` and `filterDevices` for one element:
`for (i = 0; i < constraint_count; ++i) if (!(*constraints)(element)) { ok = false; break; }`.
Every iteration calls `*constraints`, the first constraint of the array; `none` when the array
is empty and the call would read past it. -/
def constraintsOk {α : Type} (constraints : List (α → Bool)) (element : α) : Nat → Option Bool
  | 0 => some true
  | remaining + 1 =>
    match constraints.head? with
    | none => none
    | some constraint =>
      if constraint element = false then some false
      else constraintsOk constraints element remaining

/-- The erase loop of `filterPlatforms`: an element that passes is kept (`++iter`), any other is
erased from the vector. -/
def filterLoop {α : Type} (constraints : List (α → Bool)) (constraint_count : Nat) :
    List α → Option (List α)
  | [] => some []
  | element :: rest =>
    match constraintsOk constraints element constraint_count with
    | none => none
    | some true => (filterLoop constraints constraint_count rest).map (element :: ·)
    | some false => filterLoop constraints constraint_count rest

/-- `clu::filterPlatforms`: the returned flag `!platforms.empty()` and the vector after the
call. -/
def filterPlatforms {Platform : Type} (platforms : List Platform)
    (constraints : List (Platform → Bool)) (constraint_count : Nat) :
    Option (Bool × List Platform) :=
  (filterLoop constraints constraint_count platforms).map fun kept => (!kept.isEmpty, kept)

/-- `clu::filterDevices`: as `filterPlatforms`, the constraints also receive the platform. -/
def filterDevices {Platform Device : Type} (platform : Platform) (devices : List Device)
    (constraints : List (Platform → Device → Bool)) (constraint_count : Nat) :
    Option (Bool × List Device) :=
  (filterLoop (constraints.map fun constraint => constraint platform) constraint_count
    devices).map fun kept => (!kept.isEmpty, kept)

/-! ## The conical ray pattern (`RayPatternConical.cpp`) -/

/-- Dot product of two rational vectors (`glm::dot`). -/
def QVec3.dot (a b : QVec3) : ℚ := a.x * b.x + a.y * b.y + a.z * b.z

/-- The vector `deflection_base` of the constructor of `RayPatternConical`, built from the
normalised cone axis: `deflection_base(cone_normal.z, cone_normal.x, cone_normal.y)`. -/
def deflectionBase (cone_normal : QVec3) : QVec3 := ⟨cone_normal.z, cone_normal.x, cone_normal.y⟩

/-! ## Stream operators of glm vectors (`GlmStream.h`) -/

/-- Integer vector of two components (`glm::tvec2<int>`). -/
structure IVec2 where
  x : Int
  y : Int
deriving DecidableEq

/-- Integer vector of three components (`glm::tvec3<int>`). -/
structure IVec3 where
  x : Int
  y : Int
  z : Int
deriving DecidableEq

/-- Integer vector of four components (`glm::tvec4<int>`), in memory order `x, y, z, w`. -/
structure IVec4 where
  x : Int
  y : Int
  z : Int
  w : Int
deriving DecidableEq

/-- Input stream (`std::istream`): the characters not read yet, and whether `failbit` or `badbit`
is set. -/
structure IStream where
  chars : List Char
  failed : Bool
deriving DecidableEq

/-- `isspace` of the C library in the default locale. -/
def isspace (c : Char) : Bool := c.toNat = 32 || (9 ≤ c.toNat && c.toNat ≤ 13)

/-- `in.peek()`: the next character without extracting it, `none` at the end of the input or on
a failed stream. -/
def IStream.peek (s : IStream) : Option Char := if s.failed then none else s.chars.head?

/-- `in.setstate(std::ios::badbit | std::ios::failbit)`. -/
def IStream.setFailed (s : IStream) : IStream := { s with failed := true }

/-- `in >> ch` for a `char`: nothing happens on a failed stream; otherwise white space is skipped
and the next character extracted, or the stream fails at the end of the input and `ch` keeps its
value. -/
def IStream.readChar (s : IStream) (ch : Char) : IStream × Char :=
  if s.failed then (s, ch)
  else
    match s.chars.dropWhile isspace with
    | [] => (⟨[], true⟩, ch)
    | c :: rest => (⟨rest, false⟩, c)

/-- The digits an integer extraction accumulates: the value of the leading digits of the input,
their number, and the rest. -/
def readNat (value count : Nat) : List Char → Nat × Nat × List Char
  | [] => (value, count, [])
  | c :: rest =>
    if isdigit c then readNat (value * 10 + (c.toNat - (48 : Nat))) (count + 1) rest
    else (value, count, c :: rest)

/-- The value an `int` extraction stores and whether it fails: zero and failure without digits,
the nearest limit and failure out of the range of `int`. -/
def storeInt (negative : Bool) (digits : Nat × Nat × List Char) : IStream × Int :=
  let value : Int := if negative then -(digits.1 : Int) else digits.1
  if digits.2.1 = 0 then (⟨digits.2.2, true⟩, 0)
  else if value < -(2 ^ 31) then (⟨digits.2.2, true⟩, -(2 ^ 31))
  else if 2 ^ 31 - 1 < value then (⟨digits.2.2, true⟩, 2 ^ 31 - 1)
  else (⟨digits.2.2, false⟩, value)

/-- `in >> v[i]` for an `int`: nothing happens on a failed stream; otherwise white space is
skipped; when the input ends there the stream fails and the variable keeps its value, otherwise
an optional sign and the digits are extracted. -/
def IStream.readInt (s : IStream) (value : Int) : IStream × Int :=
  if s.failed then (s, value)
  else
    match s.chars.dropWhile isspace with
    | [] => (⟨[], true⟩, value)
    | c :: rest =>
      if c.toNat = 45 then storeInt true (readNat 0 0 rest)
      else if c.toNat = 43 then storeInt false (readNat 0 0 rest)
      else storeInt false (readNat 0 0 (c :: rest))

/-- The loop `for (int i = 0; i < elements; ++i)` of `parseVector`, from index `i` with
`remaining` rounds to go: a comma is expected before every element but the first. -/
def parseElements : (remaining i : Nat) → IStream → Char → List Int → IStream × Char × List Int
  | 0, _, s, ch, v => (s, ch, v)
  | remaining + 1, i, s, ch, v =>
    let separator :=
      if i ≠ 0 then
        let r := s.readChar ch
        if r.2.toNat ≠ 44 then (r.1.setFailed, r.2) else r
      else (s, ch)
    let r := separator.1.readInt (v.getD i 0)
    parseElements remaining (i + 1) r.1 separator.2 (v.set i r.2)

/-- `parseVector(in, v, elements)` for `int` elements; `ch` is the value the uninitialised local
`ch` starts with. -/
def parseVector (s : IStream) (v : List Int) (elements : Nat) (ch : Char) : IStream × List Int :=
  let brackets := s.peek = some (Char.ofNat 40)
  let opened := if brackets then s.readChar ch else (s, ch)
  let r := parseElements elements 0 opened.1 opened.2 v
  if brackets then
    let closed := r.1.readChar r.2.1
    if closed.2.toNat ≠ 41 then (closed.1.setFailed, r.2.2) else (closed.1, r.2.2)
  else (r.1, r.2.2)

/-- `operator>>` for `glm::tvec2`: `parseVector(in, glm::value_ptr(value), 2)`. -/
def readVec2 (s : IStream) (value : IVec2) (ch : Char) : IStream × IVec2 :=
  let r := parseVector s [value.x, value.y] 2 ch
  (r.1, ⟨r.2.getD 0 0, r.2.getD 1 0⟩)

/-- `operator>>` for `glm::tvec3`: `parseVector(in, glm::value_ptr(value), 3)`. -/
def readVec3 (s : IStream) (value : IVec3) (ch : Char) : IStream × IVec3 :=
  let r := parseVector s [value.x, value.y, value.z] 3 ch
  (r.1, ⟨r.2.getD 0 0, r.2.getD 1 0, r.2.getD 2 0⟩)

/-- `operator>>` for `glm::tvec4`: `parseVector(in, glm::value_ptr(value), 4)`, which fills the
components in memory order `x, y, z, w`. -/
def readVec4 (s : IStream) (value : IVec4) (ch : Char) : IStream × IVec4 :=
  let r := parseVector s [value.x, value.y, value.z, value.w] 4 ch
  (r.1, ⟨r.2.getD 0 0, r.2.getD 1 0, r.2.getD 2 0, r.2.getD 3 0⟩)

/-- `out << n` for an `int`: the decimal digits, after a minus sign for a negative value. -/
def writeInt (n : Int) : List Char :=
  if n < 0 then Char.ofNat 45 :: Nat.toDigits 10 n.natAbs else Nat.toDigits 10 n.toNat

/-- `operator<<` for `glm::tvec2`: `out << '(' << v.x << ',' << v.y << ')'`. -/
def writeVec2 (out : List Char) (v : IVec2) : List Char :=
  out ++ [Char.ofNat 40] ++ writeInt v.x ++ [Char.ofNat 44] ++ writeInt v.y ++ [Char.ofNat 41]

/-- `operator<<` for `glm::tvec3`:
`out << '(' << v.x << ',' << v.y << ',' << v.z << ')'`. -/
def writeVec3 (out : List Char) (v : IVec3) : List Char :=
  out ++ [Char.ofNat 40] ++ writeInt v.x ++ [Char.ofNat 44] ++ writeInt v.y ++ [Char.ofNat 44] ++
    writeInt v.z ++ [Char.ofNat 41]

/-- `operator<<` for `glm::tvec4`:
`out << '(' << v.w << ',' << v.x << ',' << v.y << ',' << v.z << ')'`. -/
def writeVec4 (out : List Char) (v : IVec4) : List Char :=
  out ++ [Char.ofNat 40] ++ writeInt v.w ++ [Char.ofNat 44] ++ writeInt v.x ++ [Char.ofNat 44] ++
    writeInt v.y ++ [Char.ofNat 44] ++ writeInt v.z ++ [Char.ofNat 41]

/-- The value is in the range of `int`. -/
def inIntRange (n : Int) : Prop := -(2 ^ 31) ≤ n ∧ n ≤ 2 ^ 31 - 1

instance (n : Int) : Decidable (inIntRange n) := by
  unfold inIntRange
  exact inferInstance

/-! ## Segment keys (`CalculateSegmentKeys.cpp`) -/

/-- Modelled from the spec: `KeyList::clear` (`KeyList.h` is not part of the sources). -/
def KeyList.clear (_keys : List Key) : List Key := []

/-- Modelled from the spec: `KeyList::add` (`KeyList.h` is not part of the sources): the key is
added at the end of the list. -/
def KeyList.add (keys : List Key) (key : Key) : List Key := keys ++ [key]

/-- `calculateSegmentKeys`: the list is cleared and the walker adds every key it visits. The
result is the value returned (modelled from the spec: the number of keys walked) and the list
after the call. -/
def calculateSegmentKeys (keys : List Key) (map : OccupancyMap) (start_point end_point : DVec3)
    (include_end_point : Bool) : Nat × List Key :=
  let start_point_local := start_point.sub map.origin
  let end_point_local := end_point.sub map.origin
  let walked := walkSegmentKeys map start_point_local end_point_local include_end_point
  (walked.length, walked.foldl KeyList.add (KeyList.clear keys))

/-! ## The loop of `integrateRays` without the chunk cache -/

/-- State of the loop without `last_chunk`: the chunk store and `stop_adjustments`. -/
structure UncachedState where
  chunks : List MapChunk
  stop_adjustments : Bool

/-- As `visit_func`, with `map_->region(key.regionKey(), true)` looked up for every key. -/
def visitUncached (mapper : RayMapperOccupancy) (map : OccupancyMap)
    (ray_update_flags touch_stamp : Nat) (s : UncachedState) (key : Key) : UncachedState :=
  let sel := region s.chunks key.regionKey
  let voxel_index := voxelIndex key mapper.occupancy_dim
  let initial_value := (chunkAt sel.1 sel.2).occupancy voxel_index
  let is_occupied := isOccupied map initial_value
  { chunks := modifyChunk (missChunk mapper map touch_stamp s.stop_adjustments voxel_index) sel.1 sel.2
    stop_adjustments :=
      s.stop_adjustments || (flagSet ray_update_flags kRfStopOnFirstOccupied && is_occupied) }

/-- As `hitPass`, with the region of the sample voxel looked up in the store. -/
def hitPassUncached (mapper : RayMapperOccupancy) (map : OccupancyMap) (touch_stamp : Nat)
    (s : UncachedState) (end_ : DVec3) : UncachedState :=
  let key := map.voxelKey end_
  let sel := region s.chunks key.regionKey
  { chunks := modifyChunk (hitChunk mapper map touch_stamp s.stop_adjustments key end_) sel.1 sel.2
    stop_adjustments := s.stop_adjustments }

/-- As `integrateAccepted`, without the cache. -/
def integrateAcceptedUncached (mapper : RayMapperOccupancy) (map : OccupancyMap)
    (ray_update_flags touch_stamp : Nat) (s : UncachedState) (start end_ : DVec3)
    (filter_flags : Nat) : UncachedState :=
  let include_sample_in_ray := includeSampleInRay filter_flags ray_update_flags
  let s1 :=
    if !flagSet ray_update_flags kRfExcludeRay then
      (walkSegmentKeys map (start.sub map.origin) (end_.sub map.origin)
        include_sample_in_ray).foldl
        (visitUncached mapper map ray_update_flags touch_stamp) { s with stop_adjustments := false }
    else s
  if hitCondition s1.stop_adjustments include_sample_in_ray ray_update_flags then
    hitPassUncached mapper map touch_stamp s1 end_
  else s1

/-- As `integrateRay`, without the cache. -/
def integrateRayUncached (mapper : RayMapperOccupancy) (map : OccupancyMap)
    (ray_update_flags touch_stamp : Nat) (s : UncachedState) (ray_start ray_end : DVec3) :
    UncachedState :=
  match map.rayFilter with
  | some ray_filter =>
    match ray_filter ray_start ray_end 0 with
    | (false, _, _, _) => s
    | (true, start, end_, filter_flags) =>
      integrateAcceptedUncached mapper map ray_update_flags touch_stamp s start end_ filter_flags
  | none => integrateAcceptedUncached mapper map ray_update_flags touch_stamp s ray_start ray_end 0

/-- As `integrateLoop`, without the cache. -/
def integrateLoopUncached (mapper : RayMapperOccupancy) (map : OccupancyMap)
    (ray_update_flags touch_stamp : Nat) : List DVec3 → UncachedState → Option UncachedState
  | [], s => some s
  | [_], _ => none
  | ray_start :: ray_end :: rest, s =>
    integrateLoopUncached mapper map ray_update_flags touch_stamp rest
      (integrateRayUncached mapper map ray_update_flags touch_stamp s ray_start ray_end)

/-- As `integrateRays`, with an uncached region lookup for every voxel. -/
def integrateRaysUncached (mapper : RayMapperOccupancy) (map : OccupancyMap)
    (rays : List DVec3) (ray_update_flags : Nat) : Option (Nat × OccupancyMap) :=
  let touched := map.touch
  match integrateLoopUncached mapper map ray_update_flags touched.1 rays
      ⟨touched.2.chunks, false⟩ with
  | none => none
  | some s => some (rays.length / 2, { touched.2 with chunks := s.chunks })

/-- The state of the loop with the cache matches a state of the loop without it: the cache is
sound, and chunk store and `stop_adjustments` are the same. -/
def CacheRel (s : LoopState) (u : UncachedState) : Prop :=
  s.CacheOK ∧ s.chunks = u.chunks ∧ s.stop_adjustments = u.stop_adjustments

/-! ## The first valid voxel hint -/

/-- Invariant of the hint `first_valid_index` of a chunk: the hint is invalid only while no
voxel of the chunk has been written, and every voxel with a linear index below a valid hint is
unobserved. -/
def FirstValidInv (c : MapChunk) : Prop :=
  match c.first_valid_index with
  | none => ∀ v, c.occupancy v = unobservedOccupancyValue
  | some i => ∀ v, v < i → c.occupancy v = unobservedOccupancyValue

/-- The hint of `c'` is not above the hint of `c`: a valid hint stays valid and does not grow
(the invalid marker counts as above every index). -/
def HintNotRaised (c c' : MapChunk) : Prop :=
  ∀ i, c.first_valid_index = some i → ∃ i', c'.first_valid_index = some i' ∧ i' ≤ i

/-! ## The index of the loop of `integrateRays` -/

/-- The largest value of `size_t` (64 bits). -/
def sizeMax : Nat := 2 ^ 64 - 1

/-- The control of the loop `for (size_t i = 0; i < element_count; i += 2)` of `integrateRays`
from the index `i` on: the indices with which the body runs, in order (the body reads `rays[i]`
and `rays[i + 1]`); `none` when the loop is still running after `fuel` tests of its
condition. -/
def loopIndices (element_count : Nat) : (fuel i : Nat) → Option (List Nat)
  | 0, _ => none
  | fuel + 1, i =>
    if i < element_count then
      (loopIndices element_count fuel ((i + 2) % 2 ^ 64)).map (i :: ·)
    else some []

/-! ## Batching of the rays in `ohmpop` (`ohmpop.cpp`) -/

/-- A point as `loader.nextPoint(sample, &origin, &timestamp)` returns it; the time stamp in
fixed point. -/
structure LoadedPoint where
  sample : DVec3
  origin : DVec3
  timestamp : Int
deriving DecidableEq

/-- The options the population loop of `populateMap` reads. -/
structure PopulateOptions where
  point_limit : Nat
  start_time : Int
  time_limit : Int
  batch_size : Nat

/-- The variables of the population loop: the 64 bit counter `point_count`, `timebase`,
`last_timestamp` and the buffer `origin_sample_pairs`; `calls` records the arrays passed to
`integrateRays`, in call order, and `accepted` the points that reached `++point_count`. The
progress display and the mapper update, which do not act on these variables, are left out. -/
structure PopulateState where
  point_count : Nat
  timebase : Int
  last_timestamp : Int
  origin_sample_pairs : List DVec3
  calls : List (List DVec3)
  accepted : List LoadedPoint

/-- The array a call `integrateRays(origin_sample_pairs.data(),
unsigned(origin_sample_pairs.size()))` passes: the first `unsigned(size)` elements of the
buffer. -/
def passedArray (origin_sample_pairs : List DVec3) : List DVec3 :=
  origin_sample_pairs.take (origin_sample_pairs.length % 2 ^ 32)

/-- The population loop of `populateMap` over the points the loader still has; `quit` is the
value of the quit flag during the loop. -/
def populateLoop (opt : PopulateOptions) (quit : Bool) :
    List LoadedPoint → PopulateState → PopulateState
  | [], st => st
  | p :: rest, st =>
    if (st.point_count < opt.point_limit ∨ opt.point_limit = 0) ∧
        (st.last_timestamp - st.timebase < opt.time_limit ∨ opt.time_limit = 0) then
      let timebase := if st.timebase < 0 then p.timestamp else st.timebase
      if p.timestamp - timebase < opt.start_time then
        populateLoop opt quit rest { st with timebase := timebase }
      else
        let last_timestamp := if st.last_timestamp < 0 then p.timestamp else st.last_timestamp
        let point_count := (st.point_count + 1) % 2 ^ 64
        let origin_sample_pairs := st.origin_sample_pairs ++ [p.origin, p.sample]
        if point_count % opt.batch_size = 0 ∨ quit = true then
          let flushed : PopulateState :=
            { point_count := point_count
              timebase := timebase
              last_timestamp := p.timestamp
              origin_sample_pairs := []
              calls := st.calls ++ [passedArray origin_sample_pairs]
              accepted := st.accepted ++ [p] }
          if (opt.point_limit ≠ 0 ∧ opt.point_limit ≤ point_count) ∨
              (opt.time_limit ≠ 0 ∧ opt.time_limit ≤ p.timestamp - timebase) ∨ quit = true then
            flushed
          else populateLoop opt quit rest flushed
        else
          populateLoop opt quit rest
            { point_count := point_count
              timebase := timebase
              last_timestamp := last_timestamp
              origin_sample_pairs := origin_sample_pairs
              calls := st.calls
              accepted := st.accepted ++ [p] }
    else st

/-- The population loop of `populateMap` from its initial state, followed by the flush of the
rays left in the buffer. -/
def populateMap (opt : PopulateOptions) (quit : Bool) (points : List LoadedPoint) :
    PopulateState :=
  let st := populateLoop opt quit points ⟨0, -1, -1, [], [], []⟩
  if !st.origin_sample_pairs.isEmpty then
    { st with
      calls := st.calls ++ [passedArray st.origin_sample_pairs]
      origin_sample_pairs := [] }
  else st

/-- The sequence `origin, sample` of a list of points. -/
def originSamplePairs (points : List LoadedPoint) : List DVec3 :=
  points.flatMap fun p => [p.origin, p.sample]

/-- Invariant of the population loop: the arrays passed and the buffer make up the accepted
points, the buffer holds the points counted since the last multiple of the batch size, and
every array passed has an even length of at most twice the batch size. -/
def PopulateInv (opt : PopulateOptions) (st : PopulateState) : Prop :=
  st.calls.flatten ++ st.origin_sample_pairs = originSamplePairs st.accepted ∧
    st.origin_sample_pairs.length = 2 * (st.point_count % opt.batch_size) ∧
    st.point_count < 2 ^ 64 ∧
    ∀ a ∈ st.calls, a.length % 2 = 0 ∧ a.length ≤ 2 * opt.batch_size

/-! ## Notions for the voxel of a sample -/

/-- State of the loop of `integrateRays` after the pairs of the array `rays` have been
integrated. -/
def stateAfter (mapper : RayMapperOccupancy) (map : OccupancyMap)
    (ray_update_flags touch_stamp : Nat) (rays : List DVec3) : LoopState :=
  (rayPairs rays).foldl
    (fun s p => integrateRay mapper map ray_update_flags touch_stamp s p.1 p.2)
    ⟨map.chunks, none, false⟩

/-- The store holds the voxel with index `v` of the region `coord` in the chunk at position `p`,
with the given occupancy value and mean record, and the cache of the loop is sound. -/
def VoxelHeld (s : LoopState) (coord : I16Vec3) (p v : Nat) (occupancy : Int)
    (mean : VoxelMean) : Prop :=
  s.CacheOK ∧ findChunk s.chunks coord = some p ∧
    (chunkAt s.chunks p).occupancy v = occupancy ∧ (chunkAt s.chunks p).mean v = mean

/-! ## Concrete maps -/

/-- Layout with the occupancy layer only (no mean layer). -/
def occupancyOnlyLayout : MapLayout := ⟨[⟨4, fun d => d⟩], 0, -1⟩

/-- Empty map of the scenarios S3 and S4: resolution 1.0 (1000 units), regions of 8 x 8 x 8
voxels, log-odds in thousandths (hit 0.847, miss -0.405, clamps -2.0 and 3.511), no saturation,
no ray filter. -/
def scenarioMap : OccupancyMap :=
  { layout := occupancyOnlyLayout
    regionVoxelDimensions := ⟨8, 8, 8⟩
    origin := ⟨0, 0, 0⟩
    resolution := 1000
    occupancyThresholdValue := 0
    missValue := -405
    hitValue := 847
    minVoxelValue := -2000
    maxVoxelValue := 3511
    saturateAtMinValue := false
    saturateAtMaxValue := false
    rayFilter := none
    stamp := 0
    chunks := [] }

/-- Ray filter that rejects every ray. -/
def rejectAllFilter : RayFilterFunction := fun ray_start ray_end filter_flags =>
  (false, ray_start, ray_end, filter_flags)

/-- The scenario map with the filter that rejects every ray installed. -/
def rejectingMap : OccupancyMap := { scenarioMap with rayFilter := some rejectAllFilter }

/-- Chunk of scenario S3: region (0,0,0) with voxel (2,0,0) at the maximum voxel value. -/
def s3Chunk : MapChunk :=
  { newChunk ⟨0, 0, 0⟩ with
    occupancy := Function.update (fun _ => unobservedOccupancyValue) 2 3511
    first_valid_index := some 2 }

/-- Map of scenario S3. -/
def s3Map : OccupancyMap := { scenarioMap with chunks := [s3Chunk] }

/-- Chunk of scenario S4: region (0,0,0) with voxel (3,0,0) at the hit value. -/
def s4Chunk : MapChunk :=
  { newChunk ⟨0, 0, 0⟩ with
    occupancy := Function.update (fun _ => unobservedOccupancyValue) 3 847
    first_valid_index := some 3 }

/-- Map of scenario S4. -/
def s4Map : OccupancyMap := { scenarioMap with chunks := [s4Chunk] }

/-- Key of the voxel `(x, 0, 0)` of region (0,0,0). -/
def xKey (x : Nat) : Key := ⟨⟨0, 0, 0⟩, ⟨x, 0, 0⟩⟩

/-- Occupancy value of a voxel after `integrateRays`, by chunk position and voxel index. -/
def occupancyAfter (result : Option (Nat × OccupancyMap)) (chunk voxel_index : Nat) : Option Int :=
  result.map fun r => (chunkAt r.2.chunks chunk).occupancy voxel_index

/-- Map of scenario S3 with saturation at the maximum and voxel (2,0,0) at the hit value. -/
def s3SaturatingMap : OccupancyMap :=
  { scenarioMap with
    saturateAtMaxValue := true
    chunks := [{ s3Chunk with occupancy := Function.update (fun _ => unobservedOccupancyValue) 2 847 }] }

/-- Empty map of the voxel mean tests: created with `MapFlag::kVoxelMean`, resolution 0.5
(500 units), regions of 32 x 32 x 32 voxels, no ray filter. -/
def voxelMeanMap : OccupancyMap :=
  { scenarioMap with
    layout := layoutOfFlags MapFlag.kVoxelMean
    regionVoxelDimensions := ⟨32, 32, 32⟩
    resolution := 500 }

/-- The voxel mean map with one chunk for region (0,0,0) in which the voxel of the sample
(1.1, 1.1, 1.1) is occupied and has the given sample count. -/
def countedMeanMap (count : Nat) : OccupancyMap :=
  { voxelMeanMap with
    chunks := [{ newChunk ⟨0, 0, 0⟩ with
      occupancy := Function.update (fun _ => unobservedOccupancyValue) 2114 847
      mean := Function.update (fun _ => ⟨⟨0, 0, 0⟩, 0⟩) 2114 ⟨⟨0, 0, 0⟩, count⟩
      first_valid_index := some 2114 }] }

/-- Sample count of a voxel after `integrateRays`, by chunk position and voxel index. -/
def meanCountAfter (result : Option (Nat × OccupancyMap)) (chunk voxel_index : Nat) : Option Nat :=
  result.map fun r => ((chunkAt r.2.chunks chunk).mean voxel_index).count

/-- The voxel mean map with a mean layer of 4 bytes per voxel, which does not fit
`sizeof(VoxelMean)`. -/
def mismatchedMeanMap : OccupancyMap :=
  { voxelMeanMap with layout := ⟨[⟨4, fun d => d⟩, ⟨4, fun d => d⟩], 0, 1⟩ }

/-- The map of scenario S3 with saturation at the maximum voxel value enabled: voxel (2,0,0)
holds the maximum voxel value and is saturated. -/
def s3LatchedMap : OccupancyMap := { s3Map with saturateAtMaxValue := true }

/-- The rays of the voxel mean test: from the origin to (1.1, 1.1, 1.1), (-2.4, -2.4, -2.4) and
(1, -2.2, -3.3). -/
def voxelMeanRays : List DVec3 :=
  [⟨0, 0, 0⟩, ⟨1100, 1100, 1100⟩, ⟨0, 0, 0⟩, ⟨-2400, -2400, -2400⟩, ⟨0, 0, 0⟩, ⟨1000, -2200, -3300⟩]

/-- Positions of the position round trip test: 0.0, 0.05, .., 0.50 on all axes. -/
def meanTestPositions : List DVec3 :=
  [⟨0, 0, 0⟩, ⟨50, 50, 50⟩, ⟨100, 100, 100⟩, ⟨150, 150, 150⟩, ⟨200, 200, 200⟩, ⟨250, 250, 250⟩,
    ⟨300, 300, 300⟩, ⟨350, 350, 350⟩, ⟨400, 400, 400⟩, ⟨450, 450, 450⟩, ⟨500, 500, 500⟩]

/-- Two rays from the origin whose samples (1.1, 1.1, 1.1) and (1.4, 1.4, 1.4) lie in the same
voxel. -/
def sameVoxelRays : List DVec3 :=
  [⟨0, 0, 0⟩, ⟨1100, 1100, 1100⟩, ⟨0, 0, 0⟩, ⟨1400, 1400, 1400⟩]

/-- A ray from the origin to the sample (1.1, 1.1, 1.1) followed by three rays from the origin
through the voxel of that sample to (2.2, 2.2, 2.2). -/
def crossingRays : List DVec3 :=
  [⟨0, 0, 0⟩, ⟨1100, 1100, 1100⟩, ⟨0, 0, 0⟩, ⟨2200, 2200, 2200⟩, ⟨0, 0, 0⟩, ⟨2200, 2200, 2200⟩,
    ⟨0, 0, 0⟩, ⟨2200, 2200, 2200⟩]

/-- Map of the layout toggle test: created with the default flags (no mean layer), resolution
0.5, with one chunk in which the voxel of the sample (1.1, 1.1, 1.1) holds the hit value. -/
def layoutToggleMap : OccupancyMap :=
  { voxelMeanMap with
    layout := layoutOfFlags MapFlag.kDefault
    chunks := [{ newChunk ⟨0, 0, 0⟩ with
      occupancy := Function.update (fun _ => unobservedOccupancyValue) 2114 847
      first_valid_index := some 2114 }] }

/-- A batch of one ray along the x axis, from the origin to x = 2.0. -/
def firstBatch : List DVec3 := [⟨0, 0, 0⟩, ⟨2000, 0, 0⟩]

/-- A batch of one ray along the x axis, from the origin to x = 5.0. -/
def secondBatch : List DVec3 := [⟨0, 0, 0⟩, ⟨5000, 0, 0⟩]

/-- Options with a batch size of `2^31` rays and no limit on points or time. -/
def largeBatchOptions : PopulateOptions := ⟨0, 0, 0, 2 ^ 31⟩

/-- A point with time stamp 0. -/
def firstPoint : LoadedPoint := ⟨⟨1000, 0, 0⟩, ⟨0, 0, 0⟩, 0⟩

/-- Three points with the time stamps 0, 1 and 2. -/
def loadedPoints : List LoadedPoint :=
  [⟨⟨1000, 0, 0⟩, ⟨0, 0, 0⟩, 0⟩, ⟨⟨2000, 0, 0⟩, ⟨0, 0, 0⟩, 1000⟩, ⟨⟨3000, 0, 0⟩, ⟨0, 0, 0⟩, 2000⟩]

/-- The first ray of the voxel mean test. -/
def meanRaysBefore : List DVec3 := [⟨0, 0, 0⟩, ⟨1100, 1100, 1100⟩]

/-- The third ray of the voxel mean test. -/
def meanRaysAfter : List DVec3 := [⟨0, 0, 0⟩, ⟨1000, -2200, -3300⟩]

/-! ## The chunk store under selection and writes -/

theorem findChunk_some {cs : List MapChunk} {coord : I16Vec3} {i : Nat}
    (h : findChunk cs coord = some i) : i < cs.length ∧ (chunkAt cs i).region_coord = coord := by
  induction cs generalizing i with
  | nil => simp [findChunk] at h
  | cons c cs ih =>
    unfold findChunk at h
    split at h
    · rename_i hc
      cases h
      simp [chunkAt, hc]
    · cases hf : findChunk cs coord with
      | none => simp [hf] at h
      | some k =>
        simp [hf] at h
        subst h
        have := ih hf
        simpa [chunkAt] using this

theorem chunkAt_ge {cs : List MapChunk} {i : Nat} (h : cs.length ≤ i) : chunkAt cs i = default := by
  simp [chunkAt, List.getElem?_eq_none h]

theorem chunkAt_append_lt (cs : List MapChunk) (c : MapChunk) {j : Nat} (h : j < cs.length) :
    chunkAt (cs ++ [c]) j = chunkAt cs j := by
  simp [chunkAt, List.getElem?_append_left h]

theorem chunkAt_append_length (cs : List MapChunk) (c : MapChunk) :
    chunkAt (cs ++ [c]) cs.length = c := by
  simp [chunkAt]

/-- The store a chunk selection returns: the store itself or the store with a new chunk. -/
theorem region_cases (cs : List MapChunk) (coord : I16Vec3) :
    ((region cs coord).1 = cs ∧ (region cs coord).2 < cs.length ∧
        (chunkAt cs (region cs coord).2).region_coord = coord) ∨
      ((region cs coord).1 = cs ++ [newChunk coord] ∧ (region cs coord).2 = cs.length) := by
  unfold region
  cases h : findChunk cs coord with
  | none => right; simp
  | some i => left; simpa using findChunk_some h

theorem selectChunk_cases {s : LoopState} (hs : s.Valid) (coord : I16Vec3) :
    ((selectChunk s coord).1 = s.chunks ∧ (selectChunk s coord).2 < s.chunks.length ∧
        (chunkAt s.chunks (selectChunk s coord).2).region_coord = coord) ∨
      ((selectChunk s coord).1 = s.chunks ++ [newChunk coord] ∧
        (selectChunk s coord).2 = s.chunks.length) := by
  unfold selectChunk
  cases h : s.last_chunk with
  | none => simpa using region_cases s.chunks coord
  | some i =>
    by_cases hc : (chunkAt s.chunks i).region_coord = coord
    · left; simpa [hc] using hs i h
    · simpa [hc] using region_cases s.chunks coord

theorem length_modifyChunk (f : MapChunk → MapChunk) (cs : List MapChunk) (i : Nat) :
    (modifyChunk f cs i).length = cs.length := by
  induction cs generalizing i with
  | nil => rfl
  | cons c cs ih => cases i <;> simp [modifyChunk, ih]

theorem chunkAt_modifyChunk_self (f : MapChunk → MapChunk) {cs : List MapChunk} {i : Nat}
    (h : i < cs.length) : chunkAt (modifyChunk f cs i) i = f (chunkAt cs i) := by
  induction cs generalizing i with
  | nil => simp at h
  | cons c cs ih =>
    cases i with
    | zero => simp [modifyChunk, chunkAt]
    | succ i =>
      have := ih (i := i) (by simpa using h)
      simpa [modifyChunk, chunkAt] using this

theorem chunkAt_modifyChunk_ne (f : MapChunk → MapChunk) (cs : List MapChunk) {i j : Nat}
    (h : j ≠ i) : chunkAt (modifyChunk f cs i) j = chunkAt cs j := by
  induction cs generalizing i j with
  | nil => simp [modifyChunk]
  | cons c cs ih =>
    cases i with
    | zero =>
      cases j with
      | zero => exact absurd rfl h
      | succ j => simp [modifyChunk, chunkAt]
    | succ i =>
      cases j with
      | zero => simp [modifyChunk, chunkAt]
      | succ j =>
        have := ih (i := i) (j := j) (by omega)
        simpa [modifyChunk, chunkAt] using this

theorem with_region_coord {c : MapChunk} {coord : I16Vec3} (h : c.region_coord = coord) :
    c = { c with region_coord := coord } := by
  subst h
  rfl

/-- Writing through the selected chunk: the chunk written is the chunk of the region (fresh when
the region had none), every other position of the store keeps its chunk. -/
theorem select_write {s : LoopState} (hs : s.Valid) (coord : I16Vec3) (f : MapChunk → MapChunk) :
    (selectChunk s coord).2 < (modifyChunk f (selectChunk s coord).1 (selectChunk s coord).2).length ∧
    chunkAt (modifyChunk f (selectChunk s coord).1 (selectChunk s coord).2) (selectChunk s coord).2 =
      f { chunkAt s.chunks (selectChunk s coord).2 with region_coord := coord } ∧
    (∀ j, j ≠ (selectChunk s coord).2 →
      chunkAt (modifyChunk f (selectChunk s coord).1 (selectChunk s coord).2) j = chunkAt s.chunks j) ∧
    s.chunks.length ≤ (modifyChunk f (selectChunk s coord).1 (selectChunk s coord).2).length ∧
    (modifyChunk f (selectChunk s coord).1 (selectChunk s coord).2).length ≤ s.chunks.length + 1 := by
  rcases selectChunk_cases hs coord with ⟨h1, h2, h3⟩ | ⟨h1, h2⟩
  · rw [h1]
    refine ⟨by rw [length_modifyChunk]; exact h2, ?_, ?_, by rw [length_modifyChunk],
      by rw [length_modifyChunk]; omega⟩
    · rw [chunkAt_modifyChunk_self f h2]
      exact congrArg f (with_region_coord h3)
    · intro j hj
      exact chunkAt_modifyChunk_ne f _ hj
  · rw [h1, h2]
    refine ⟨by rw [length_modifyChunk]; simp, ?_, ?_, by rw [length_modifyChunk]; simp,
      by rw [length_modifyChunk]; simp⟩
    · rw [chunkAt_modifyChunk_self f (by simp), chunkAt_append_length, chunkAt_ge (le_refl _)]
      rfl
    · intro j hj
      rw [chunkAt_modifyChunk_ne f _ hj]
      rcases Nat.lt_or_gt_of_ne hj with h | h
      · exact chunkAt_append_lt _ _ h
      · rw [chunkAt_ge (by simp; omega), chunkAt_ge (by omega)]

theorem visit_func_valid (mapper : RayMapperOccupancy) (map : OccupancyMap) (flags ts : Nat)
    {s : LoopState} (hs : s.Valid) (key : Key) : (visit_func mapper map flags ts s key).Valid := by
  intro i hi
  simp only [visit_func] at hi ⊢
  cases hi
  exact (select_write hs key.regionKey _).1

theorem hitPass_valid (mapper : RayMapperOccupancy) (map : OccupancyMap) (ts : Nat)
    {s : LoopState} (hs : s.Valid) (end_ : DVec3) : (hitPass mapper map ts s end_).Valid := by
  intro i hi
  simp only [hitPass] at hi ⊢
  cases hi
  exact (select_write hs _ _).1

theorem foldl_visit_valid (mapper : RayMapperOccupancy) (map : OccupancyMap) (flags ts : Nat)
    (keys : List Key) {s : LoopState} (hs : s.Valid) :
    (keys.foldl (visit_func mapper map flags ts) s).Valid := by
  induction keys generalizing s with
  | nil => exact hs
  | cons k ks ih => exact ih (visit_func_valid mapper map flags ts hs k)

/-! ## The loop over the rays -/

/-- The loop of `integrateRays` runs to its end on an array of even length, and a property
every iteration keeps holds at the end. -/
theorem integrateLoop_inv (mapper : RayMapperOccupancy) (map : OccupancyMap) (flags ts : Nat)
    (P : LoopState → Prop) :
    ∀ (rays : List DVec3) (s : LoopState), rays.length % 2 = 0 → P s →
      (∀ s a b, (a, b) ∈ rayPairs rays → P s → P (integrateRay mapper map flags ts s a b)) →
      ∃ s', integrateLoop mapper map flags ts rays s = some s' ∧ P s'
  | [], s, _, hp, _ => ⟨s, rfl, hp⟩
  | [_], _, h, _, _ => by simp at h
  | a :: b :: rest, s, h, hp, hstep => by
    have hlen : rest.length % 2 = 0 := by
      simp only [List.length_cons] at h
      omega
    have hp' := hstep s a b (by simp [rayPairs]) hp
    obtain ⟨s', hs', hP⟩ := integrateLoop_inv mapper map flags ts P rest _ hlen hp'
      (fun s a' b' hm => hstep s a' b' (by simp [rayPairs, hm]))
    exact ⟨s', by simpa [integrateLoop] using hs', hP⟩

theorem rayPairs_length : ∀ (rays : List DVec3), (rayPairs rays).length = rays.length / 2
  | [] => rfl
  | [_] => by simp [rayPairs]
  | a :: b :: rest => by
    simp only [rayPairs, List.length_cons, rayPairs_length rest]
    omega

theorem integrateRays_of_loop {mapper : RayMapperOccupancy} {map : OccupancyMap} {rays : List DVec3}
    {flags : Nat} {s' : LoopState}
    (h : integrateLoop mapper map flags map.touch.1 rays ⟨map.touch.2.chunks, none, false⟩ = some s') :
    mapper.integrateRays map rays flags =
      some (rays.length / 2, { map.touch.2 with chunks := s'.chunks }) := by
  simp only [RayMapperOccupancy.integrateRays, h]

/-- On an array of even length the loop of `integrateRays` is the loop body folded over the
pairs of the array, in order. -/
theorem integrateLoop_eq_foldl (mapper : RayMapperOccupancy) (map : OccupancyMap) (flags ts : Nat) :
    ∀ (rays : List DVec3) (s : LoopState), rays.length % 2 = 0 →
      integrateLoop mapper map flags ts rays s =
        some ((rayPairs rays).foldl (fun s p => integrateRay mapper map flags ts s p.1 p.2) s)
  | [], _, _ => rfl
  | [_], _, h => by simp at h
  | a :: b :: rest, s, h => by
    have hlen : rest.length % 2 = 0 := by
      simp only [List.length_cons] at h
      omega
    simp only [integrateLoop, rayPairs, List.foldl_cons]
    exact integrateLoop_eq_foldl mapper map flags ts rest _ hlen

/-- The map `integrateRays` leaves for an array of even length: the stamp counter advanced by
`touch()` and the chunk store the loop body, folded over the pairs, produces from the store on
entry. -/
theorem integrateRays_eq_foldl (mapper : RayMapperOccupancy) (map : OccupancyMap)
    (rays : List DVec3) (flags : Nat) (heven : rays.length % 2 = 0) :
    mapper.integrateRays map rays flags =
      some (rays.length / 2,
        { map.touch.2 with
          chunks := ((rayPairs rays).foldl
            (fun s p => integrateRay mapper map flags map.touch.1 s p.1 p.2)
            ⟨map.chunks, none, false⟩).chunks }) :=
  integrateRays_of_loop (integrateLoop_eq_foldl mapper map flags _ rays _ heven)

/-! ## Flags, visits and the hit pass -/

theorem lor_eq_zero (a b : Nat) : a ||| b = 0 ↔ a = 0 ∧ b = 0 := by
  constructor
  · intro h
    have hb : ∀ i, (a ||| b).testBit i = false := by intro i; rw [h]; simp
    simp only [Nat.testBit_or, Bool.or_eq_false_iff] at hb
    exact ⟨Nat.eq_of_testBit_eq (fun i => by simp [(hb i).1]),
      Nat.eq_of_testBit_eq (fun i => by simp [(hb i).2])⟩
  · rintro ⟨rfl, rfl⟩
    rfl

theorem flagSet_lor (flags a b : Nat) :
    flagSet flags (a ||| b) = (flagSet flags a || flagSet flags b) := by
  unfold flagSet
  rw [Nat.and_or_distrib_left]
  rw [Bool.eq_iff_iff]
  simp only [bne_iff_ne, ne_eq, lor_eq_zero, Bool.or_eq_true]
  tauto

/-- The chunks of the store after a visit: the chunk of the visited voxel carries the writes of
the visit, every other position keeps its chunk. -/
theorem visit_func_chunkAt (mapper : RayMapperOccupancy) (map : OccupancyMap) (flags ts : Nat)
    {s : LoopState} (hs : s.Valid) (key : Key) (j : Nat) :
    chunkAt (visit_func mapper map flags ts s key).chunks j =
      if j = (selectChunk s key.regionKey).2 then
        missChunk mapper map ts s.stop_adjustments (voxelIndex key mapper.occupancy_dim)
          { chunkAt s.chunks j with region_coord := key.regionKey }
      else chunkAt s.chunks j := by
  have h := select_write hs key.regionKey
    (missChunk mapper map ts s.stop_adjustments (voxelIndex key mapper.occupancy_dim))
  by_cases hj : j = (selectChunk s key.regionKey).2
  · rw [if_pos hj, hj]
    exact h.2.1
  · rw [if_neg hj]
    exact h.2.2.1 j hj

/-- The chunks of the store after the hit pass. -/
theorem hitPass_chunkAt (mapper : RayMapperOccupancy) (map : OccupancyMap) (ts : Nat)
    {s : LoopState} (hs : s.Valid) (end_ : DVec3) (j : Nat) :
    chunkAt (hitPass mapper map ts s end_).chunks j =
      if j = (selectChunk s (map.voxelKey end_).regionKey).2 then
        hitChunk mapper map ts s.stop_adjustments (map.voxelKey end_) end_
          { chunkAt s.chunks j with region_coord := (map.voxelKey end_).regionKey }
      else chunkAt s.chunks j := by
  have h := select_write hs (map.voxelKey end_).regionKey
    (hitChunk mapper map ts s.stop_adjustments (map.voxelKey end_) end_)
  by_cases hj : j = (selectChunk s (map.voxelKey end_).regionKey).2
  · rw [if_pos hj, hj]
    exact h.2.1
  · rw [if_neg hj]
    exact h.2.2.1 j hj

theorem visit_func_mean (mapper : RayMapperOccupancy) (map : OccupancyMap) (flags ts : Nat)
    {s : LoopState} (hs : s.Valid) (key : Key) (j : Nat) :
    (chunkAt (visit_func mapper map flags ts s key).chunks j).mean = (chunkAt s.chunks j).mean := by
  rw [visit_func_chunkAt mapper map flags ts hs]
  split <;> rfl

theorem foldl_visit_mean (mapper : RayMapperOccupancy) (map : OccupancyMap) (flags ts : Nat)
    (keys : List Key) {s : LoopState} (hs : s.Valid) (j : Nat) :
    (chunkAt (keys.foldl (visit_func mapper map flags ts) s).chunks j).mean =
      (chunkAt s.chunks j).mean := by
  induction keys generalizing s with
  | nil => rfl
  | cons k ks ih =>
    rw [List.foldl_cons, ih (visit_func_valid mapper map flags ts hs k),
      visit_func_mean mapper map flags ts hs]

theorem missPass_valid (mapper : RayMapperOccupancy) (map : OccupancyMap) (flags ts : Nat)
    {s : LoopState} (hs : s.Valid) (start end_ : DVec3) (inc : Bool) :
    (missPass mapper map flags ts s start end_ inc).Valid :=
  foldl_visit_valid mapper map flags ts _ (s := { s with stop_adjustments := false }) hs

theorem missPass_mean (mapper : RayMapperOccupancy) (map : OccupancyMap) (flags ts : Nat)
    {s : LoopState} (hs : s.Valid) (start end_ : DVec3) (inc : Bool) (j : Nat) :
    (chunkAt (missPass mapper map flags ts s start end_ inc).chunks j).mean =
      (chunkAt s.chunks j).mean :=
  foldl_visit_mean mapper map flags ts _ (s := { s with stop_adjustments := false }) hs j

theorem integrateAccepted_eq (mapper : RayMapperOccupancy) (map : OccupancyMap)
    (flags ts : Nat) (s : LoopState) (start end_ : DVec3) (ff : Nat) :
    integrateAccepted mapper map flags ts s start end_ ff =
      if hitCondition (afterMissPass mapper map flags ts s start end_ ff).stop_adjustments
          (includeSampleInRay ff flags) flags then
        hitPass mapper map ts (afterMissPass mapper map flags ts s start end_ ff) end_
      else afterMissPass mapper map flags ts s start end_ ff := by
  unfold integrateAccepted afterMissPass
  by_cases h : flagSet flags kRfExcludeRay <;> simp [h]

theorem hitCondition_iff (stop inc : Bool) (flags : Nat) :
    hitCondition stop inc flags = true ↔
      stop = false ∧ inc = false ∧ flagSet flags kRfClearOnly = false ∧
        flagSet flags kRfExcludeSample = false := by
  unfold hitCondition
  rw [flagSet_lor]
  cases stop <;> cases inc <;> cases flagSet flags kRfClearOnly <;>
    cases flagSet flags kRfExcludeSample <;> simp

/-! ## The walker -/

theorem walkLoop_include_end (dims : U8Vec3) (r : Int) (e : I16Vec3) :
    ∀ (fuel : Nat) (ax ay az : WalkAxis),
      ∃ init, walkLoop dims r e true fuel ax ay az = init ++ [keyOfVoxel dims e] := by
  intro fuel
  induction fuel with
  | zero => intro ax ay az; exact ⟨[], by simp [walkLoop]⟩
  | succ n ih =>
    intro ax ay az
    unfold walkLoop
    split
    · exact ⟨[], by simp⟩
    · split
      · obtain ⟨init, h⟩ := ih (ax.advance r) ay az
        exact ⟨_ :: init, by rw [h]; rfl⟩
      · split
        · obtain ⟨init, h⟩ := ih ax (ay.advance r) az
          exact ⟨_ :: init, by rw [h]; rfl⟩
        · obtain ⟨init, h⟩ := ih ax ay (az.advance r)
          exact ⟨_ :: init, by rw [h]; rfl⟩

theorem walkLoop_exclude_end (dims : U8Vec3) (r : Int) (e : I16Vec3) :
    ∀ (fuel : Nat) (ax ay az : WalkAxis),
      ∀ k ∈ walkLoop dims r e false fuel ax ay az, ∃ g, g ≠ e ∧ k = keyOfVoxel dims g := by
  intro fuel
  induction fuel with
  | zero => intro ax ay az k hk; simp [walkLoop] at hk
  | succ n ih =>
    intro ax ay az k hk
    unfold walkLoop at hk
    split at hk
    · simp at hk
    · rename_i hne
      rw [List.mem_cons] at hk
      rcases hk with hk | hk
      · exact ⟨_, hne, hk⟩
      · split at hk
        · exact ih _ _ _ k hk
        · split at hk
          · exact ih _ _ _ k hk
          · exact ih _ _ _ k hk

theorem div_mod_inj {a b : Int} {d : Nat} (hd : 0 < d) (h1 : a / (d : Int) = b / (d : Int))
    (h2 : (a % (d : Int)).toNat = (b % (d : Int)).toNat) : a = b := by
  have hd' : (0 : Int) < d := by exact_mod_cast hd
  have ha := Int.emod_nonneg a (ne_of_gt hd')
  have hb := Int.emod_nonneg b (ne_of_gt hd')
  have h3 : a % (d : Int) = b % (d : Int) := by
    have := congrArg (fun n : Nat => (n : Int)) h2
    simpa [Int.toNat_of_nonneg ha, Int.toNat_of_nonneg hb] using this
  rw [← Int.ediv_add_emod a d, ← Int.ediv_add_emod b d, h1, h3]

theorem keyOfVoxel_inj {dims : U8Vec3} (hx : 0 < dims.x) (hy : 0 < dims.y) (hz : 0 < dims.z)
    {g e : I16Vec3} (h : keyOfVoxel dims g = keyOfVoxel dims e) : g = e := by
  unfold keyOfVoxel at h
  simp only [Key.mk.injEq, I16Vec3.mk.injEq, U8Vec3.mk.injEq] at h
  obtain ⟨⟨h1, h2, h3⟩, h4, h5, h6⟩ := h
  cases g; cases e
  simp only [I16Vec3.mk.injEq]
  exact ⟨div_mod_inj hx h1 h4, div_mod_inj hy h2 h5, div_mod_inj hz h3 h6⟩

theorem flagSet_zero (mask : Nat) : flagSet 0 mask = false := by
  simp [flagSet]

theorem visit_func_stop_of_not_flag (mapper : RayMapperOccupancy) (map : OccupancyMap) (flags ts : Nat)
    (hflag : flagSet flags kRfStopOnFirstOccupied = false) (s : LoopState) (key : Key) :
    (visit_func mapper map flags ts s key).stop_adjustments = s.stop_adjustments := by
  simp [visit_func, hflag]

theorem foldl_visit_stop_of_not_flag (mapper : RayMapperOccupancy) (map : OccupancyMap) (flags ts : Nat)
    (hflag : flagSet flags kRfStopOnFirstOccupied = false) (keys : List Key) (s : LoopState) :
    (keys.foldl (visit_func mapper map flags ts) s).stop_adjustments = s.stop_adjustments := by
  induction keys generalizing s with
  | nil => rfl
  | cons k ks ih => rw [List.foldl_cons, ih, visit_func_stop_of_not_flag mapper map flags ts hflag]

theorem walkSegmentKeys_include_end (map : OccupancyMap) (start end_ : DVec3) :
    ∃ init, walkSegmentKeys map (start.sub map.origin) (end_.sub map.origin) true =
      init ++ [map.voxelKey end_] :=
  walkLoop_include_end _ _ _ _ _ _ _

theorem walkSegmentKeys_exclude_end (map : OccupancyMap) (start end_ : DVec3)
    (hx : 0 < map.regionVoxelDimensions.x) (hy : 0 < map.regionVoxelDimensions.y)
    (hz : 0 < map.regionVoxelDimensions.z) :
    map.voxelKey end_ ∉ walkSegmentKeys map (start.sub map.origin) (end_.sub map.origin) false := by
  intro hmem
  obtain ⟨g, hne, hk⟩ := walkLoop_exclude_end _ _ _ _ _ _ _ _ hmem
  exact hne (keyOfVoxel_inj hx hy hz hk).symm

/-! ## Occupancy values along the miss pass -/

theorem visit_func_occupancy (mapper : RayMapperOccupancy) (map : OccupancyMap) (flags ts : Nat)
    {s : LoopState} (hs : s.Valid) (key : Key) (j v : Nat) :
    (chunkAt (visit_func mapper map flags ts s key).chunks j).occupancy v =
      if j = (selectChunk s key.regionKey).2 ∧ v = voxelIndex key mapper.occupancy_dim then
        occupancyAdjustMiss ((chunkAt s.chunks j).occupancy v) map.missValue
          unobservedOccupancyValue map.minVoxelValue (saturationMin map) (saturationMax map)
          s.stop_adjustments
      else (chunkAt s.chunks j).occupancy v := by
  rw [visit_func_chunkAt mapper map flags ts hs]
  by_cases hj : j = (selectChunk s key.regionKey).2
  · rw [if_pos hj]
    by_cases hv : v = voxelIndex key mapper.occupancy_dim
    · rw [if_pos ⟨hj, hv⟩]
      subst hv
      simp [missChunk]
    · rw [if_neg (fun h => hv h.2)]
      simp [missChunk, Function.update_noteq hv]
  · rw [if_neg hj, if_neg (fun h => hj h.1)]

theorem visit_func_stop (mapper : RayMapperOccupancy) (map : OccupancyMap) (flags ts : Nat)
    (s : LoopState) (key : Key) (h : s.stop_adjustments = true) :
    (visit_func mapper map flags ts s key).stop_adjustments = true := by
  simp [visit_func, h]

theorem occupancyAdjustMiss_stop (v miss u lo smin smax : Int) :
    occupancyAdjustMiss v miss u lo smin smax true = if v = u then miss else v := by
  simp [occupancyAdjustMiss]

/-- Once `stop_adjustments` is set, the rest of the miss pass leaves every observed voxel at its
value and writes the miss value to the unobserved voxels it visits. -/
theorem foldl_visit_after_stop (mapper : RayMapperOccupancy) (map : OccupancyMap) (flags ts : Nat)
    (keys : List Key) {s : LoopState} (hs : s.Valid) (hstop : s.stop_adjustments = true) (j v : Nat) :
    (keys.foldl (visit_func mapper map flags ts) s).stop_adjustments = true ∧
      ((chunkAt (keys.foldl (visit_func mapper map flags ts) s).chunks j).occupancy v =
          (chunkAt s.chunks j).occupancy v ∨
        ((chunkAt s.chunks j).occupancy v = unobservedOccupancyValue ∧
          (chunkAt (keys.foldl (visit_func mapper map flags ts) s).chunks j).occupancy v =
            map.missValue)) := by
  induction keys using List.reverseRecOn with
  | nil => exact ⟨hstop, Or.inl rfl⟩
  | append_singleton ks k ih =>
    rw [List.foldl_append, List.foldl_cons, List.foldl_nil]
    obtain ⟨hst, hval⟩ := ih
    refine ⟨visit_func_stop mapper map flags ts _ k hst, ?_⟩
    rw [visit_func_occupancy mapper map flags ts (foldl_visit_valid mapper map flags ts ks hs), hst,
      occupancyAdjustMiss_stop]
    split
    · split
      · rename_i hu
        rcases hval with h | h
        · right; exact ⟨h ▸ hu, rfl⟩
        · right; exact ⟨h.1, rfl⟩
      · exact hval
    · exact hval

theorem occupancyAdjustMiss_lt {v miss u lo smin smax : Int} (hu : v ≠ u) (h1 : smin < v)
    (h2 : v < smax) (hm : miss < 0) (hlo : lo < v) :
    occupancyAdjustMiss v miss u lo smin smax false < v := by
  unfold occupancyAdjustMiss
  rw [if_neg hu, if_neg (by simp; omega)]
  simp only [max_lt_iff, min_lt_iff]
  omega

theorem occupancyAdjustMiss_saturated {v miss u lo smin smax : Int} (hu : v ≠ u) (stop : Bool)
    (h : v ≤ smin ∨ smax ≤ v) : occupancyAdjustMiss v miss u lo smin smax stop = v := by
  unfold occupancyAdjustMiss
  rw [if_neg hu, if_pos (Or.inr h)]

theorem integrateLoop_congr (mapper : RayMapperOccupancy) (map : OccupancyMap) (flags flags' ts : Nat)
    (h : integrateRay mapper map flags ts = integrateRay mapper map flags' ts) :
    ∀ (rays : List DVec3) (s : LoopState),
      integrateLoop mapper map flags ts rays s = integrateLoop mapper map flags' ts rays s
  | [], _ => rfl
  | [_], _ => rfl
  | a :: b :: rest, s => by
    simp only [integrateLoop, h]
    exact integrateLoop_congr mapper map flags flags' ts h rest _

theorem selectChunk_region_coord {s : LoopState} (hs : s.Valid) (coord : I16Vec3)
    (h : (selectChunk s coord).2 < s.chunks.length) :
    (chunkAt s.chunks (selectChunk s coord).2).region_coord = coord := by
  rcases selectChunk_cases hs coord with ⟨-, -, h3⟩ | ⟨-, h2⟩
  · exact h3
  · omega

theorem hitPass_length (mapper : RayMapperOccupancy) (map : OccupancyMap) (ts : Nat)
    {s : LoopState} (hs : s.Valid) (end_ : DVec3) :
    s.chunks.length ≤ (hitPass mapper map ts s end_).chunks.length ∧
      (hitPass mapper map ts s end_).chunks.length ≤ s.chunks.length + 1 :=
  ⟨(select_write hs _ _).2.2.2.1, (select_write hs _ _).2.2.2.2⟩

/-! ## Stamps -/

theorem StampStep.trans {ts : Nat} {occ : Int} {a b c : MapChunk} (h1 : StampStep ts occ a b)
    (h2 : StampStep ts occ b c) : StampStep ts occ a c := by
  rcases h2 with rfl | ⟨hs2, hl2⟩
  · exact h1
  · rcases h1 with rfl | ⟨-, hl1⟩
    · exact Or.inr ⟨hs2, hl2⟩
    · refine Or.inr ⟨hs2, fun layer => ?_⟩
      rcases hl2 layer with h | h
      · rcases hl1 layer with h' | h'
        · exact Or.inl (h.trans h')
        · exact Or.inr (h.trans h')
      · exact Or.inr h

theorem afterMissPass_valid (mapper : RayMapperOccupancy) (map : OccupancyMap) (flags ts : Nat)
    {s : LoopState} (hs : s.Valid) (start end_ : DVec3) (ff : Nat) :
    (afterMissPass mapper map flags ts s start end_ ff).Valid := by
  unfold afterMissPass
  split
  · exact hs
  · exact missPass_valid mapper map flags ts hs start end_ _

theorem integrateAccepted_valid (mapper : RayMapperOccupancy) (map : OccupancyMap) (flags ts : Nat)
    {s : LoopState} (hs : s.Valid) (start end_ : DVec3) (ff : Nat) :
    (integrateAccepted mapper map flags ts s start end_ ff).Valid := by
  rw [integrateAccepted_eq]
  split
  · exact hitPass_valid mapper map ts (afterMissPass_valid mapper map flags ts hs start end_ ff) end_
  · exact afterMissPass_valid mapper map flags ts hs start end_ ff

/-- The body of the loop is the state itself or `integrateAccepted` on the filtered ray. -/
theorem integrateRay_cases (mapper : RayMapperOccupancy) (map : OccupancyMap) (flags ts : Nat)
    (s : LoopState) (a b : DVec3) :
    integrateRay mapper map flags ts s a b = s ∨
      ∃ start end_ ff, integrateRay mapper map flags ts s a b =
        integrateAccepted mapper map flags ts s start end_ ff := by
  unfold integrateRay
  cases map.rayFilter with
  | none => exact Or.inr ⟨a, b, 0, rfl⟩
  | some f =>
    rcases hf : f a b 0 with ⟨r, x, y, z⟩
    cases r
    · left; simp only [hf]
    · right; exact ⟨x, y, z, by simp only [hf]⟩

theorem integrateRay_valid (mapper : RayMapperOccupancy) (map : OccupancyMap) (flags ts : Nat)
    {s : LoopState} (hs : s.Valid) (a b : DVec3) :
    (integrateRay mapper map flags ts s a b).Valid := by
  rcases integrateRay_cases mapper map flags ts s a b with h | ⟨x, y, z, h⟩
  · rw [h]; exact hs
  · rw [h]; exact integrateAccepted_valid mapper map flags ts hs x y z

theorem valid_start (chunks : List MapChunk) (stop : Bool) :
    (⟨chunks, none, stop⟩ : LoopState).Valid := by
  intro i h
  cases h

theorem chunkAt_of_getElem? {cs : List MapChunk} {j : Nat} {c : MapChunk} (h : cs[j]? = some c) :
    chunkAt cs j = c := by
  simp [chunkAt, h]

/-! ## The scenario maps -/

theorem land_lor_self (a b : Nat) : (a ||| b) &&& a = a := by
  apply Nat.eq_of_testBit_eq
  intro i
  simp only [Nat.testBit_and, Nat.testBit_or]
  cases a.testBit i <;> cases b.testBit i <;> rfl

theorem land_complement (a : Nat) (n : Nat) (h : a < 2 ^ n) : a &&& (2 ^ n - 1 - a) = 0 := by
  apply Nat.eq_of_testBit_eq
  intro i
  have h1 : 2 ^ n - 1 - a = 2 ^ n - (a + 1) := by omega
  rw [h1, Nat.testBit_and, Nat.testBit_two_pow_sub_succ h]
  cases a.testBit i <;> simp

/-! ## Relations between the chunks before and after the loop -/

/-- A reflexive and transitive relation between the states of a chunk that every write of the
miss pass and of the hit pass respects holds, position by position, between the chunk store
before and after a visit. -/
theorem visit_func_rel (mapper : RayMapperOccupancy) (map : OccupancyMap) (flags ts : Nat)
    (Rel : MapChunk → MapChunk → Prop) (hrefl : ∀ c, Rel c c)
    (hmiss : ∀ stop v c coord, Rel c (missChunk mapper map ts stop v { c with region_coord := coord }))
    {s : LoopState} (hs : s.Valid) (key : Key) (j : Nat) :
    Rel (chunkAt s.chunks j) (chunkAt (visit_func mapper map flags ts s key).chunks j) := by
  rw [visit_func_chunkAt mapper map flags ts hs]
  split
  · exact hmiss _ _ _ _
  · exact hrefl _

theorem foldl_visit_rel (mapper : RayMapperOccupancy) (map : OccupancyMap) (flags ts : Nat)
    (Rel : MapChunk → MapChunk → Prop) (hrefl : ∀ c, Rel c c)
    (htrans : ∀ a b c, Rel a b → Rel b c → Rel a c)
    (hmiss : ∀ stop v c coord, Rel c (missChunk mapper map ts stop v { c with region_coord := coord }))
    (keys : List Key) {s : LoopState} (hs : s.Valid) (j : Nat) :
    Rel (chunkAt s.chunks j) (chunkAt (keys.foldl (visit_func mapper map flags ts) s).chunks j) := by
  induction keys generalizing s with
  | nil => exact hrefl _
  | cons k ks ih =>
    rw [List.foldl_cons]
    exact htrans _ _ _ (visit_func_rel mapper map flags ts Rel hrefl hmiss hs k j)
      (ih (visit_func_valid mapper map flags ts hs k))

theorem hitPass_rel (mapper : RayMapperOccupancy) (map : OccupancyMap) (ts : Nat)
    (Rel : MapChunk → MapChunk → Prop) (hrefl : ∀ c, Rel c c)
    (hhit : ∀ key end_ c coord,
      Rel c (hitChunk mapper map ts false key end_ { c with region_coord := coord }))
    {s : LoopState} (hs : s.Valid) (hstop : s.stop_adjustments = false) (end_ : DVec3) (j : Nat) :
    Rel (chunkAt s.chunks j) (chunkAt (hitPass mapper map ts s end_).chunks j) := by
  rw [hitPass_chunkAt mapper map ts hs, hstop]
  split
  · exact hhit _ _ _ _
  · exact hrefl _

theorem hitCondition_stop {stop inc : Bool} {flags : Nat} (h : hitCondition stop inc flags = true) :
    stop = false := ((hitCondition_iff stop inc flags).mp h).1

theorem integrateAccepted_rel (mapper : RayMapperOccupancy) (map : OccupancyMap) (flags ts : Nat)
    (Rel : MapChunk → MapChunk → Prop) (hrefl : ∀ c, Rel c c)
    (htrans : ∀ a b c, Rel a b → Rel b c → Rel a c)
    (hmiss : ∀ stop v c coord, Rel c (missChunk mapper map ts stop v { c with region_coord := coord }))
    (hhit : ∀ key end_ c coord,
      Rel c (hitChunk mapper map ts false key end_ { c with region_coord := coord }))
    {s : LoopState} (hs : s.Valid) (start end_ : DVec3) (ff : Nat) (j : Nat) :
    Rel (chunkAt s.chunks j)
      (chunkAt (integrateAccepted mapper map flags ts s start end_ ff).chunks j) := by
  have hm : Rel (chunkAt s.chunks j)
      (chunkAt (afterMissPass mapper map flags ts s start end_ ff).chunks j) := by
    unfold afterMissPass
    split
    · exact hrefl _
    · exact foldl_visit_rel mapper map flags ts Rel hrefl htrans hmiss _
        (s := { s with stop_adjustments := false }) hs j
  rw [integrateAccepted_eq]
  split
  · rename_i hc
    exact htrans _ _ _ hm (hitPass_rel mapper map ts Rel hrefl hhit
      (afterMissPass_valid mapper map flags ts hs start end_ ff) (hitCondition_stop hc) end_ j)
  · exact hm

theorem integrateRay_rel (mapper : RayMapperOccupancy) (map : OccupancyMap) (flags ts : Nat)
    (Rel : MapChunk → MapChunk → Prop) (hrefl : ∀ c, Rel c c)
    (htrans : ∀ a b c, Rel a b → Rel b c → Rel a c)
    (hmiss : ∀ stop v c coord, Rel c (missChunk mapper map ts stop v { c with region_coord := coord }))
    (hhit : ∀ key end_ c coord,
      Rel c (hitChunk mapper map ts false key end_ { c with region_coord := coord }))
    {s : LoopState} (hs : s.Valid) (a b : DVec3) (j : Nat) :
    Rel (chunkAt s.chunks j) (chunkAt (integrateRay mapper map flags ts s a b).chunks j) := by
  rcases integrateRay_cases mapper map flags ts s a b with h | ⟨x, y, z, h⟩
  · rw [h]; exact hrefl _
  · rw [h]; exact integrateAccepted_rel mapper map flags ts Rel hrefl htrans hmiss hhit hs x y z j

/-- The relation then holds between the chunk store of the map before `integrateRays` and the
chunk store after it, and `integrateRays` returns on every array of even length. -/
theorem integrateRays_rel (mapper : RayMapperOccupancy) (map : OccupancyMap) (flags : Nat)
    (Rel : MapChunk → MapChunk → Prop) (hrefl : ∀ c, Rel c c)
    (htrans : ∀ a b c, Rel a b → Rel b c → Rel a c)
    (hmiss : ∀ stop v c coord,
      Rel c (missChunk mapper map map.touch.1 stop v { c with region_coord := coord }))
    (hhit : ∀ key end_ c coord,
      Rel c (hitChunk mapper map map.touch.1 false key end_ { c with region_coord := coord }))
    (rays : List DVec3) (heven : rays.length % 2 = 0) :
    ∃ map', mapper.integrateRays map rays flags = some (rays.length / 2, map') ∧
      ∀ j, Rel (chunkAt map.chunks j) (chunkAt map'.chunks j) := by
  obtain ⟨s', hs', -, hrel⟩ := integrateLoop_inv mapper map flags map.touch.1
    (fun s => s.Valid ∧ ∀ j, Rel (chunkAt map.chunks j) (chunkAt s.chunks j))
    rays ⟨map.touch.2.chunks, none, false⟩ heven
    ⟨valid_start _ _, fun j => hrefl _⟩
    (fun s a b _ hp => ⟨integrateRay_valid mapper map flags _ hp.1 a b,
      fun j => htrans _ _ _ (hp.2 j)
        (integrateRay_rel mapper map flags _ Rel hrefl htrans hmiss hhit hp.1 a b j)⟩)
  exact ⟨_, integrateRays_of_loop hs', hrel⟩

/-! ## Mappers without mean layer -/

theorem integrateRay_withoutMeanLayer (mapper : RayMapperOccupancy) (map : OccupancyMap)
    (flags ts : Nat) :
    integrateRay mapper (withoutMeanLayer map) flags ts = integrateRay mapper map flags ts := rfl

theorem integrateLoop_withoutMeanLayer (mapper : RayMapperOccupancy) (map : OccupancyMap)
    (flags ts : Nat) :
    ∀ (rays : List DVec3) (s : LoopState),
      integrateLoop mapper (withoutMeanLayer map) flags ts rays s =
        integrateLoop mapper map flags ts rays s
  | [], _ => rfl
  | [_], _ => rfl
  | a :: b :: rest, s => by
    simp only [integrateLoop, integrateRay_withoutMeanLayer]
    exact integrateLoop_withoutMeanLayer mapper map flags ts rest _

theorem create_of_mismatch (map : OccupancyMap) (hdeclared : 0 ≤ map.layout.meanLayer)
    (hmismatch : (map.layout.layer map.layout.meanLayer).voxelByteSize ≠ sizeofVoxelMean ∨
      (map.layout.layer map.layout.meanLayer).dimensions map.regionVoxelDimensions ≠
        (map.layout.layer map.layout.occupancyLayer).dimensions map.regionVoxelDimensions) :
    RayMapperOccupancy.create map =
      ⟨map.layout.occupancyLayer, -1,
        (map.layout.layer map.layout.occupancyLayer).dimensions map.regionVoxelDimensions⟩ := by
  unfold RayMapperOccupancy.create
  simp only [hdeclared, if_true]
  rcases hmismatch with h | h
  · simp [h]
  · by_cases hb : (map.layout.layer map.layout.meanLayer).voxelByteSize = sizeofVoxelMean
    · simp [hb, h]
    · simp [hb]

theorem create_withoutMeanLayer (map : OccupancyMap) :
    RayMapperOccupancy.create (withoutMeanLayer map) =
      ⟨map.layout.occupancyLayer, -1,
        (map.layout.layer map.layout.occupancyLayer).dimensions map.regionVoxelDimensions⟩ := by
  simp [RayMapperOccupancy.create, withoutMeanLayer, MapLayout.layer]

/-! ## Values written by the adjustments -/

theorem occupancyAdjustMiss_unobserved (miss u lo smin smax : Int) (stop : Bool) :
    occupancyAdjustMiss u miss u lo smin smax stop = miss := by
  simp [occupancyAdjustMiss]

theorem occupancyAdjustHit_unobserved (hit u hi smin smax : Int) (stop : Bool) :
    occupancyAdjustHit u hit u hi smin smax stop = hit := by
  simp [occupancyAdjustHit]

theorem occupancyAdjustHit_saturated {v hit u hi smin smax : Int} (hu : v ≠ u) (stop : Bool)
    (h : v ≤ smin ∨ smax ≤ v) : occupancyAdjustHit v hit u hi smin smax stop = v := by
  unfold occupancyAdjustHit
  rw [if_neg hu, if_pos (Or.inr h)]

theorem hitPass_occupancy (mapper : RayMapperOccupancy) (map : OccupancyMap) (ts : Nat)
    {s : LoopState} (hs : s.Valid) (end_ : DVec3) (j v : Nat) :
    (chunkAt (hitPass mapper map ts s end_).chunks j).occupancy v =
      if j = (selectChunk s (map.voxelKey end_).regionKey).2 ∧
          v = voxelIndex (map.voxelKey end_) mapper.occupancy_dim then
        occupancyAdjustHit ((chunkAt s.chunks j).occupancy v) map.hitValue
          unobservedOccupancyValue map.maxVoxelValue (saturationMin map) (saturationMax map)
          s.stop_adjustments
      else (chunkAt s.chunks j).occupancy v := by
  rw [hitPass_chunkAt mapper map ts hs]
  by_cases hj : j = (selectChunk s (map.voxelKey end_).regionKey).2
  · rw [if_pos hj]
    by_cases hv : v = voxelIndex (map.voxelKey end_) mapper.occupancy_dim
    · rw [if_pos ⟨hj, hv⟩]
      subst hv
      simp [hitChunk]
    · rw [if_neg (fun h => hv h.2)]
      simp [hitChunk, Function.update_noteq hv]
  · rw [if_neg hj, if_neg (fun h => hj h.1)]

/-! ## Quantisation of the mean offset -/

theorem clampQ_of_abs_le {d h : ℚ} (hd : |d| ≤ h) : clampQ d (-h) h = d := by
  have := abs_le.mp hd
  unfold clampQ
  rw [min_eq_right this.2, max_eq_right this.1]

theorem clampQ_abs_le (d : ℚ) {h : ℚ} (hh : 0 ≤ h) : |clampQ d (-h) h| ≤ h := by
  unfold clampQ
  rw [abs_le]
  constructor
  · exact le_max_left _ _
  · exact max_le (by linarith) (min_le_left _ _)

theorem clampQ_idem (d : ℚ) {h : ℚ} (hh : 0 ≤ h) :
    clampQ (clampQ d (-h) h) (-h) h = clampQ d (-h) h :=
  clampQ_of_abs_le (clampQ_abs_le d hh)

theorem meanQuantum_pos : (0 : ℚ) < 2 * (meanQuantum : ℚ) := by
  norm_num [meanQuantum]

/-- Quantising and dequantising an offset returns the clamped offset to within half a
quantisation step, `resolution / (4 * (2^15 - 1))`. -/
theorem dequantise_quantise (d : ℚ) (resolution : Int) (hr : 0 < resolution) :
    |dequantiseMean (quantiseMean d resolution) resolution -
        clampQ d (-((resolution : ℚ) / 2)) ((resolution : ℚ) / 2)| ≤
      (resolution : ℚ) / (4 * meanQuantum) := by
  have hrq : (0 : ℚ) < resolution := by exact_mod_cast hr
  have hq := meanQuantum_pos
  set c := clampQ d (-((resolution : ℚ) / 2)) ((resolution : ℚ) / 2) with hc
  set x : ℚ := c * (2 * meanQuantum) / resolution with hx
  have hround := abs_sub_round x
  have hcx : c = x * resolution / (2 * meanQuantum) := by
    rw [hx]; field_simp
  have heq : dequantiseMean (quantiseMean d resolution) resolution - c =
      ((round x : ℚ) - x) * (resolution / (2 * meanQuantum)) := by
    unfold dequantiseMean quantiseMean
    rw [← hc, ← hx]
    rw [hcx]
    field_simp
    ring
  rw [heq, abs_mul, abs_of_pos (div_pos hrq hq)]
  have h1 : |(round x : ℚ) - x| ≤ 1 / 2 := by
    rw [abs_sub_comm]; exact hround
  calc |(round x : ℚ) - x| * ((resolution : ℚ) / (2 * meanQuantum))
      ≤ 1 / 2 * ((resolution : ℚ) / (2 * meanQuantum)) :=
        mul_le_mul_of_nonneg_right h1 (le_of_lt (div_pos hrq hq))
    _ = (resolution : ℚ) / (4 * meanQuantum) := by ring

theorem half_step_le_tolerance (resolution : Int) (hr : 0 < resolution) :
    (resolution : ℚ) / (4 * meanQuantum) ≤ (resolution : ℚ) / 1000 := by
  have hrq : (0 : ℚ) < resolution := by exact_mod_cast hr
  apply div_le_div_of_nonneg_left (le_of_lt hrq) (by norm_num) (by norm_num [meanQuantum])

theorem round_mono {x y : ℚ} (h : x ≤ y) : round x ≤ round y := by
  rw [round_eq, round_eq]
  exact Int.floor_mono (by linarith)

/-- A quantised offset is in the quantised range. -/
theorem quantiseMean_abs_le (d : ℚ) (resolution : Int) (hr : 0 < resolution) :
    |quantiseMean d resolution| ≤ meanQuantum := by
  have hrq : (0 : ℚ) < resolution := by exact_mod_cast hr
  have hc := clampQ_abs_le d (h := (resolution : ℚ) / 2) (by positivity)
  set c := clampQ d (-((resolution : ℚ) / 2)) ((resolution : ℚ) / 2) with hcdef
  have hx : |c * (2 * meanQuantum) / resolution| ≤ (meanQuantum : ℚ) := by
    rw [abs_div, abs_mul, abs_of_pos hrq, abs_of_pos meanQuantum_pos, div_le_iff₀ hrq]
    calc |c| * (2 * (meanQuantum : ℚ)) ≤ (resolution : ℚ) / 2 * (2 * meanQuantum) :=
          mul_le_mul_of_nonneg_right hc (le_of_lt meanQuantum_pos)
      _ = meanQuantum * resolution := by ring
  unfold quantiseMean
  rw [← hcdef]
  have hb := abs_le.mp hx
  rw [abs_le]
  constructor
  · have h := round_mono hb.1
    rw [← Int.cast_neg, round_intCast] at h
    exact h
  · have h := round_mono hb.2
    rw [round_intCast] at h
    exact h

theorem dequantiseMean_abs_le {q : Int} (resolution : Int) (hr : 0 < resolution)
    (hq : |q| ≤ meanQuantum) : |dequantiseMean q resolution| ≤ (resolution : ℚ) / 2 := by
  have hrq : (0 : ℚ) < resolution := by exact_mod_cast hr
  have hqq : |(q : ℚ)| ≤ (meanQuantum : ℚ) := by exact_mod_cast hq
  unfold dequantiseMean
  rw [abs_div, abs_mul, abs_of_pos hrq, abs_of_pos meanQuantum_pos, div_le_iff₀ meanQuantum_pos]
  calc |(q : ℚ)| * resolution ≤ meanQuantum * resolution :=
        mul_le_mul_of_nonneg_right hqq (le_of_lt hrq)
    _ = (resolution : ℚ) / 2 * (2 * meanQuantum) := by ring

theorem subVoxelUpdateAxis_eq (q : Int) (n : Nat) (d_new : ℚ) (resolution : Int) :
    subVoxelUpdateAxis q n d_new resolution =
      quantiseMean (clampQ (runningMean (dequantiseMean q resolution) n d_new)
        (-((resolution : ℚ) / 2)) ((resolution : ℚ) / 2)) resolution := rfl

/-- The running mean of offsets of at most half a voxel is at most half a voxel. -/
theorem runningMean_abs_le {d_old d_new h : ℚ} (n : Nat) (h1 : |d_old| ≤ h) (h2 : |d_new| ≤ h) :
    |runningMean d_old n d_new| ≤ h := by
  have hn : (0 : ℚ) < (n : ℚ) + 1 := by positivity
  have hn0 : (0 : ℚ) ≤ (n : ℚ) := by positivity
  unfold runningMean
  rw [abs_div, abs_of_pos hn, div_le_iff₀ hn]
  calc |d_old * n + d_new| ≤ |d_old * n| + |d_new| := abs_add _ _
    _ = |d_old| * n + |d_new| := by rw [abs_mul, abs_of_nonneg hn0]
    _ ≤ h * n + h := add_le_add (mul_le_mul_of_nonneg_right h1 hn0) h2
    _ = h * (n + 1) := by ring

/-- For a quantised mean in range and a new offset inside the voxel the stored offset is the
running mean to within half a quantisation step. -/
theorem subVoxelUpdateAxis_error (q : Int) (n : Nat) (d_new : ℚ) (resolution : Int)
    (hr : 0 < resolution) (hq : |q| ≤ meanQuantum) (hd : |d_new| ≤ (resolution : ℚ) / 2) :
    |dequantiseMean (subVoxelUpdateAxis q n d_new resolution) resolution -
        runningMean (dequantiseMean q resolution) n d_new| ≤
      (resolution : ℚ) / (4 * meanQuantum) := by
  have hm := runningMean_abs_le n (dequantiseMean_abs_le resolution hr hq) hd
  rw [subVoxelUpdateAxis_eq, clampQ_of_abs_le hm]
  have h := dequantise_quantise (runningMean (dequantiseMean q resolution) n d_new) resolution hr
  rw [clampQ_of_abs_le hm] at h
  exact h

theorem runningMean_zero (d_old d_new : ℚ) : runningMean d_old 0 d_new = d_new := by
  simp [runningMean]

/-! ## The sample inside its voxel -/

theorem div_mul_add_mod_toNat (g : Int) {d : Nat} (hd : 0 < d) :
    (g / (d : Int)) * d + ((g % (d : Int)).toNat : Int) = g := by
  have hd' : (0 : Int) < d := by exact_mod_cast hd
  rw [Int.toNat_of_nonneg (Int.emod_nonneg g (ne_of_gt hd'))]
  have := Int.ediv_add_emod g d
  linarith [mul_comm (g / (d : Int)) (d : Int)]

/-- On one axis a coordinate is at most half a voxel from the centre of its voxel. -/
theorem axis_offset_abs_le (p o r : Int) (d : Nat) (hr : 0 < r) (hd : 0 < d) :
    |(p : ℚ) - ((o : ℚ) + ((((p - o) / r / (d : Int) : Int) : ℚ) * (d : ℚ) +
        ((((p - o) / r % (d : Int)).toNat : Nat) : ℚ)) * (r : ℚ) + (r : ℚ) / 2)| ≤ (r : ℚ) / 2 := by
  have hg := div_mul_add_mod_toNat ((p - o) / r) hd
  have hgq : ((((p - o) / r / (d : Int) : Int) : ℚ) * (d : ℚ) +
      ((((p - o) / r % (d : Int)).toNat : Nat) : ℚ)) = (((p - o) / r : Int) : ℚ) := by
    have := congrArg (fun z : Int => (z : ℚ)) hg
    push_cast at this
    exact this
  rw [hgq]
  have hmod := Int.emod_add_ediv (p - o) r
  have h0 := Int.emod_nonneg (p - o) (ne_of_gt hr)
  have h1 := Int.emod_lt_of_pos (p - o) hr
  have hq : ((p : ℚ) - o) = (((p - o) % r : Int) : ℚ) + (r : ℚ) * (((p - o) / r : Int) : ℚ) := by
    have := congrArg (fun z : Int => (z : ℚ)) hmod
    push_cast at this
    linarith
  have h0q : (0 : ℚ) ≤ (((p - o) % r : Int) : ℚ) := by exact_mod_cast h0
  have h1q : (((p - o) % r : Int) : ℚ) < (r : ℚ) := by exact_mod_cast h1
  rw [abs_le]
  constructor <;> nlinarith

/-- The offset of a sample from the centre of its voxel is at most half a voxel on each axis. -/
theorem sample_offset_abs_le (map : OccupancyMap) (p : DVec3) (hr : 0 < map.resolution)
    (hx : 0 < map.regionVoxelDimensions.x) (hy : 0 < map.regionVoxelDimensions.y)
    (hz : 0 < map.regionVoxelDimensions.z) :
    |(p.toQVec3.sub (map.voxelCentreGlobal (map.voxelKey p))).x| ≤ (map.resolution : ℚ) / 2 ∧
      |(p.toQVec3.sub (map.voxelCentreGlobal (map.voxelKey p))).y| ≤ (map.resolution : ℚ) / 2 ∧
      |(p.toQVec3.sub (map.voxelCentreGlobal (map.voxelKey p))).z| ≤ (map.resolution : ℚ) / 2 := by
  refine ⟨?_, ?_, ?_⟩
  · exact axis_offset_abs_le p.x map.origin.x map.resolution _ hr hx
  · exact axis_offset_abs_le p.y map.origin.y map.resolution _ hr hy
  · exact axis_offset_abs_le p.z map.origin.z map.resolution _ hr hz

/-! ## The mean record written by the hit pass -/

theorem hitPass_mean (mapper : RayMapperOccupancy) (map : OccupancyMap) (ts : Nat)
    {s : LoopState} (hs : s.Valid) (end_ : DVec3) (hmean : 0 ≤ mapper.mean_layer) :
    (chunkAt (hitPass mapper map ts s end_).chunks
        (selectChunk s (map.voxelKey end_).regionKey).2).mean
        (voxelIndex (map.voxelKey end_) mapper.occupancy_dim) =
      ⟨subVoxelUpdate
          ((chunkAt s.chunks (selectChunk s (map.voxelKey end_).regionKey).2).mean
            (voxelIndex (map.voxelKey end_) mapper.occupancy_dim)).coord
          ((chunkAt s.chunks (selectChunk s (map.voxelKey end_).regionKey).2).mean
            (voxelIndex (map.voxelKey end_) mapper.occupancy_dim)).count
          (end_.toQVec3.sub (map.voxelCentreGlobal (map.voxelKey end_))) map.resolution,
        (((chunkAt s.chunks (selectChunk s (map.voxelKey end_).regionKey).2).mean
          (voxelIndex (map.voxelKey end_) mapper.occupancy_dim)).count + 1) % 2 ^ 32⟩ := by
  rw [hitPass_chunkAt mapper map ts hs, if_pos rfl]
  simp [hitChunk, hmean]

/-! ## Reported positions -/

theorem position_axis_error (centre : ℚ) (p : Int) (resolution : Int) (hr : 0 < resolution)
    (hp : |(p : ℚ) - centre| ≤ (resolution : ℚ) / 2) :
    |centre + dequantiseMean (quantiseMean ((p : ℚ) - centre) resolution) resolution - p| ≤
      (resolution : ℚ) / 1000 := by
  have h := dequantise_quantise ((p : ℚ) - centre) resolution hr
  rw [clampQ_of_abs_le hp] at h
  have h2 := half_step_le_tolerance resolution hr
  have heq : centre + dequantiseMean (quantiseMean ((p : ℚ) - centre) resolution) resolution - p =
      dequantiseMean (quantiseMean ((p : ℚ) - centre) resolution) resolution - ((p : ℚ) - centre) := by
    ring
  rw [heq]
  exact le_trans h h2

theorem subVoxelUpdateAxis_first (q : Int) (d : ℚ) (resolution : Int)
    (hd : |d| ≤ (resolution : ℚ) / 2) :
    subVoxelUpdateAxis q 0 d resolution = quantiseMean d resolution := by
  rw [subVoxelUpdateAxis_eq, runningMean_zero, clampQ_of_abs_le hd]

theorem occupancyAdjustHit_ne_unobserved (map : OccupancyMap) (x : Int) (stop : Bool)
    (hhit : map.hitValue ≤ floatMax) (hmax : map.maxVoxelValue ≤ floatMax) :
    occupancyAdjustHit x map.hitValue unobservedOccupancyValue map.maxVoxelValue
      (saturationMin map) (saturationMax map) stop ≠ unobservedOccupancyValue := by
  unfold occupancyAdjustHit
  have hu : unobservedOccupancyValue = floatMax + 1 := rfl
  split
  · omega
  · split
    · assumption
    · have := min_le_left map.maxVoxelValue
        (max (saturationMin map) (min (saturationMax map) (x + map.hitValue)))
      omega

theorem saturation_bounds (map : OccupancyMap) (hmin : map.minVoxelValue ≤ floatMax)
    (hmax : map.maxVoxelValue ≤ floatMax) :
    saturationMin map ≤ floatMax ∧ saturationMax map ≤ floatMax := by
  have hl : floatLowest ≤ floatMax := by decide
  unfold saturationMin saturationMax
  constructor
  · split
    · exact hmin
    · exact hl
  · split
    · exact hmax
    · exact le_refl _

theorem occupancyAdjustMiss_ne_unobserved (map : OccupancyMap) (x : Int) (stop : Bool)
    (hmin : map.minVoxelValue ≤ floatMax) (hmax : map.maxVoxelValue ≤ floatMax)
    (hx : x ≠ unobservedOccupancyValue) :
    occupancyAdjustMiss x map.missValue unobservedOccupancyValue map.minVoxelValue
      (saturationMin map) (saturationMax map) stop ≠ unobservedOccupancyValue := by
  unfold occupancyAdjustMiss
  have hu : unobservedOccupancyValue = floatMax + 1 := rfl
  obtain ⟨h1, h2⟩ := saturation_bounds map hmin hmax
  rw [if_neg hx]
  split
  · exact hx
  · have hle : max map.minVoxelValue
        (max (saturationMin map) (min (saturationMax map) (x + map.missValue))) ≤ floatMax :=
      max_le hmin (max_le h1 (le_trans (min_le_left _ _) h2))
    omega

theorem missChunk_meanCountInv (mapper : RayMapperOccupancy) (map : OccupancyMap) (ts : Nat)
    (hmin : map.minVoxelValue ≤ floatMax) (hmax : map.maxVoxelValue ≤ floatMax)
    (stop : Bool) (vi : Nat) (c : MapChunk) (coord : I16Vec3) (h : MeanCountInv c) :
    MeanCountInv (missChunk mapper map ts stop vi { c with region_coord := coord }) := by
  intro v hv
  by_cases hvi : v = vi
  · subst hvi
    simp only [missChunk, Function.update_same] at hv ⊢
    by_cases hc : c.occupancy v = unobservedOccupancyValue
    · exact h v hc
    · exact absurd hv (occupancyAdjustMiss_ne_unobserved map _ stop hmin hmax hc)
  · simp only [missChunk, Function.update_noteq hvi] at hv ⊢
    exact h v hv

theorem hitChunk_meanCountInv (mapper : RayMapperOccupancy) (map : OccupancyMap) (ts : Nat)
    (hhit : map.hitValue ≤ floatMax) (hmax : map.maxVoxelValue ≤ floatMax)
    (stop : Bool) (key : Key) (e : DVec3) (c : MapChunk) (coord : I16Vec3) (h : MeanCountInv c) :
    MeanCountInv (hitChunk mapper map ts stop key e { c with region_coord := coord }) := by
  intro v hv
  by_cases hvi : v = voxelIndex key mapper.occupancy_dim
  · subst hvi
    simp only [hitChunk, Function.update_same] at hv
    exact absurd hv (occupancyAdjustHit_ne_unobserved map _ stop hhit hmax)
  · simp only [hitChunk, Function.update_noteq hvi] at hv
    have := h v hv
    by_cases hm : 0 ≤ mapper.mean_layer
    · simpa [hitChunk, hm, Function.update_noteq hvi] using this
    · simpa [hitChunk, hm] using this

theorem meanCountInv_default : MeanCountInv (default : MapChunk) := by
  intro v _
  rfl

/-! ## Layout changes -/

theorem updateLayout_occupancy (map : OccupancyMap) (new_layout : MapLayout)
    (hold : 0 ≤ map.layout.occupancyLayer) (hnew : 0 ≤ new_layout.occupancyLayer) :
    (map.updateLayout new_layout).chunks.map (fun c => (c.region_coord, c.occupancy)) =
      map.chunks.map (fun c => (c.region_coord, c.occupancy)) := by
  simp only [OccupancyMap.updateLayout, List.map_map]
  apply List.map_congr_left
  intro c _
  simp [relayoutChunk, hold, hnew]

/-! ## The chunk cache and runs that differ in their stamps -/

theorem LoopState.CacheOK.valid {s : LoopState} (h : s.CacheOK) : s.Valid :=
  fun i hi => (findChunk_some (h i hi)).1

theorem cacheOK_start (chunks : List MapChunk) (stop : Bool) :
    (⟨chunks, none, stop⟩ : LoopState).CacheOK := by
  intro i h
  cases h

/-- With a sound cache the chunk selected is the chunk the store returns for the region. -/
theorem selectChunk_eq_region {s : LoopState} (h : s.CacheOK) (coord : I16Vec3) :
    selectChunk s coord = region s.chunks coord := by
  unfold selectChunk
  cases hl : s.last_chunk with
  | none => rfl
  | some i =>
    by_cases hc : (chunkAt s.chunks i).region_coord = coord
    · have := h i hl
      rw [hc] at this
      simp [hc, region, this]
    · simp [hc]

theorem findChunk_append_new {cs : List MapChunk} {coord : I16Vec3}
    (h : findChunk cs coord = none) : findChunk (cs ++ [newChunk coord]) coord = some cs.length := by
  induction cs with
  | nil => simp [findChunk, newChunk]
  | cons c cs ih =>
    unfold findChunk at h
    split at h
    · cases h
    · rename_i hc
      simp only [Option.map_eq_none'] at h
      simp [findChunk, hc, ih h]

theorem findChunk_region (cs : List MapChunk) (coord : I16Vec3) :
    findChunk (region cs coord).1 coord = some (region cs coord).2 := by
  unfold region
  cases h : findChunk cs coord with
  | none => simpa using findChunk_append_new h
  | some i => simpa using h

theorem findChunk_congr {cs cs' : List MapChunk}
    (h : cs.map (fun c => c.region_coord) = cs'.map (fun c => c.region_coord)) (coord : I16Vec3) :
    findChunk cs coord = findChunk cs' coord := by
  induction cs generalizing cs' with
  | nil =>
    cases cs' with
    | nil => rfl
    | cons c' cs' => simp at h
  | cons c cs ih =>
    cases cs' with
    | nil => simp at h
    | cons c' cs' =>
      simp only [List.map_cons, List.cons.injEq] at h
      simp only [findChunk, h.1, ih h.2]

theorem region_coord_of_erase {cs cs' : List MapChunk}
    (h : cs.map eraseStamps = cs'.map eraseStamps) :
    cs.map (fun c => c.region_coord) = cs'.map (fun c => c.region_coord) := by
  have := congrArg (List.map (fun c : MapChunk => c.region_coord)) h
  simpa [List.map_map, Function.comp_def, eraseStamps] using this

theorem modifyChunk_region_coord (f : MapChunk → MapChunk)
    (hf : ∀ c, (f c).region_coord = c.region_coord) (cs : List MapChunk) (i : Nat) :
    (modifyChunk f cs i).map (fun c => c.region_coord) = cs.map (fun c => c.region_coord) := by
  induction cs generalizing i with
  | nil => rfl
  | cons c cs ih => cases i <;> simp [modifyChunk, hf, ih]

theorem chunkAt_map_erase (cs : List MapChunk) (i : Nat) :
    chunkAt (cs.map eraseStamps) i = eraseStamps (chunkAt cs i) := by
  by_cases h : i < cs.length
  · simp [chunkAt, List.getElem?_eq_getElem h, h]
  · rw [chunkAt_ge (by simpa using h), chunkAt_ge (by omega)]
    rfl

theorem chunkAt_erase_congr {cs cs' : List MapChunk}
    (h : cs.map eraseStamps = cs'.map eraseStamps) (i : Nat) :
    eraseStamps (chunkAt cs i) = eraseStamps (chunkAt cs' i) := by
  rw [← chunkAt_map_erase, ← chunkAt_map_erase, h]

theorem modifyChunk_erase_congr (f f' : MapChunk → MapChunk)
    (hf : ∀ c c', eraseStamps c = eraseStamps c' → eraseStamps (f c) = eraseStamps (f' c')) :
    ∀ (cs cs' : List MapChunk) (i : Nat), cs.map eraseStamps = cs'.map eraseStamps →
      (modifyChunk f cs i).map eraseStamps = (modifyChunk f' cs' i).map eraseStamps
  | [], [], _, _ => rfl
  | [], _ :: _, _, h => by simp at h
  | _ :: _, [], _, h => by simp at h
  | c :: cs, c' :: cs', 0, h => by
    simp only [List.map_cons, List.cons.injEq] at h
    simp [modifyChunk, hf c c' h.1, h.2]
  | c :: cs, c' :: cs', i + 1, h => by
    simp only [List.map_cons, List.cons.injEq] at h
    simp [modifyChunk, h.1, modifyChunk_erase_congr f f' hf cs cs' i h.2]

theorem region_erase_congr {cs cs' : List MapChunk}
    (h : cs.map eraseStamps = cs'.map eraseStamps) (coord : I16Vec3) :
    (region cs coord).2 = (region cs' coord).2 ∧
      (region cs coord).1.map eraseStamps = (region cs' coord).1.map eraseStamps := by
  have hf := findChunk_congr (region_coord_of_erase h) coord
  have hlen : cs.length = cs'.length := by
    have := congrArg List.length h
    simpa using this
  unfold region
  rw [hf]
  cases findChunk cs' coord with
  | none => simp [hlen, h]
  | some i => simp [h]

theorem missChunk_erase (mapper : RayMapperOccupancy) (map : OccupancyMap) (ts : Nat) (stop : Bool)
    (v : Nat) (c : MapChunk) :
    eraseStamps (missChunk mapper map ts stop v c) =
      eraseStamps (missChunk mapper map 0 stop v (eraseStamps c)) := rfl

theorem hitChunk_erase (mapper : RayMapperOccupancy) (map : OccupancyMap) (ts : Nat) (stop : Bool)
    (key : Key) (e : DVec3) (c : MapChunk) :
    eraseStamps (hitChunk mapper map ts stop key e c) =
      eraseStamps (hitChunk mapper map 0 stop key e (eraseStamps c)) := rfl

theorem missChunk_erase_congr (mapper : RayMapperOccupancy) (map : OccupancyMap) (ts ts' : Nat)
    (stop : Bool) (v : Nat) (c c' : MapChunk) (h : eraseStamps c = eraseStamps c') :
    eraseStamps (missChunk mapper map ts stop v c) =
      eraseStamps (missChunk mapper map ts' stop v c') := by
  rw [missChunk_erase, h, ← missChunk_erase]

theorem hitChunk_erase_congr (mapper : RayMapperOccupancy) (map : OccupancyMap) (ts ts' : Nat)
    (stop : Bool) (key : Key) (e : DVec3) (c c' : MapChunk) (h : eraseStamps c = eraseStamps c') :
    eraseStamps (hitChunk mapper map ts stop key e c) =
      eraseStamps (hitChunk mapper map ts' stop key e c') := by
  rw [hitChunk_erase, h, ← hitChunk_erase]

theorem occupancy_of_erase {c c' : MapChunk} (h : eraseStamps c = eraseStamps c') :
    c.occupancy = c'.occupancy := by
  have := congrArg MapChunk.occupancy h
  exact this

theorem select_write_cacheOK {s : LoopState} (h : s.CacheOK) (coord : I16Vec3)
    (f : MapChunk → MapChunk) (hf : ∀ c, (f c).region_coord = c.region_coord) (stop : Bool) :
    (⟨modifyChunk f (selectChunk s coord).1 (selectChunk s coord).2,
      some (selectChunk s coord).2, stop⟩ : LoopState).CacheOK := by
  intro i hi
  have hi' : (selectChunk s coord).2 = i := Option.some.inj hi
  subst hi'
  have hw := (select_write h.valid coord f).2.1
  have hcoord : (chunkAt (modifyChunk f (selectChunk s coord).1 (selectChunk s coord).2)
      (selectChunk s coord).2).region_coord = coord := by
    rw [hw, hf]
  show findChunk _ (chunkAt _ _).region_coord = some _
  rw [hcoord, findChunk_congr (modifyChunk_region_coord f hf _ _) coord,
    selectChunk_eq_region h, findChunk_region]

theorem missChunk_region_coord (mapper : RayMapperOccupancy) (map : OccupancyMap) (ts : Nat)
    (stop : Bool) (v : Nat) (c : MapChunk) :
    (missChunk mapper map ts stop v c).region_coord = c.region_coord := rfl

theorem hitChunk_region_coord (mapper : RayMapperOccupancy) (map : OccupancyMap) (ts : Nat)
    (stop : Bool) (key : Key) (e : DVec3) (c : MapChunk) :
    (hitChunk mapper map ts stop key e c).region_coord = c.region_coord := rfl

theorem select_write_sim {s s' : LoopState} (h : s.Sim s') (coord : I16Vec3)
    (f f' : MapChunk → MapChunk)
    (hf : ∀ c c', eraseStamps c = eraseStamps c' → eraseStamps (f c) = eraseStamps (f' c'))
    (hr : ∀ c, (f c).region_coord = c.region_coord)
    (hr' : ∀ c, (f' c).region_coord = c.region_coord) :
    (selectChunk s coord).2 = (selectChunk s' coord).2 ∧
    eraseStamps (chunkAt (selectChunk s coord).1 (selectChunk s coord).2) =
      eraseStamps (chunkAt (selectChunk s' coord).1 (selectChunk s' coord).2) ∧
    ∀ stop stop' : Bool, LoopState.Sim
      ⟨modifyChunk f (selectChunk s coord).1 (selectChunk s coord).2,
        some (selectChunk s coord).2, stop⟩
      ⟨modifyChunk f' (selectChunk s' coord).1 (selectChunk s' coord).2,
        some (selectChunk s' coord).2, stop'⟩ := by
  obtain ⟨h1, h2, h3⟩ := h
  have hreg := region_erase_congr h3 coord
  have e1 := selectChunk_eq_region h1 coord
  have e2 := selectChunk_eq_region h2 coord
  refine ⟨by rw [e1, e2]; exact hreg.1, ?_, fun stop stop' =>
    ⟨select_write_cacheOK h1 coord f hr stop, select_write_cacheOK h2 coord f' hr' stop', ?_⟩⟩
  · rw [e1, e2, hreg.1]
    exact chunkAt_erase_congr hreg.2 _
  · show (modifyChunk f _ _).map eraseStamps = (modifyChunk f' _ _).map eraseStamps
    rw [e1, e2, hreg.1]
    exact modifyChunk_erase_congr f f' hf _ _ _ hreg.2

theorem visit_func_sim (mapper : RayMapperOccupancy) (map : OccupancyMap) (flags ts ts' : Nat)
    {s s' : LoopState} (h : s.Sim s') (hstop : s.stop_adjustments = s'.stop_adjustments)
    (key : Key) :
    (visit_func mapper map flags ts s key).Sim (visit_func mapper map flags ts' s' key) ∧
      (visit_func mapper map flags ts s key).stop_adjustments =
        (visit_func mapper map flags ts' s' key).stop_adjustments := by
  have hw := select_write_sim h key.regionKey
    (missChunk mapper map ts s.stop_adjustments (voxelIndex key mapper.occupancy_dim))
    (missChunk mapper map ts' s'.stop_adjustments (voxelIndex key mapper.occupancy_dim))
    (fun c c' hc => by rw [hstop]; exact missChunk_erase_congr mapper map ts ts' _ _ c c' hc)
    (fun c => rfl) (fun c => rfl)
  refine ⟨hw.2.2 _ _, ?_⟩
  simp only [visit_func]
  rw [hstop, occupancy_of_erase hw.2.1]

theorem foldl_visit_sim (mapper : RayMapperOccupancy) (map : OccupancyMap) (flags ts ts' : Nat)
    (keys : List Key) {s s' : LoopState} (h : s.Sim s')
    (hstop : s.stop_adjustments = s'.stop_adjustments) :
    (keys.foldl (visit_func mapper map flags ts) s).Sim
        (keys.foldl (visit_func mapper map flags ts') s') ∧
      (keys.foldl (visit_func mapper map flags ts) s).stop_adjustments =
        (keys.foldl (visit_func mapper map flags ts') s').stop_adjustments := by
  induction keys generalizing s s' with
  | nil => exact ⟨h, hstop⟩
  | cons k ks ih =>
    obtain ⟨h1, h2⟩ := visit_func_sim mapper map flags ts ts' h hstop k
    exact ih h1 h2

theorem hitPass_sim (mapper : RayMapperOccupancy) (map : OccupancyMap) (ts ts' : Nat)
    {s s' : LoopState} (h : s.Sim s') (hstop : s.stop_adjustments = s'.stop_adjustments)
    (end_ : DVec3) :
    (hitPass mapper map ts s end_).Sim (hitPass mapper map ts' s' end_) ∧
      (hitPass mapper map ts s end_).stop_adjustments =
        (hitPass mapper map ts' s' end_).stop_adjustments := by
  have hw := select_write_sim h (map.voxelKey end_).regionKey
    (hitChunk mapper map ts s.stop_adjustments (map.voxelKey end_) end_)
    (hitChunk mapper map ts' s'.stop_adjustments (map.voxelKey end_) end_)
    (fun c c' hc => by rw [hstop]; exact hitChunk_erase_congr mapper map ts ts' _ _ _ c c' hc)
    (fun c => rfl) (fun c => rfl)
  exact ⟨hw.2.2 _ _, hstop⟩

theorem sim_reset {s s' : LoopState} (h : s.Sim s') :
    LoopState.Sim { s with stop_adjustments := false } { s' with stop_adjustments := false } :=
  ⟨fun i hi => h.1 i hi, fun i hi => h.2.1 i hi, h.2.2⟩

/-- An accepted ray keeps two states in agreement up to stamps; the `stop_adjustments` of the
two states need to agree only when rays are excluded, where both are false. -/
theorem integrateAccepted_sim (mapper : RayMapperOccupancy) (map : OccupancyMap)
    (flags ts ts' : Nat) {s s' : LoopState} (h : s.Sim s')
    (hstop : flagSet flags kRfExcludeRay = true →
      s.stop_adjustments = false ∧ s'.stop_adjustments = false)
    (start end_ : DVec3) (ff : Nat) :
    (integrateAccepted mapper map flags ts s start end_ ff).Sim
        (integrateAccepted mapper map flags ts' s' start end_ ff) ∧
      (flagSet flags kRfExcludeRay = true →
        (integrateAccepted mapper map flags ts s start end_ ff).stop_adjustments = false ∧
          (integrateAccepted mapper map flags ts' s' start end_ ff).stop_adjustments = false) := by
  have hmiss : (afterMissPass mapper map flags ts s start end_ ff).Sim
        (afterMissPass mapper map flags ts' s' start end_ ff) ∧
      (afterMissPass mapper map flags ts s start end_ ff).stop_adjustments =
        (afterMissPass mapper map flags ts' s' start end_ ff).stop_adjustments ∧
      (flagSet flags kRfExcludeRay = true →
        (afterMissPass mapper map flags ts s start end_ ff).stop_adjustments = false) := by
    unfold afterMissPass
    by_cases hex : flagSet flags kRfExcludeRay = true
    · simp only [hex, if_true]
      exact ⟨h, by rw [(hstop hex).1, (hstop hex).2], fun _ => (hstop hex).1⟩
    · simp only [hex, if_false]
      have := foldl_visit_sim mapper map flags ts ts'
        (walkSegmentKeys map (start.sub map.origin) (end_.sub map.origin)
          (includeSampleInRay ff flags)) (sim_reset h) rfl
      exact ⟨this.1, this.2, fun hc => absurd hc (by simp)⟩
  obtain ⟨h1, h2, h3⟩ := hmiss
  rw [integrateAccepted_eq, integrateAccepted_eq, ← h2]
  split
  · have := hitPass_sim mapper map ts ts' h1 h2 end_
    refine ⟨this.1, fun hex => ?_⟩
    have hz := h3 hex
    exact ⟨hz, by rw [← this.2]; exact hz⟩
  · exact ⟨h1, fun hex => ⟨h3 hex, by rw [← h2]; exact h3 hex⟩⟩

theorem integrateRay_sim (mapper : RayMapperOccupancy) (map : OccupancyMap)
    (flags ts ts' : Nat) {s s' : LoopState} (h : s.Sim s')
    (hstop : flagSet flags kRfExcludeRay = true →
      s.stop_adjustments = false ∧ s'.stop_adjustments = false)
    (a b : DVec3) :
    (integrateRay mapper map flags ts s a b).Sim (integrateRay mapper map flags ts' s' a b) ∧
      (flagSet flags kRfExcludeRay = true →
        (integrateRay mapper map flags ts s a b).stop_adjustments = false ∧
          (integrateRay mapper map flags ts' s' a b).stop_adjustments = false) := by
  cases hfilter : map.rayFilter with
  | none =>
    simp only [integrateRay, hfilter]
    exact integrateAccepted_sim mapper map flags ts ts' h hstop a b 0
  | some f =>
    rcases hf : f a b 0 with ⟨r, x, y, z⟩
    cases r
    · simp only [integrateRay, hfilter, hf]
      exact ⟨h, hstop⟩
    · simp only [integrateRay, hfilter, hf]
      exact integrateAccepted_sim mapper map flags ts ts' h hstop x y z

theorem foldl_integrateRay_sim (mapper : RayMapperOccupancy) (map : OccupancyMap)
    (flags ts ts' : Nat) (pairs : List (DVec3 × DVec3)) {s s' : LoopState} (h : s.Sim s')
    (hstop : flagSet flags kRfExcludeRay = true →
      s.stop_adjustments = false ∧ s'.stop_adjustments = false) :
    (pairs.foldl (fun s p => integrateRay mapper map flags ts s p.1 p.2) s).Sim
        (pairs.foldl (fun s p => integrateRay mapper map flags ts' s p.1 p.2) s') ∧
      (flagSet flags kRfExcludeRay = true →
        (pairs.foldl (fun s p => integrateRay mapper map flags ts s p.1 p.2) s).stop_adjustments =
            false ∧
          (pairs.foldl (fun s p => integrateRay mapper map flags ts' s p.1 p.2)
            s').stop_adjustments = false) := by
  induction pairs generalizing s s' with
  | nil => exact ⟨h, hstop⟩
  | cons p ps ih =>
    obtain ⟨h1, h2⟩ := integrateRay_sim mapper map flags ts ts' h hstop p.1 p.2
    exact ih h1 h2

theorem rayPairs_append : ∀ (a b : List DVec3), a.length % 2 = 0 →
    rayPairs (a ++ b) = rayPairs a ++ rayPairs b
  | [], _, _ => rfl
  | [_], _, h => by simp at h
  | x :: y :: rest, b, h => by
    have hlen : rest.length % 2 = 0 := by
      simp only [List.length_cons] at h
      omega
    show rayPairs (x :: y :: (rest ++ b)) = rayPairs (x :: y :: rest) ++ rayPairs b
    simp only [rayPairs, rayPairs_append rest b hlen, List.cons_append]

theorem sim_refl_start (chunks : List MapChunk) (stop : Bool) :
    LoopState.Sim ⟨chunks, none, stop⟩ ⟨chunks, none, stop⟩ :=
  ⟨cacheOK_start _ _, cacheOK_start _ _, rfl⟩

theorem isdigit_ne_nul {c : Char} (h : isdigit c = true) : c ≠ nulChar := by
  intro hc
  rw [hc] at h
  exact absurd h (by decide)

theorem skipNonDigits_append (P rest : List Char)
    (hP : ∀ c ∈ P, c ≠ nulChar ∧ isdigit c = false) :
    skipNonDigits (P ++ rest) = skipNonDigits rest := by
  induction P with
  | nil => rfl
  | cons c P ih =>
    have hc := hP c (List.mem_cons_self _ _)
    simp only [List.cons_append, skipNonDigits, hc.1, hc.2, ne_eq, not_false_eq_true, and_self,
      if_true]
    exact ih fun d hd => hP d (List.mem_cons_of_mem _ hd)

theorem skipNonDigits_of_stop (rest : List Char)
    (h : cstrHead rest = nulChar ∨ isdigit (cstrHead rest) = true) :
    skipNonDigits rest = rest := by
  cases rest with
  | nil => rfl
  | cons c rest =>
    simp only [cstrHead, List.headD_cons] at h
    simp only [skipNonDigits]
    rw [if_neg]
    rintro ⟨h1, h2⟩
    rcases h with h | h
    · exact h1 h
    · rw [h] at h2
      exact absurd h2 (by decide)

theorem readDigits_append (M rest : List Char) (hM : ∀ c ∈ M, isdigit c = true) :
    ∀ (version : Nat) (have_digits : Bool),
      readDigits version have_digits (M ++ rest) =
        readDigits
          (M.foldl (fun v c => (v * 10 % 2 ^ 32 + (c.toNat - (48 : Nat))) % 2 ^ 32) version)
          (have_digits || !M.isEmpty) rest := by
  induction M with
  | nil => intro version have_digits; simp
  | cons c M ih =>
    intro version have_digits
    have hc := hM c (List.mem_cons_self _ _)
    simp only [List.cons_append, readDigits, hc, isdigit_ne_nul hc, ne_eq, not_false_eq_true,
      and_self, if_true, List.foldl_cons]
    have h := ih (fun d hd => hM d (List.mem_cons_of_mem _ hd))
      ((version * 10 % 2 ^ 32 + (c.toNat - (48 : Nat))) % 2 ^ 32) true
    simp only [List.append_eq] at h ⊢
    rw [h]
    simp

theorem readDigits_of_stop (version : Nat) (have_digits : Bool) (rest : List Char)
    (h : isdigit (cstrHead rest) = false) :
    readDigits version have_digits rest = (version, have_digits, rest) := by
  cases rest with
  | nil => rfl
  | cons c rest =>
    simp only [cstrHead, List.headD_cons] at h
    simp [readDigits, h]

theorem foldl_digits_mod (M : List Char) :
    ∀ v w : Nat, v = w % 2 ^ 32 →
      M.foldl (fun v c => (v * 10 % 2 ^ 32 + (c.toNat - (48 : Nat))) % 2 ^ 32) v =
        M.foldl (fun v c => v * 10 + (c.toNat - (48 : Nat))) w % 2 ^ 32 := by
  induction M with
  | nil => intro v w h; simpa using h
  | cons c M ih =>
    intro v w h
    simp only [List.foldl_cons]
    apply ih
    rw [h]
    omega

theorem skipNonDigits_no_digit (s : List Char) (h : ∀ c ∈ s, isdigit c = false) :
    cstrHead (skipNonDigits s) = nulChar := by
  induction s with
  | nil => rfl
  | cons c s ih =>
    simp only [skipNonDigits, h c (List.mem_cons_self _ _), and_true, ne_eq]
    by_cases hc : c = nulChar
    · simp [hc, cstrHead]
    · simp only [hc, not_false_eq_true, if_true]
      exact ih fun d hd => h d (List.mem_cons_of_mem _ hd)

theorem constraintsOk_succ {α : Type} (constraint : α → Bool) (constraints : List (α → Bool))
    (element : α) (remaining : Nat) :
    constraintsOk (constraint :: constraints) element (remaining + 1) =
      some (constraint element) := by
  induction remaining with
  | zero => cases h : constraint element <;> simp [constraintsOk, h]
  | succ n ih =>
    cases h : constraint element
    · simp [constraintsOk, h]
    · rw [constraintsOk]
      simp only [List.head?_cons, h, Bool.true_eq_false, if_false]
      rw [ih, h]

theorem filterLoop_succ {α : Type} (constraint : α → Bool) (constraints : List (α → Bool))
    (remaining : Nat) (elements : List α) :
    filterLoop (constraint :: constraints) (remaining + 1) elements =
      some (elements.filter constraint) := by
  induction elements with
  | nil => rfl
  | cons element rest ih =>
    rw [filterLoop, constraintsOk_succ, ih]
    cases h : constraint element <;> simp [h]

theorem filterLoop_zero {α : Type} (constraints : List (α → Bool)) (elements : List α) :
    filterLoop constraints 0 elements = some elements := by
  induction elements with
  | nil => rfl
  | cons element rest ih => simp [filterLoop, constraintsOk, ih]

theorem digitChar_isdigit (d : Nat) (hd : d < 10) :
    isdigit (Nat.digitChar d) = true ∧ (Nat.digitChar d).toNat - (48 : Nat) = d := by
  interval_cases d <;> decide

theorem toDigitsCore_spec (fuel : Nat) :
    ∀ (n : Nat) (ds : List Char), n < fuel →
      ∃ pre : List Char, Nat.toDigitsCore 10 fuel n ds = pre ++ ds ∧ pre ≠ [] ∧
        (∀ c ∈ pre, isdigit c = true) ∧ decimalValue pre = n := by
  induction fuel with
  | zero => intro n ds h; omega
  | succ fuel ih =>
    intro n ds hn
    have hd := digitChar_isdigit (n % 10) (Nat.mod_lt _ (by decide))
    rw [Nat.toDigitsCore]
    by_cases h0 : n / 10 = 0
    · refine ⟨[Nat.digitChar (n % 10)], by simp [h0], by simp, by simpa using hd.1, ?_⟩
      simp only [decimalValue, List.foldl_cons, List.foldl_nil, hd.2]
      omega
    · obtain ⟨pre, h1, _, h3, h4⟩ := ih (n / 10) (Nat.digitChar (n % 10) :: ds) (by omega)
      refine ⟨pre ++ [Nat.digitChar (n % 10)], by simp [h0, h1], by simp, ?_, ?_⟩
      · intro c hc
        rcases List.mem_append.1 hc with hc | hc
        · exact h3 c hc
        · rw [List.mem_singleton.1 hc]
          exact hd.1
      · unfold decimalValue at h4 ⊢
        rw [List.foldl_append, h4]
        simp only [List.foldl_cons, List.foldl_nil, hd.2]
        omega

theorem toDigits_spec (n : Nat) :
    ∃ pre : List Char, Nat.toDigits 10 n = pre ∧ pre ≠ [] ∧
      (∀ c ∈ pre, isdigit c = true) ∧ decimalValue pre = n := by
  obtain ⟨pre, h1, h2, h3, h4⟩ := toDigitsCore_spec (n + 1) n [] (by omega)
  exact ⟨pre, by simpa [Nat.toDigits] using h1, h2, h3, h4⟩

theorem readNat_append (pre rest : List Char) (hpre : ∀ c ∈ pre, isdigit c = true) :
    ∀ value count : Nat,
      readNat value count (pre ++ rest) =
        readNat (pre.foldl (fun v c => v * 10 + (c.toNat - (48 : Nat))) value)
          (count + pre.length) rest := by
  induction pre with
  | nil => intro value count; rfl
  | cons c pre ih =>
    intro value count
    have hc := hpre c (List.mem_cons_self _ _)
    have h := ih (fun d hd => hpre d (List.mem_cons_of_mem _ hd))
      (value * 10 + (c.toNat - (48 : Nat))) (count + 1)
    simp only [List.cons_append, readNat, hc, if_true, List.foldl_cons, List.length_cons]
    simp only [List.append_eq] at h ⊢
    rw [h]
    congr 1
    omega

theorem readNat_toDigits (n : Nat) (c : Char) (rest : List Char) (hc : isdigit c = false) :
    ∃ count, 0 < count ∧
      readNat 0 0 (Nat.toDigits 10 n ++ c :: rest) = (n, count, c :: rest) := by
  obtain ⟨pre, h1, h2, h3, h4⟩ := toDigits_spec n
  rw [h1, readNat_append pre _ h3]
  refine ⟨0 + pre.length, ?_, ?_⟩
  · have := List.length_pos.2 h2
    omega
  · unfold decimalValue at h4
    rw [h4]
    simp [readNat, hc]

theorem toDigits_head (n : Nat) :
    ∃ d tail, Nat.toDigits 10 n = d :: tail ∧ isdigit d = true := by
  obtain ⟨pre, h1, h2, h3, _⟩ := toDigits_spec n
  obtain ⟨d, tail, rfl⟩ := List.exists_cons_of_ne_nil h2
  exact ⟨d, tail, h1, h3 d (List.mem_cons_self _ _)⟩

theorem isdigit_facts {d : Char} (h : isdigit d = true) :
    isspace d = false ∧ d.toNat ≠ 45 ∧ d.toNat ≠ 43 := by
  have h1 : 48 ≤ d.toNat ∧ d.toNat ≤ 57 := by
    simp only [isdigit, Char.isDigit, Bool.and_eq_true, decide_eq_true_eq] at h
    exact ⟨h.1, h.2⟩
  refine ⟨?_, by omega, by omega⟩
  simp only [isspace, Bool.or_eq_false_iff, decide_eq_false_iff_not, Bool.and_eq_false_iff]
  omega

theorem readInt_writeInt (n : Int) (hn : inIntRange n) (c : Char) (rest : List Char)
    (hc : isdigit c = false) (value : Int) :
    IStream.readInt ⟨writeInt n ++ c :: rest, false⟩ value = (⟨c :: rest, false⟩, n) := by
  unfold inIntRange at hn
  by_cases hneg : n < 0
  · obtain ⟨count, hcount, hread⟩ := readNat_toDigits n.natAbs c rest hc
    have hval : -(n.natAbs : Int) = n := by omega
    simp only [writeInt, hneg, if_true, IStream.readInt, Bool.false_eq_true, if_false,
      List.cons_append]
    have hsp : isspace (Char.ofNat 45) = false := by decide
    rw [List.dropWhile_cons_of_neg (by simp [hsp])]
    have h45 : (Char.ofNat 45).toNat = 45 := by decide
    simp only [h45, if_true, hread, storeInt, hval]
    rw [if_neg (by omega), if_neg (by omega), if_neg (by omega)]
  · obtain ⟨count, hcount, hread⟩ := readNat_toDigits n.toNat c rest hc
    obtain ⟨d, tail, hd, hdig⟩ := toDigits_head n.toNat
    have hval : (n.toNat : Int) = n := by omega
    have hf := isdigit_facts hdig
    simp only [writeInt, hneg, if_false, IStream.readInt, Bool.false_eq_true]
    rw [hd, List.cons_append, List.dropWhile_cons_of_neg (by simp [hf.1])]
    simp only [hf.2.1, hf.2.2, if_false]
    rw [← List.cons_append, ← hd, hread]
    simp only [storeInt, Bool.false_eq_true, if_false, hval]
    rw [if_neg (by omega), if_neg (by omega), if_neg (by omega)]

theorem readChar_cons (c : Char) (rest : List Char) (ch : Char) (hc : isspace c = false) :
    IStream.readChar ⟨c :: rest, false⟩ ch = (⟨rest, false⟩, c) := by
  simp only [IStream.readChar, Bool.false_eq_true, if_false]
  rw [List.dropWhile_cons_of_neg (by simp [hc])]

theorem readVec2_writeVec2 (v : IVec2) (hx : inIntRange v.x) (hy : inIntRange v.y)
    (value : IVec2) (ch : Char) :
    readVec2 ⟨writeVec2 [] v, false⟩ value ch = (⟨[], false⟩, v) := by
  have e : writeVec2 [] v =
      Char.ofNat 40 :: (writeInt v.x ++ Char.ofNat 44 :: (writeInt v.y ++ Char.ofNat 41 :: [])) := by
    simp [writeVec2]
  rw [e]
  simp only [readVec2, parseVector, IStream.peek, Bool.false_eq_true, if_false, List.head?_cons,
    if_true, readChar_cons _ _ _ (by decide : isspace (Char.ofNat 40) = false), parseElements,
    ne_eq, not_true_eq_false, List.getD_cons_zero,
    readInt_writeInt _ hx _ _ (by decide : isdigit (Char.ofNat 44) = false)]
  simp only [Nat.zero_add, Nat.one_ne_zero, not_false_eq_true, if_true,
    readChar_cons _ _ _ (by decide : isspace (Char.ofNat 44) = false),
    (by decide : (Char.ofNat 44).toNat = 44), not_true_eq_false, if_false,
    readInt_writeInt _ hy _ _ (by decide : isdigit (Char.ofNat 41) = false),
    readChar_cons _ _ _ (by decide : isspace (Char.ofNat 41) = false),
    (by decide : (Char.ofNat 41).toNat = 41)]
  rfl

theorem readVec3_writeVec3 (v : IVec3) (hx : inIntRange v.x) (hy : inIntRange v.y)
    (hz : inIntRange v.z) (value : IVec3) (ch : Char) :
    readVec3 ⟨writeVec3 [] v, false⟩ value ch = (⟨[], false⟩, v) := by
  have e : writeVec3 [] v =
      Char.ofNat 40 :: (writeInt v.x ++ Char.ofNat 44 :: (writeInt v.y ++
        Char.ofNat 44 :: (writeInt v.z ++ Char.ofNat 41 :: []))) := by
    simp [writeVec3]
  rw [e]
  simp only [readVec3, parseVector, IStream.peek, Bool.false_eq_true, if_false, List.head?_cons,
    if_true, readChar_cons _ _ _ (by decide : isspace (Char.ofNat 40) = false), parseElements,
    ne_eq, not_true_eq_false, List.getD_cons_zero,
    readInt_writeInt _ hx _ _ (by decide : isdigit (Char.ofNat 44) = false)]
  simp only [Nat.zero_add, Nat.one_ne_zero, not_false_eq_true, if_true,
    readChar_cons _ _ _ (by decide : isspace (Char.ofNat 44) = false),
    (by decide : (Char.ofNat 44).toNat = 44), not_true_eq_false, if_false,
    readInt_writeInt _ hy _ _ (by decide : isdigit (Char.ofNat 44) = false)]
  simp only [Nat.reduceAdd, OfNat.ofNat_ne_zero, not_false_eq_true, if_true,
    readChar_cons _ _ _ (by decide : isspace (Char.ofNat 44) = false),
    (by decide : (Char.ofNat 44).toNat = 44), not_true_eq_false, if_false,
    readInt_writeInt _ hz _ _ (by decide : isdigit (Char.ofNat 41) = false),
    readChar_cons _ _ _ (by decide : isspace (Char.ofNat 41) = false),
    (by decide : (Char.ofNat 41).toNat = 41)]
  rfl

theorem readVec4_writeVec4 (v : IVec4) (hx : inIntRange v.x) (hy : inIntRange v.y)
    (hz : inIntRange v.z) (hw : inIntRange v.w) (value : IVec4) (ch : Char) :
    readVec4 ⟨writeVec4 [] v, false⟩ value ch = (⟨[], false⟩, ⟨v.w, v.x, v.y, v.z⟩) := by
  have e : writeVec4 [] v =
      Char.ofNat 40 :: (writeInt v.w ++ Char.ofNat 44 :: (writeInt v.x ++
        Char.ofNat 44 :: (writeInt v.y ++ Char.ofNat 44 :: (writeInt v.z ++
          Char.ofNat 41 :: [])))) := by
    simp [writeVec4]
  rw [e]
  simp only [readVec4, parseVector, IStream.peek, Bool.false_eq_true, if_false, List.head?_cons,
    if_true, readChar_cons _ _ _ (by decide : isspace (Char.ofNat 40) = false), parseElements,
    ne_eq, not_true_eq_false, List.getD_cons_zero,
    readInt_writeInt _ hw _ _ (by decide : isdigit (Char.ofNat 44) = false)]
  simp only [Nat.zero_add, Nat.one_ne_zero, not_false_eq_true, if_true,
    readChar_cons _ _ _ (by decide : isspace (Char.ofNat 44) = false),
    (by decide : (Char.ofNat 44).toNat = 44), not_true_eq_false, if_false,
    readInt_writeInt _ hx _ _ (by decide : isdigit (Char.ofNat 44) = false)]
  simp only [Nat.reduceAdd, OfNat.ofNat_ne_zero, not_false_eq_true, if_true,
    readChar_cons _ _ _ (by decide : isspace (Char.ofNat 44) = false),
    (by decide : (Char.ofNat 44).toNat = 44), not_true_eq_false, if_false,
    readInt_writeInt _ hy _ _ (by decide : isdigit (Char.ofNat 44) = false)]
  simp only [Nat.reduceAdd, OfNat.ofNat_ne_zero, not_false_eq_true, if_true,
    readChar_cons _ _ _ (by decide : isspace (Char.ofNat 44) = false),
    (by decide : (Char.ofNat 44).toNat = 44), not_true_eq_false, if_false,
    readInt_writeInt _ hz _ _ (by decide : isdigit (Char.ofNat 41) = false),
    readChar_cons _ _ _ (by decide : isspace (Char.ofNat 41) = false),
    (by decide : (Char.ofNat 41).toNat = 41)]
  rfl

theorem foldl_keyList_add (walked keys : List Key) :
    walked.foldl KeyList.add keys = keys ++ walked := by
  induction walked generalizing keys with
  | nil => simp
  | cons k ks ih => simp [List.foldl_cons, ih, KeyList.add]

theorem visit_func_cacheRel (mapper : RayMapperOccupancy) (map : OccupancyMap) (flags ts : Nat)
    {s : LoopState} {u : UncachedState} (h : CacheRel s u) (key : Key) :
    CacheRel (visit_func mapper map flags ts s key) (visitUncached mapper map flags ts u key) := by
  obtain ⟨h1, h2, h3⟩ := h
  have e := selectChunk_eq_region h1 key.regionKey
  refine ⟨select_write_cacheOK h1 key.regionKey
    (missChunk mapper map ts s.stop_adjustments (voxelIndex key mapper.occupancy_dim))
    (fun c => rfl) _, ?_, ?_⟩
  · simp only [visit_func, visitUncached, e, h2, h3]
  · simp only [visit_func, visitUncached, e, h2, h3]

theorem foldl_visit_cacheRel (mapper : RayMapperOccupancy) (map : OccupancyMap) (flags ts : Nat)
    (keys : List Key) {s : LoopState} {u : UncachedState} (h : CacheRel s u) :
    CacheRel (keys.foldl (visit_func mapper map flags ts) s)
      (keys.foldl (visitUncached mapper map flags ts) u) := by
  induction keys generalizing s u with
  | nil => exact h
  | cons k ks ih => exact ih (visit_func_cacheRel mapper map flags ts h k)

theorem hitPass_cacheRel (mapper : RayMapperOccupancy) (map : OccupancyMap) (ts : Nat)
    {s : LoopState} {u : UncachedState} (h : CacheRel s u) (end_ : DVec3) :
    CacheRel (hitPass mapper map ts s end_) (hitPassUncached mapper map ts u end_) := by
  obtain ⟨h1, h2, h3⟩ := h
  have e := selectChunk_eq_region h1 (map.voxelKey end_).regionKey
  refine ⟨select_write_cacheOK h1 (map.voxelKey end_).regionKey
    (hitChunk mapper map ts s.stop_adjustments (map.voxelKey end_) end_) (fun c => rfl) _, ?_, ?_⟩
  · simp only [hitPass, hitPassUncached, e, h2, h3]
  · simp only [hitPass, hitPassUncached, h3]

theorem integrateAccepted_cacheRel (mapper : RayMapperOccupancy) (map : OccupancyMap)
    (flags ts : Nat) {s : LoopState} {u : UncachedState} (h : CacheRel s u)
    (start end_ : DVec3) (ff : Nat) :
    CacheRel (integrateAccepted mapper map flags ts s start end_ ff)
      (integrateAcceptedUncached mapper map flags ts u start end_ ff) := by
  simp only [integrateAccepted, integrateAcceptedUncached]
  by_cases hex : flagSet flags kRfExcludeRay = true
  · simp only [hex, Bool.not_true, Bool.false_eq_true, if_false]
    rw [← h.2.2]
    split
    · exact hitPass_cacheRel mapper map ts h end_
    · exact h
  · have hmiss : CacheRel (missPass mapper map flags ts s start end_ (includeSampleInRay ff flags))
        ((walkSegmentKeys map (start.sub map.origin) (end_.sub map.origin)
          (includeSampleInRay ff flags)).foldl
          (visitUncached mapper map flags ts) { u with stop_adjustments := false }) :=
      foldl_visit_cacheRel mapper map flags ts _ ⟨fun i hi => h.1 i hi, h.2.1, rfl⟩
    simp only [hex, Bool.not_false, if_true]
    rw [← hmiss.2.2]
    split
    · exact hitPass_cacheRel mapper map ts hmiss end_
    · exact hmiss

theorem integrateRay_cacheRel (mapper : RayMapperOccupancy) (map : OccupancyMap)
    (flags ts : Nat) {s : LoopState} {u : UncachedState} (h : CacheRel s u) (a b : DVec3) :
    CacheRel (integrateRay mapper map flags ts s a b)
      (integrateRayUncached mapper map flags ts u a b) := by
  cases hfilter : map.rayFilter with
  | none =>
    simp only [integrateRay, integrateRayUncached, hfilter]
    exact integrateAccepted_cacheRel mapper map flags ts h a b 0
  | some f =>
    rcases hf : f a b 0 with ⟨r, x, y, z⟩
    cases r
    · simp only [integrateRay, integrateRayUncached, hfilter, hf]
      exact h
    · simp only [integrateRay, integrateRayUncached, hfilter, hf]
      exact integrateAccepted_cacheRel mapper map flags ts h x y z

theorem integrateLoop_cacheRel (mapper : RayMapperOccupancy) (map : OccupancyMap)
    (flags ts : Nat) :
    ∀ (rays : List DVec3) (s : LoopState) (u : UncachedState), CacheRel s u →
      (integrateLoop mapper map flags ts rays s).map LoopState.chunks =
        (integrateLoopUncached mapper map flags ts rays u).map UncachedState.chunks
  | [], _, _, h => by simp [integrateLoop, integrateLoopUncached, h.2.1]
  | [_], _, _, _ => rfl
  | a :: b :: rest, s, u, h => by
    simp only [integrateLoop, integrateLoopUncached]
    exact integrateLoop_cacheRel mapper map flags ts rest _ _
      (integrateRay_cacheRel mapper map flags ts h a b)

theorem updateFirstValid_spec (hint : Option Nat) (v : Nat) :
    ∃ i', updateFirstValid hint v = some i' ∧ i' ≤ v ∧ ∀ i, hint = some i → i' ≤ i := by
  cases hint with
  | none => exact ⟨v, rfl, le_refl _, fun i h => by cases h⟩
  | some i =>
    refine ⟨min i v, rfl, min_le_right _ _, fun j h => ?_⟩
    cases h
    exact min_le_left _ _

theorem firstValidInv_write (c c' : MapChunk) (v : Nat)
    (hhint : c'.first_valid_index = updateFirstValid c.first_valid_index v)
    (hocc : ∀ w, w ≠ v → c'.occupancy w = c.occupancy w) (h : FirstValidInv c) :
    FirstValidInv c' := by
  obtain ⟨i', h1, h2, h3⟩ := updateFirstValid_spec c.first_valid_index v
  unfold FirstValidInv at h ⊢
  rw [hhint, h1]
  intro w hw
  rw [hocc w (by omega)]
  cases hc : c.first_valid_index with
  | none =>
    rw [hc] at h
    exact h w
  | some i =>
    rw [hc] at h
    exact h w (lt_of_lt_of_le hw (h3 i hc))

theorem hintNotRaised_write (c c' : MapChunk) (v : Nat)
    (hhint : c'.first_valid_index = updateFirstValid c.first_valid_index v) :
    HintNotRaised c c' := by
  obtain ⟨i', h1, _, h3⟩ := updateFirstValid_spec c.first_valid_index v
  intro i hi
  exact ⟨i', by rw [hhint, h1], h3 i hi⟩

theorem firstValid_rel_miss (mapper : RayMapperOccupancy) (map : OccupancyMap) (ts : Nat)
    (stop : Bool) (v : Nat) (c : MapChunk) (coord : I16Vec3) :
    (FirstValidInv c → FirstValidInv (missChunk mapper map ts stop v { c with region_coord := coord })) ∧
      HintNotRaised c (missChunk mapper map ts stop v { c with region_coord := coord }) :=
  ⟨firstValidInv_write c _ v rfl (fun w hw => by simp [missChunk, Function.update, hw]),
    hintNotRaised_write c _ v rfl⟩

theorem firstValid_rel_hit (mapper : RayMapperOccupancy) (map : OccupancyMap) (ts : Nat)
    (stop : Bool) (key : Key) (end_ : DVec3) (c : MapChunk) (coord : I16Vec3) :
    (FirstValidInv c →
        FirstValidInv (hitChunk mapper map ts stop key end_ { c with region_coord := coord })) ∧
      HintNotRaised c (hitChunk mapper map ts stop key end_ { c with region_coord := coord }) :=
  ⟨firstValidInv_write c _ (voxelIndex key mapper.occupancy_dim) rfl
      (fun w hw => by simp [hitChunk, Function.update, hw]),
    hintNotRaised_write c _ (voxelIndex key mapper.occupancy_dim) rfl⟩

theorem firstValidInv_default : FirstValidInv (default : MapChunk) := by
  intro v
  rfl

theorem firstValidInv_chunkAt {chunks : List MapChunk} (h : ∀ c ∈ chunks, FirstValidInv c)
    (j : Nat) : FirstValidInv (chunkAt chunks j) := by
  unfold chunkAt
  cases hj : chunks[j]? with
  | none => exact firstValidInv_default
  | some c => exact h c (List.getElem?_mem hj)

theorem loopIndices_from (element_count : Nat) (hn : element_count < sizeMax) :
    ∀ fuel i : Nat, (element_count + 1 - i) / 2 < fuel →
      loopIndices element_count fuel i =
        some ((List.range ((element_count + 1 - i) / 2)).map fun j => i + 2 * j) := by
  unfold sizeMax at hn
  intro fuel
  induction fuel with
  | zero => intro i h; omega
  | succ fuel ih =>
    intro i h
    rw [loopIndices]
    by_cases hi : i < element_count
    · have hmod : (i + 2) % 2 ^ 64 = i + 2 := Nat.mod_eq_of_lt (by omega)
      obtain ⟨k, hk⟩ : ∃ k, (element_count + 1 - i) / 2 = k + 1 := ⟨(element_count + 1 - i) / 2 - 1, by omega⟩
      have hk' : (element_count + 1 - (i + 2)) / 2 = k := by omega
      rw [if_pos hi, hmod, ih (i + 2) (by omega), hk, hk', List.range_succ_eq_map]
      simp only [Option.map_some', List.map_cons, List.map_map, Nat.mul_zero, Nat.add_zero]
      congr 2
      apply List.map_congr_left
      intro j _
      simp only [Function.comp]
      omega
    · have hk : (element_count + 1 - i) / 2 = 0 := by omega
      rw [if_neg hi, hk]
      rfl

/-- The bound on `element_count` is needed by the loop control alone: at `SIZE_MAX`, a count no
array has, the even index would wrap to 0 before reaching the count. -/
theorem loopIndices_wrap : ∀ fuel i : Nat, i % 2 = 0 → i < 2 ^ 64 →
    loopIndices sizeMax fuel i = none := by
  intro fuel
  induction fuel with
  | zero => intro i _ _; rfl
  | succ fuel ih =>
    intro i h1 h2
    rw [loopIndices, if_pos (by unfold sizeMax; omega), ih _ (by omega) (Nat.mod_lt _ (by omega))]
    rfl

theorem rayPairs_eq_map : ∀ rays : List DVec3, rays.length % 2 = 0 →
    rayPairs rays =
      (List.range (rays.length / 2)).map fun j =>
        (rays.getD (2 * j) ⟨0, 0, 0⟩, rays.getD (2 * j + 1) ⟨0, 0, 0⟩)
  | [], _ => rfl
  | [_], h => by simp at h
  | a :: b :: rest, h => by
    have hlen : rest.length % 2 = 0 := by
      simp only [List.length_cons] at h
      omega
    have hdiv : (a :: b :: rest).length / 2 = rest.length / 2 + 1 := by
      simp only [List.length_cons]
      omega
    rw [hdiv, List.range_succ_eq_map, rayPairs, rayPairs_eq_map rest hlen]
    simp only [List.map_cons, List.map_map, Nat.mul_zero, List.getD_cons_zero, Nat.zero_add]
    congr 1

theorem succ_mod_of_ne_zero (a b : Nat) (hb : 0 < b) (h : (a + 1) % b ≠ 0) :
    (a + 1) % b = a % b + 1 := by
  have hlt := Nat.mod_lt a hb
  have hdiv := Nat.div_add_mod a b
  by_cases hlast : a % b + 1 = b
  · exfalso
    apply h
    have : a + 1 = b * (a / b + 1) := by
      rw [Nat.mul_add, Nat.mul_one]
      omega
    rw [this, Nat.mul_mod_right]
  · have : a + 1 = (a % b + 1) + b * (a / b) := by omega
    rw [this, Nat.add_mul_mod_self_left, Nat.mod_eq_of_lt (by omega)]

theorem passedArray_of_lt (pairs : List DVec3) (h : pairs.length < 2 ^ 32) :
    passedArray pairs = pairs := by
  rw [passedArray, Nat.mod_eq_of_lt h, List.take_length]

theorem originSamplePairs_append (points : List LoadedPoint) (p : LoadedPoint) :
    originSamplePairs (points ++ [p]) = originSamplePairs points ++ [p.origin, p.sample] := by
  simp [originSamplePairs]

theorem populateInv_flush (opt : PopulateOptions) (hbatch : 1 ≤ opt.batch_size)
    (hsize : 2 * opt.batch_size < 2 ^ 32) (st : PopulateState) (p : LoadedPoint)
    (timebase last_timestamp : Int) (h : PopulateInv opt st)
    (hflush : (st.point_count + 1) % 2 ^ 64 % opt.batch_size = 0) :
    PopulateInv opt
      { point_count := (st.point_count + 1) % 2 ^ 64
        timebase := timebase
        last_timestamp := last_timestamp
        origin_sample_pairs := []
        calls := st.calls ++ [passedArray (st.origin_sample_pairs ++ [p.origin, p.sample])]
        accepted := st.accepted ++ [p] } := by
  obtain ⟨h1, h2, h3, h4⟩ := h
  have hmod := Nat.mod_lt st.point_count (show 0 < opt.batch_size by omega)
  have hlen : (st.origin_sample_pairs ++ [p.origin, p.sample]).length =
      2 * (st.point_count % opt.batch_size) + 2 := by
    simp [h2]
  rw [passedArray_of_lt _ (by omega)]
  refine ⟨?_, ?_, Nat.mod_lt _ (by decide), ?_⟩
  · show (st.calls ++ [st.origin_sample_pairs ++ [p.origin, p.sample]]).flatten ++ [] = _
    rw [originSamplePairs_append, ← h1]
    simp
  · show ([] : List DVec3).length = _
    rw [hflush]
    rfl
  · intro a ha
    rcases List.mem_append.1 ha with ha | ha
    · exact h4 a ha
    · rw [List.mem_singleton.1 ha, hlen]
      omega

theorem populateInv_keep (opt : PopulateOptions) (hbatch : 1 ≤ opt.batch_size)
    (st : PopulateState) (p : LoadedPoint)
    (timebase last_timestamp : Int) (h : PopulateInv opt st)
    (hkeep : ¬ (st.point_count + 1) % 2 ^ 64 % opt.batch_size = 0) :
    PopulateInv opt
      { point_count := (st.point_count + 1) % 2 ^ 64
        timebase := timebase
        last_timestamp := last_timestamp
        origin_sample_pairs := st.origin_sample_pairs ++ [p.origin, p.sample]
        calls := st.calls
        accepted := st.accepted ++ [p] } := by
  obtain ⟨h1, h2, h3, h4⟩ := h
  have hlt : st.point_count + 1 < 2 ^ 64 := by
    by_contra hc
    have : st.point_count + 1 = 2 ^ 64 := by omega
    rw [this, Nat.mod_self, Nat.zero_mod] at hkeep
    exact hkeep rfl
  rw [Nat.mod_eq_of_lt hlt] at hkeep ⊢
  refine ⟨?_, ?_, hlt, h4⟩
  · show st.calls.flatten ++ (st.origin_sample_pairs ++ [p.origin, p.sample]) = _
    rw [originSamplePairs_append, ← h1, List.append_assoc]
  · show (st.origin_sample_pairs ++ [p.origin, p.sample]).length = _
    rw [succ_mod_of_ne_zero _ _ (by omega) hkeep]
    simp [h2]
    omega

theorem populateLoop_inv (opt : PopulateOptions) (hbatch : 1 ≤ opt.batch_size)
    (hsize : 2 * opt.batch_size < 2 ^ 32) :
    ∀ (points : List LoadedPoint) (st : PopulateState), PopulateInv opt st →
      PopulateInv opt (populateLoop opt false points st) ∧
        ∃ taken, (populateLoop opt false points st).accepted = st.accepted ++ taken ∧
          taken.Sublist points := by
  intro points
  induction points with
  | nil => intro st h; exact ⟨h, [], by simp [populateLoop], List.Sublist.refl _⟩
  | cons p rest ih =>
    intro st h
    rw [populateLoop]
    by_cases hc : (st.point_count < opt.point_limit ∨ opt.point_limit = 0) ∧
        (st.last_timestamp - st.timebase < opt.time_limit ∨ opt.time_limit = 0)
    · rw [if_pos hc]
      dsimp only
      generalize (if st.timebase < 0 then p.timestamp else st.timebase) = timebase
      generalize (if st.last_timestamp < 0 then p.timestamp else st.last_timestamp) =
        last_timestamp
      by_cases hs : p.timestamp - timebase < opt.start_time
      · rw [if_pos hs]
        obtain ⟨i1, taken, i2, i3⟩ := ih { st with timebase := timebase } h
        exact ⟨i1, taken, i2, i3.trans (List.sublist_cons_self _ _)⟩
      · rw [if_neg hs]
        by_cases hf : (st.point_count + 1) % 2 ^ 64 % opt.batch_size = 0
        · have hflush := populateInv_flush opt hbatch hsize st p timebase p.timestamp h hf
          rw [if_pos (Or.inl hf)]
          split
          · exact ⟨hflush, [p], rfl, by simp⟩
          · obtain ⟨i1, taken, i2, i3⟩ := ih _ hflush
            refine ⟨i1, p :: taken, ?_, List.Sublist.cons₂ _ i3⟩
            rw [i2]
            simp
        · have hkeep := populateInv_keep opt hbatch st p timebase last_timestamp h hf
          rw [if_neg (fun hor => hor.elim hf (fun hq => Bool.noConfusion hq))]
          obtain ⟨i1, taken, i2, i3⟩ := ih _ hkeep
          refine ⟨i1, p :: taken, ?_, List.Sublist.cons₂ _ i3⟩
          rw [i2]
          simp
    · rw [if_neg hc]
      exact ⟨h, [], by simp, List.nil_sublist _⟩

theorem populateLoop_below_batch (rest : List LoadedPoint) :
    ∀ (n : Nat) (st : PopulateState), (st.timebase = -1 ∨ st.timebase = 0) →
      st.point_count + n < 2 ^ 31 →
      ∃ st', populateLoop largeBatchOptions false (List.replicate n firstPoint ++ rest) st =
          populateLoop largeBatchOptions false rest st' ∧
        st'.point_count = st.point_count + n ∧
        st'.origin_sample_pairs.length = st.origin_sample_pairs.length + 2 * n ∧
        st'.calls = st.calls ∧ st'.accepted.length = st.accepted.length + n ∧
        (st'.timebase = -1 ∨ st'.timebase = 0) := by
  intro n
  induction n with
  | zero => intro st h _; exact ⟨st, rfl, rfl, rfl, rfl, rfl, h⟩
  | succ n ih =>
    intro st htb hn
    have htb' : (if st.timebase < 0 then firstPoint.timestamp else st.timebase) = 0 := by
      rcases htb with h | h <;> rw [h] <;> rfl
    have hpc : (st.point_count + 1) % 2 ^ 64 = st.point_count + 1 :=
      Nat.mod_eq_of_lt (by omega)
    have hkeep : ¬ ((st.point_count + 1) % largeBatchOptions.batch_size = 0 ∨
        false = true) := by
      show ¬ ((st.point_count + 1) % 2 ^ 31 = 0 ∨ false = true)
      rw [Nat.mod_eq_of_lt (by omega)]
      simp
    obtain ⟨st', h1, h2, h3, h4, h5, h6⟩ := ih
      { point_count := st.point_count + 1
        timebase := 0
        last_timestamp := if st.last_timestamp < 0 then firstPoint.timestamp else st.last_timestamp
        origin_sample_pairs := st.origin_sample_pairs ++ [firstPoint.origin, firstPoint.sample]
        calls := st.calls
        accepted := st.accepted ++ [firstPoint] } (Or.inr rfl) (by show st.point_count + 1 + n < _; omega)
    refine ⟨st', ?_, by rw [h2]; show st.point_count + 1 + n = _; omega,
      by rw [h3]; simp; omega, h4, by rw [h5]; simp; omega, h6⟩
    rw [← h1, List.replicate_succ, List.cons_append, populateLoop]
    have hcond : (st.point_count < largeBatchOptions.point_limit ∨
        largeBatchOptions.point_limit = 0) ∧
        (st.last_timestamp - st.timebase < largeBatchOptions.time_limit ∨
          largeBatchOptions.time_limit = 0) := ⟨Or.inr rfl, Or.inr rfl⟩
    rw [if_pos hcond]
    dsimp only
    rw [htb', hpc]
    have hstart : ¬ firstPoint.timestamp - 0 < largeBatchOptions.start_time := by decide
    rw [if_neg hstart, if_neg hkeep]

theorem populateMap_large_batch (m n : Nat) (hm : m = n + 1) (hn : n + 1 = 2 ^ 31) :
    (populateMap largeBatchOptions false (List.replicate m firstPoint)).calls = [[]] ∧
      (populateMap largeBatchOptions false
        (List.replicate m firstPoint)).accepted.length = m := by
  subst hm
  obtain ⟨st, h1, h2, h3, h4, h5, h6⟩ := populateLoop_below_batch [firstPoint] n
    ⟨0, -1, -1, [], [], []⟩ (Or.inl rfl) (by show 0 + n < 2 ^ 31; omega)
  have htb : (if st.timebase < 0 then firstPoint.timestamp else st.timebase) = 0 := by
    rcases h6 with h | h <;> rw [h] <;> rfl
  have hpc : (st.point_count + 1) % 2 ^ 64 = 2 ^ 31 := by
    rw [h2, Nat.zero_add, hn]
    rfl
  have hlen : (st.origin_sample_pairs ++ [firstPoint.origin, firstPoint.sample]).length =
      2 ^ 32 := by
    rw [List.length_append, h3]
    simp only [List.length_nil, List.length_cons]
    omega
  have hpass : passedArray (st.origin_sample_pairs ++ [firstPoint.origin, firstPoint.sample]) =
      [] := by
    rw [passedArray, hlen, Nat.mod_self, List.take_zero]
  have hloop : populateLoop largeBatchOptions false [firstPoint] st =
      { point_count := 2 ^ 31
        timebase := 0
        last_timestamp := firstPoint.timestamp
        origin_sample_pairs := []
        calls := st.calls ++ [[]]
        accepted := st.accepted ++ [firstPoint] } := by
    rw [populateLoop]
    have hcond : (st.point_count < largeBatchOptions.point_limit ∨
        largeBatchOptions.point_limit = 0) ∧
        (st.last_timestamp - st.timebase < largeBatchOptions.time_limit ∨
          largeBatchOptions.time_limit = 0) := ⟨Or.inr rfl, Or.inr rfl⟩
    rw [if_pos hcond]
    dsimp only
    rw [htb, hpc, hpass]
    have hstart : ¬ firstPoint.timestamp - 0 < largeBatchOptions.start_time := by decide
    have hflush : 2 ^ 31 % largeBatchOptions.batch_size = 0 ∨ false = true := Or.inl (by decide)
    have hbreak : ¬ ((largeBatchOptions.point_limit ≠ 0 ∧
        largeBatchOptions.point_limit ≤ 2 ^ 31) ∨
        (largeBatchOptions.time_limit ≠ 0 ∧
          largeBatchOptions.time_limit ≤ firstPoint.timestamp - 0) ∨ false = true) := by
      decide
    rw [if_neg hstart, if_pos hflush, if_neg hbreak, populateLoop]
  have hrun : populateLoop largeBatchOptions false (List.replicate (n + 1) firstPoint)
      ⟨0, -1, -1, [], [], []⟩ =
      { point_count := 2 ^ 31
        timebase := 0
        last_timestamp := firstPoint.timestamp
        origin_sample_pairs := []
        calls := st.calls ++ [[]]
        accepted := st.accepted ++ [firstPoint] } := by
    rw [List.replicate_succ', h1, hloop]
  simp only [populateMap, hrun, List.isEmpty_nil, Bool.not_true, Bool.false_eq_true, if_false]
  refine ⟨by rw [h4]; rfl, ?_⟩
  rw [List.length_append, h5]
  simp

/-! ## The voxel of a sample under later rays -/

theorem findChunk_append_of_some {cs : List MapChunk} {coord : I16Vec3} {p : Nat}
    (h : findChunk cs coord = some p) (l : List MapChunk) :
    findChunk (cs ++ l) coord = some p := by
  induction cs generalizing p with
  | nil => simp [findChunk] at h
  | cons c cs ih =>
    simp only [List.cons_append, findChunk] at h ⊢
    split
    · rename_i hc
      simpa [hc] using h
    · rename_i hc
      simp only [hc, if_false] at h
      cases hf : findChunk cs coord with
      | none => simp [hf] at h
      | some k =>
        have hk := ih hf
        simp only [List.append_eq] at hk ⊢
        rw [hk]
        simpa [hf] using h

theorem findChunk_selectChunk {s : LoopState} (hs : s.CacheOK) {coord : I16Vec3} {p : Nat}
    (h : findChunk s.chunks coord = some p) (coord' : I16Vec3) :
    findChunk (selectChunk s coord').1 coord = some p := by
  rw [selectChunk_eq_region hs]
  rcases region_cases s.chunks coord' with ⟨h1, -, -⟩ | ⟨h1, -⟩
  · rw [h1]; exact h
  · rw [h1]; exact findChunk_append_of_some h _

theorem selectChunk_pos {s : LoopState} (hs : s.CacheOK) {coord : I16Vec3} {p : Nat}
    (h : findChunk s.chunks coord = some p) (coord' : I16Vec3) :
    ((selectChunk s coord').2 = p ↔ coord' = coord) := by
  have hp := findChunk_some h
  constructor
  · intro he
    rcases selectChunk_cases hs.valid coord' with ⟨-, -, h3⟩ | ⟨-, h2⟩
    · rw [he, hp.2] at h3
      exact h3.symm
    · omega
  · rintro rfl
    rw [selectChunk_eq_region hs]
    simp [region, h]

/-- A write to the chunk selected for `coord'` keeps the voxel held, when the write is to
another region or leaves the voxel `v` as it is. -/
theorem select_write_held {s : LoopState} {coord : I16Vec3} {p v : Nat} {occupancy : Int}
    {mean : VoxelMean} (h : VoxelHeld s coord p v occupancy mean) (coord' : I16Vec3)
    (f : MapChunk → MapChunk) (hf : ∀ c, (f c).region_coord = c.region_coord)
    (hframe : coord' = coord →
      ∀ c, (f c).occupancy v = c.occupancy v ∧ (f c).mean v = c.mean v) (stop : Bool) :
    VoxelHeld ⟨modifyChunk f (selectChunk s coord').1 (selectChunk s coord').2,
      some (selectChunk s coord').2, stop⟩ coord p v occupancy mean := by
  obtain ⟨h1, h2, h3, h4⟩ := h
  have hw := select_write h1.valid coord' f
  refine ⟨select_write_cacheOK h1 coord' f hf stop, ?_, ?_⟩
  · show findChunk (modifyChunk f _ _) coord = some p
    rw [findChunk_congr (modifyChunk_region_coord f hf _ _) coord]
    exact findChunk_selectChunk h1 h2 coord'
  · show (chunkAt (modifyChunk f _ _) p).occupancy v = occupancy ∧
      (chunkAt (modifyChunk f _ _) p).mean v = mean
    by_cases hp : (selectChunk s coord').2 = p
    · have hc := (selectChunk_pos h1 h2 coord').1 hp
      have hfr := hframe hc { chunkAt s.chunks p with region_coord := coord' }
      rw [← hp, hw.2.1, hp]
      exact ⟨by rw [hfr.1]; exact h3, by rw [hfr.2]; exact h4⟩
    · rw [hw.2.2.1 p (fun hc => hp hc.symm)]
      exact ⟨h3, h4⟩

theorem voxelIndex_inj {dim : U8Vec3} {k k' : Key}
    (hx : k.localKey.x < dim.x) (hy : k.localKey.y < dim.y)
    (hx' : k'.localKey.x < dim.x) (hy' : k'.localKey.y < dim.y)
    (h : voxelIndex k dim = voxelIndex k' dim) : k.localKey = k'.localKey := by
  obtain ⟨r, ⟨x, y, z⟩⟩ := k
  obtain ⟨r', ⟨x', y', z'⟩⟩ := k'
  simp only [voxelIndex] at h hx hy hx' hy' ⊢
  have e1 : z * dim.x * dim.y + y * dim.x + x = x + dim.x * (y + dim.y * z) := by ring
  have e2 : z' * dim.x * dim.y + y' * dim.x + x' = x' + dim.x * (y' + dim.y * z') := by ring
  rw [e1, e2] at h
  have hxx : x = x' := by
    have := congrArg (· % dim.x) h
    simpa [Nat.add_mul_mod_self_left, Nat.mod_eq_of_lt hx, Nat.mod_eq_of_lt hx'] using this
  have hrest : y + dim.y * z = y' + dim.y * z' := by
    have := congrArg (· / dim.x) h
    simpa [Nat.add_mul_div_left _ _ (show 0 < dim.x by omega), Nat.div_eq_of_lt hx,
      Nat.div_eq_of_lt hx'] using this
  have hyy : y = y' := by
    have := congrArg (· % dim.y) hrest
    simpa [Nat.add_mul_mod_self_left, Nat.mod_eq_of_lt hy, Nat.mod_eq_of_lt hy'] using this
  have hzz : z = z' := by
    have := congrArg (· / dim.y) hrest
    simpa [Nat.add_mul_div_left _ _ (show 0 < dim.y by omega), Nat.div_eq_of_lt hy,
      Nat.div_eq_of_lt hy'] using this
  rw [hxx, hyy, hzz]

theorem keyOfVoxel_local_lt {dims : U8Vec3} (hx : 0 < dims.x) (hy : 0 < dims.y) (g : I16Vec3) :
    (keyOfVoxel dims g).localKey.x < dims.x ∧ (keyOfVoxel dims g).localKey.y < dims.y := by
  have hx' : (0 : Int) < dims.x := by exact_mod_cast hx
  have hy' : (0 : Int) < dims.y := by exact_mod_cast hy
  have h1 := Int.emod_lt_of_pos g.x hx'
  have h2 := Int.emod_nonneg g.x (ne_of_gt hx')
  have h3 := Int.emod_lt_of_pos g.y hy'
  have h4 := Int.emod_nonneg g.y (ne_of_gt hy')
  simp only [keyOfVoxel]
  omega

/-- Two different keys of the same region have different voxel indices. -/
theorem voxelIndex_ne_of_key_ne {dims : U8Vec3} (hx : 0 < dims.x) (hy : 0 < dims.y)
    {g g' : I16Vec3} (hne : keyOfVoxel dims g' ≠ keyOfVoxel dims g)
    (hregion : (keyOfVoxel dims g').regionKey = (keyOfVoxel dims g).regionKey) :
    voxelIndex (keyOfVoxel dims g') dims ≠ voxelIndex (keyOfVoxel dims g) dims := by
  intro h
  apply hne
  have hl := voxelIndex_inj (keyOfVoxel_local_lt hx hy g').1 (keyOfVoxel_local_lt hx hy g').2
    (keyOfVoxel_local_lt hx hy g).1 (keyOfVoxel_local_lt hx hy g).2 h
  cases hk : keyOfVoxel dims g'
  cases hk' : keyOfVoxel dims g
  rw [hk, hk'] at hregion hl
  simp only at hregion hl
  rw [hregion, hl]

theorem walkLoop_keys (dims : U8Vec3) (r : Int) (e : I16Vec3) (include_end : Bool) :
    ∀ (fuel : Nat) (ax ay az : WalkAxis),
      ∀ k ∈ walkLoop dims r e include_end fuel ax ay az, ∃ g, k = keyOfVoxel dims g := by
  intro fuel
  induction fuel with
  | zero =>
    intro ax ay az k hk
    cases include_end <;> simp [walkLoop] at hk
    exact ⟨e, hk⟩
  | succ n ih =>
    intro ax ay az k hk
    unfold walkLoop at hk
    split at hk
    · cases include_end <;> simp at hk
      exact ⟨e, hk⟩
    · rw [List.mem_cons] at hk
      rcases hk with hk | hk
      · exact ⟨_, hk⟩
      · split at hk
        · exact ih _ _ _ k hk
        · split at hk
          · exact ih _ _ _ k hk
          · exact ih _ _ _ k hk

theorem walkSegmentKeys_keys (map : OccupancyMap) (start_point end_point : DVec3)
    (include_end : Bool) :
    ∀ k ∈ walkSegmentKeys map start_point end_point include_end,
      ∃ g, k = keyOfVoxel map.regionVoxelDimensions g :=
  walkLoop_keys _ _ _ _ _ _ _ _

theorem visit_func_held (mapper : RayMapperOccupancy) (map : OccupancyMap) (flags ts : Nat)
    (hdim : mapper.occupancy_dim = map.regionVoxelDimensions)
    (hx : 0 < map.regionVoxelDimensions.x) (hy : 0 < map.regionVoxelDimensions.y)
    {s : LoopState} {g : I16Vec3} {p : Nat} {occupancy : Int} {mean : VoxelMean}
    (h : VoxelHeld s (keyOfVoxel map.regionVoxelDimensions g).regionKey p
      (voxelIndex (keyOfVoxel map.regionVoxelDimensions g) mapper.occupancy_dim) occupancy mean)
    (g' : I16Vec3)
    (hne : keyOfVoxel map.regionVoxelDimensions g' ≠ keyOfVoxel map.regionVoxelDimensions g) :
    VoxelHeld (visit_func mapper map flags ts s (keyOfVoxel map.regionVoxelDimensions g'))
      (keyOfVoxel map.regionVoxelDimensions g).regionKey p
      (voxelIndex (keyOfVoxel map.regionVoxelDimensions g) mapper.occupancy_dim) occupancy
      mean := by
  refine select_write_held h _
    (missChunk mapper map ts s.stop_adjustments
      (voxelIndex (keyOfVoxel map.regionVoxelDimensions g') mapper.occupancy_dim))
    (fun c => rfl) (fun hregion c => ?_) _
  have hv : voxelIndex (keyOfVoxel map.regionVoxelDimensions g') mapper.occupancy_dim ≠
      voxelIndex (keyOfVoxel map.regionVoxelDimensions g) mapper.occupancy_dim := by
    rw [hdim]
    exact voxelIndex_ne_of_key_ne hx hy hne hregion
  exact ⟨by simp [missChunk, Function.update_noteq hv.symm], rfl⟩

theorem foldl_visit_held (mapper : RayMapperOccupancy) (map : OccupancyMap) (flags ts : Nat)
    (hdim : mapper.occupancy_dim = map.regionVoxelDimensions)
    (hx : 0 < map.regionVoxelDimensions.x) (hy : 0 < map.regionVoxelDimensions.y)
    {g : I16Vec3} {p : Nat} {occupancy : Int} {mean : VoxelMean} (keys : List Key)
    (hkeys : ∀ k ∈ keys, ∃ g', k = keyOfVoxel map.regionVoxelDimensions g')
    (hne : keyOfVoxel map.regionVoxelDimensions g ∉ keys) {s : LoopState}
    (h : VoxelHeld s (keyOfVoxel map.regionVoxelDimensions g).regionKey p
      (voxelIndex (keyOfVoxel map.regionVoxelDimensions g) mapper.occupancy_dim) occupancy mean) :
    VoxelHeld (keys.foldl (visit_func mapper map flags ts) s)
      (keyOfVoxel map.regionVoxelDimensions g).regionKey p
      (voxelIndex (keyOfVoxel map.regionVoxelDimensions g) mapper.occupancy_dim) occupancy
      mean := by
  induction keys generalizing s with
  | nil => exact h
  | cons k ks ih =>
    obtain ⟨g', rfl⟩ := hkeys k (List.mem_cons_self _ _)
    exact ih (fun k' hk' => hkeys k' (List.mem_cons_of_mem _ hk'))
      (fun hm => hne (List.mem_cons_of_mem _ hm))
      (visit_func_held mapper map flags ts hdim hx hy h g'
        (fun he => hne (he ▸ List.mem_cons_self _ _)))

theorem hitPass_held (mapper : RayMapperOccupancy) (map : OccupancyMap) (ts : Nat)
    (hdim : mapper.occupancy_dim = map.regionVoxelDimensions)
    (hx : 0 < map.regionVoxelDimensions.x) (hy : 0 < map.regionVoxelDimensions.y)
    {s : LoopState} {end_ : DVec3} {p : Nat} {occupancy : Int} {mean : VoxelMean}
    (h : VoxelHeld s (map.voxelKey end_).regionKey p
      (voxelIndex (map.voxelKey end_) mapper.occupancy_dim) occupancy mean)
    (later : DVec3) (hne : map.voxelKey later ≠ map.voxelKey end_) :
    VoxelHeld (hitPass mapper map ts s later) (map.voxelKey end_).regionKey p
      (voxelIndex (map.voxelKey end_) mapper.occupancy_dim) occupancy mean := by
  refine select_write_held h _
    (hitChunk mapper map ts s.stop_adjustments (map.voxelKey later) later)
    (fun c => rfl) (fun hregion c => ?_) _
  have hv : voxelIndex (map.voxelKey later) mapper.occupancy_dim ≠
      voxelIndex (map.voxelKey end_) mapper.occupancy_dim := by
    rw [hdim]
    exact voxelIndex_ne_of_key_ne hx hy hne hregion
  constructor
  · simp [hitChunk, Function.update_noteq hv.symm]
  · by_cases hm : 0 ≤ mapper.mean_layer
    · simp [hitChunk, hm, Function.update_noteq hv.symm]
    · simp [hitChunk, hm]

theorem held_reset {s : LoopState} {coord : I16Vec3} {p v : Nat} {occupancy : Int}
    {mean : VoxelMean} (h : VoxelHeld s coord p v occupancy mean) (stop : Bool) :
    VoxelHeld { s with stop_adjustments := stop } coord p v occupancy mean :=
  ⟨fun i hi => h.1 i hi, h.2.1, h.2.2.1, h.2.2.2⟩

/-- A ray of a map without filter that neither hits nor traverses the voxel of `end_` keeps it
held. -/
theorem integrateRay_held (mapper : RayMapperOccupancy) (map : OccupancyMap) (flags ts : Nat)
    (hfilter : map.rayFilter = none)
    (hdim : mapper.occupancy_dim = map.regionVoxelDimensions)
    (hx : 0 < map.regionVoxelDimensions.x) (hy : 0 < map.regionVoxelDimensions.y)
    {s : LoopState} {end_ : DVec3} {p : Nat} {occupancy : Int} {mean : VoxelMean}
    (h : VoxelHeld s (map.voxelKey end_).regionKey p
      (voxelIndex (map.voxelKey end_) mapper.occupancy_dim) occupancy mean)
    (ray_start ray_end : DVec3) (hhit : map.voxelKey ray_end ≠ map.voxelKey end_)
    (hwalk : map.voxelKey end_ ∉
      walkSegmentKeys map (ray_start.sub map.origin) (ray_end.sub map.origin)
        (includeSampleInRay 0 flags)) :
    VoxelHeld (integrateRay mapper map flags ts s ray_start ray_end)
      (map.voxelKey end_).regionKey p
      (voxelIndex (map.voxelKey end_) mapper.occupancy_dim) occupancy mean := by
  have hmiss : VoxelHeld (afterMissPass mapper map flags ts s ray_start ray_end 0)
      (map.voxelKey end_).regionKey p
      (voxelIndex (map.voxelKey end_) mapper.occupancy_dim) occupancy mean := by
    unfold afterMissPass
    split
    · exact h
    · exact foldl_visit_held mapper map flags ts hdim hx hy (g := voxelOfLocal map.resolution
        (end_.sub map.origin)) _ (walkSegmentKeys_keys map _ _ _) hwalk (held_reset h false)
  simp only [integrateRay, hfilter]
  rw [integrateAccepted_eq]
  split
  · exact hitPass_held mapper map ts hdim hx hy hmiss ray_end hhit
  · exact hmiss

theorem foldl_integrateRay_held (mapper : RayMapperOccupancy) (map : OccupancyMap)
    (flags ts : Nat) (hfilter : map.rayFilter = none)
    (hdim : mapper.occupancy_dim = map.regionVoxelDimensions)
    (hx : 0 < map.regionVoxelDimensions.x) (hy : 0 < map.regionVoxelDimensions.y)
    {end_ : DVec3} {p : Nat} {occupancy : Int} {mean : VoxelMean}
    (pairs : List (DVec3 × DVec3))
    (hlater : ∀ ray ∈ pairs, map.voxelKey ray.2 ≠ map.voxelKey end_ ∧
      map.voxelKey end_ ∉ walkSegmentKeys map (ray.1.sub map.origin) (ray.2.sub map.origin)
        (includeSampleInRay 0 flags))
    {s : LoopState}
    (h : VoxelHeld s (map.voxelKey end_).regionKey p
      (voxelIndex (map.voxelKey end_) mapper.occupancy_dim) occupancy mean) :
    VoxelHeld (pairs.foldl (fun s ray => integrateRay mapper map flags ts s ray.1 ray.2) s)
      (map.voxelKey end_).regionKey p
      (voxelIndex (map.voxelKey end_) mapper.occupancy_dim) occupancy mean := by
  induction pairs generalizing s with
  | nil => exact h
  | cons ray rest ih =>
    have hr := hlater ray (List.mem_cons_self _ _)
    exact ih (fun r hm => hlater r (List.mem_cons_of_mem _ hm))
      (integrateRay_held mapper map flags ts hfilter hdim hx hy h ray.1 ray.2 hr.1 hr.2)

/-- Every state the loop reaches from the chunk store of a map whose unobserved voxels have
empty mean records has a sound cache and keeps the mean records of unobserved voxels empty. -/
theorem stateAfter_inv (mapper : RayMapperOccupancy) (map : OccupancyMap) (flags ts : Nat)
    (hhit : map.hitValue ≤ floatMax) (hmin : map.minVoxelValue ≤ floatMax)
    (hmax : map.maxVoxelValue ≤ floatMax) (hinv : ∀ c ∈ map.chunks, MeanCountInv c)
    (rays : List DVec3) :
    (stateAfter mapper map flags ts rays).CacheOK ∧
      ∀ j, MeanCountInv (chunkAt (stateAfter mapper map flags ts rays).chunks j) := by
  unfold stateAfter
  have hstart : (⟨map.chunks, none, false⟩ : LoopState).CacheOK ∧
      ∀ j, MeanCountInv (chunkAt (⟨map.chunks, none, false⟩ : LoopState).chunks j) := by
    refine ⟨cacheOK_start _ _, fun j => ?_⟩
    show MeanCountInv (chunkAt map.chunks j)
    unfold chunkAt
    cases hj : map.chunks[j]? with
    | none => exact meanCountInv_default
    | some c => exact hinv c (List.getElem?_mem hj)
  generalize (⟨map.chunks, none, false⟩ : LoopState) = s at hstart
  induction rayPairs rays generalizing s with
  | nil => exact hstart
  | cons ray rest ih =>
    apply ih
    refine ⟨(integrateRay_cacheRel mapper map flags ts
      (u := ⟨s.chunks, s.stop_adjustments⟩) ⟨hstart.1, rfl, rfl⟩ ray.1 ray.2).1, fun j => ?_⟩
    exact integrateRay_rel mapper map flags ts
      (fun c c' => MeanCountInv c → MeanCountInv c') (fun c h => h)
      (fun a b c hab hbc h => hbc (hab h))
      (fun stop v c coord h => missChunk_meanCountInv mapper map ts hmin hmax stop v c coord h)
      (fun key e c coord h => hitChunk_meanCountInv mapper map ts hhit hmax false key e c coord h)
      hstart.1.valid ray.1 ray.2 j (hstart.2 j)

theorem missPass_inv (mapper : RayMapperOccupancy) (map : OccupancyMap) (flags ts : Nat)
    (hmin : map.minVoxelValue ≤ floatMax) (hmax : map.maxVoxelValue ≤ floatMax)
    {s : LoopState} (hs : s.CacheOK) (hinv : ∀ j, MeanCountInv (chunkAt s.chunks j))
    (start end_ : DVec3) (include_sample_in_ray : Bool) :
    (missPass mapper map flags ts s start end_ include_sample_in_ray).CacheOK ∧
      ∀ j, MeanCountInv
        (chunkAt (missPass mapper map flags ts s start end_ include_sample_in_ray).chunks j) := by
  unfold missPass
  refine ⟨(foldl_visit_cacheRel mapper map flags ts _
    (s := { s with stop_adjustments := false }) (u := ⟨s.chunks, false⟩)
    ⟨fun i hi => hs i hi, rfl, rfl⟩).1, fun j => ?_⟩
  exact foldl_visit_rel mapper map flags ts
    (fun c c' => MeanCountInv c → MeanCountInv c') (fun c h => h)
    (fun a b c hab hbc h => hbc (hab h))
    (fun stop v c coord h => missChunk_meanCountInv mapper map ts hmin hmax stop v c coord h)
    _ (s := { s with stop_adjustments := false }) (fun i hi => hs.valid i hi) j (hinv j)

/-- With a sound cache, the chunk a lookup without creation finds for a key has the occupancy
values of the chunk the loop selects for it. -/
theorem lookupChunk_occupancy {s : LoopState} (hs : s.CacheOK) (key : Key) (v : Nat) :
    (lookupChunk s.chunks key).occupancy v =
      (chunkAt s.chunks (selectChunk s key.regionKey).2).occupancy v := by
  rw [selectChunk_eq_region hs]
  unfold lookupChunk region
  cases h : findChunk s.chunks key.regionKey with
  | some i => rfl
  | none =>
    show (newChunk key.regionKey).occupancy v = (chunkAt s.chunks s.chunks.length).occupancy v
    rw [chunkAt_ge (le_refl _)]
    rfl

theorem lookupChunk_of_findChunk {chunks : List MapChunk} {key : Key} {p : Nat}
    (h : findChunk chunks key.regionKey = some p) : lookupChunk chunks key = chunkAt chunks p := by
  simp [lookupChunk, h]

/-- With the default flags and no filter every ray ends with its hit pass. -/
theorem integrateRay_default (mapper : RayMapperOccupancy) (map : OccupancyMap) (ts : Nat)
    (hfilter : map.rayFilter = none) (s : LoopState) (start end_ : DVec3) :
    integrateRay mapper map kRfDefault ts s start end_ =
      hitPass mapper map ts (missPass mapper map kRfDefault ts s start end_ false) end_ := by
  have hstop : (missPass mapper map kRfDefault ts s start end_ false).stop_adjustments =
      false := by
    unfold missPass
    rw [foldl_visit_stop_of_not_flag mapper map kRfDefault ts (by decide)]
  simp only [integrateRay, hfilter]
  rw [integrateAccepted_eq]
  have hmiss : afterMissPass mapper map kRfDefault ts s start end_ 0 =
      missPass mapper map kRfDefault ts s start end_ false := rfl
  rw [hmiss, hstop, if_pos (by decide)]

/-- Right after the hit pass on a sample voxel that was unobserved and had an empty mean record
the voxel is occupied and its reported position is within `resolution / 1000` of the sample. -/
theorem hitPass_first_sample (mapper : RayMapperOccupancy) (map : OccupancyMap)
    (touch_stamp : Nat) (s : LoopState) (end_ : DVec3) (hs : s.Valid)
    (hmean : 0 ≤ mapper.mean_layer) (hlayout : 0 ≤ map.layout.meanLayer)
    (hdim : mapper.occupancy_dim = map.regionVoxelDimensions) (hr : 0 < map.resolution)
    (hx : 0 < map.regionVoxelDimensions.x) (hy : 0 < map.regionVoxelDimensions.y)
    (hz : 0 < map.regionVoxelDimensions.z)
    (hthreshold : map.occupancyThresholdValue < map.hitValue) (hhit : map.hitValue ≤ floatMax)
    (hunobserved : (chunkAt s.chunks (selectChunk s (map.voxelKey end_).regionKey).2).occupancy
        (voxelIndex (map.voxelKey end_) mapper.occupancy_dim) = unobservedOccupancyValue)
    (hcount : ((chunkAt s.chunks (selectChunk s (map.voxelKey end_).regionKey).2).mean
        (voxelIndex (map.voxelKey end_) mapper.occupancy_dim)).count = 0) :
    isOccupied map ((chunkAt (hitPass mapper map touch_stamp s end_).chunks
        (selectChunk s (map.voxelKey end_).regionKey).2).occupancy
        (voxelIndex (map.voxelKey end_) mapper.occupancy_dim)) = true ∧
      withinTolerance
        (voxelPosition map (chunkAt (hitPass mapper map touch_stamp s end_).chunks
          (selectChunk s (map.voxelKey end_).regionKey).2) (map.voxelKey end_))
        end_ ((map.resolution : ℚ) / 1000) := by
  constructor
  · rw [hitPass_occupancy mapper map touch_stamp hs, if_pos ⟨rfl, rfl⟩, hunobserved,
      occupancyAdjustHit_unobserved]
    have hu : unobservedOccupancyValue = floatMax + 1 := rfl
    simp only [isOccupied, Bool.and_eq_true, bne_iff_ne, ne_eq, decide_eq_true_eq]
    exact ⟨by omega, hthreshold⟩
  · obtain ⟨hox, hoy, hoz⟩ := sample_offset_abs_le map end_ hr hx hy hz
    have hrec := hitPass_mean mapper map touch_stamp hs end_ hmean
    rw [hcount, hdim] at hrec
    unfold withinTolerance voxelPosition
    simp only [hlayout, if_true, QVec3.add]
    rw [hrec]
    simp only [subVoxelUpdate]
    rw [subVoxelUpdateAxis_first _ _ _ hox, subVoxelUpdateAxis_first _ _ _ hoy,
      subVoxelUpdateAxis_first _ _ _ hoz]
    exact ⟨position_axis_error _ _ _ hr hox, position_axis_error _ _ _ hr hoy,
      position_axis_error _ _ _ hr hoz⟩

/-! ## Properties of `integrateRays` -/

/-- C1 (amended): on an array of even length `integrateRays` returns `element_count / 2`, the
number of pairs of the array, whatever the ray filter does. The number of accepted pairs is at
most this count and equals it when the filter accepts every pair, in particular when no filter
is installed. -/
theorem integrateRays_returns_pair_count (mapper : RayMapperOccupancy) (map : OccupancyMap)
    (rays : List DVec3) (ray_update_flags : Nat) (heven : rays.length % 2 = 0) :
    (∃ map', mapper.integrateRays map rays ray_update_flags = some (rays.length / 2, map')) ∧
      acceptedPairs map rays ≤ rays.length / 2 ∧
      ((∀ p ∈ rayPairs rays, filterAccepts map p = true) →
        acceptedPairs map rays = rays.length / 2) ∧
      (map.rayFilter = none → acceptedPairs map rays = rays.length / 2) := by
  have hall : (∀ p ∈ rayPairs rays, filterAccepts map p = true) →
      acceptedPairs map rays = rays.length / 2 := by
    intro h
    unfold acceptedPairs
    rw [← rayPairs_length rays]
    exact List.countP_eq_length.mpr h
  refine ⟨?_, ?_, hall, ?_⟩
  · obtain ⟨s', hs', -⟩ := integrateLoop_inv mapper map ray_update_flags map.touch.1 (fun _ => True)
      rays ⟨map.touch.2.chunks, none, false⟩ heven trivial (fun _ _ _ _ _ => trivial)
    exact ⟨_, integrateRays_of_loop hs'⟩
  · unfold acceptedPairs
    rw [← rayPairs_length rays]
    exact List.countP_le_length _
  · intro hnone
    apply hall
    intro p _
    simp [filterAccepts, hnone]

theorem integrateRays_returns_pair_count_witness :
    ([⟨0, 0, 0⟩, ⟨5000, 0, 0⟩] : List DVec3).length % 2 = 0 ∧
      (∃ map', (RayMapperOccupancy.create rejectingMap).integrateRays rejectingMap
          [⟨0, 0, 0⟩, ⟨5000, 0, 0⟩] kRfDefault =
            some (([⟨0, 0, 0⟩, ⟨5000, 0, 0⟩] : List DVec3).length / 2, map')) ∧
      acceptedPairs rejectingMap [⟨0, 0, 0⟩, ⟨5000, 0, 0⟩] ≤
        ([⟨0, 0, 0⟩, ⟨5000, 0, 0⟩] : List DVec3).length / 2 ∧
      scenarioMap.rayFilter = none ∧
      acceptedPairs scenarioMap [⟨0, 0, 0⟩, ⟨5000, 0, 0⟩] =
        ([⟨0, 0, 0⟩, ⟨5000, 0, 0⟩] : List DVec3).length / 2 :=
  ⟨by decide,
    (integrateRays_returns_pair_count (RayMapperOccupancy.create rejectingMap) rejectingMap
      [⟨0, 0, 0⟩, ⟨5000, 0, 0⟩] kRfDefault (by decide)).1,
    (integrateRays_returns_pair_count (RayMapperOccupancy.create rejectingMap) rejectingMap
      [⟨0, 0, 0⟩, ⟨5000, 0, 0⟩] kRfDefault (by decide)).2.1,
    rfl,
    (integrateRays_returns_pair_count (RayMapperOccupancy.create scenarioMap) scenarioMap
      [⟨0, 0, 0⟩, ⟨5000, 0, 0⟩] kRfDefault (by decide)).2.2.2 rfl⟩

/-- C1 (counterexample): with a filter that rejects the only pair of the array, `integrateRays`
returns 1 although no pair was accepted. -/
theorem integrateRays_count_not_accepted :
    ((RayMapperOccupancy.create rejectingMap).integrateRays rejectingMap
        [⟨0, 0, 0⟩, ⟨5000, 0, 0⟩] kRfDefault).map Prod.fst = some 1 ∧
      acceptedPairs rejectingMap [⟨0, 0, 0⟩, ⟨5000, 0, 0⟩] = 0 := by
  decide

/-- C2: a pair the ray filter rejects leaves the loop state as it is (no chunk is created, no
voxel, mean record, first valid index or stamp changes), and when the filter rejects every pair
of an array of even length the chunk store after `integrateRays` is the chunk store before. -/
theorem rejected_ray_skipped (mapper : RayMapperOccupancy) (map : OccupancyMap)
    (ray_update_flags : Nat) (ray_filter : RayFilterFunction) (hfilter : map.rayFilter = some ray_filter) :
    (∀ touch_stamp s ray_start ray_end, (ray_filter ray_start ray_end 0).1 = false →
        integrateRay mapper map ray_update_flags touch_stamp s ray_start ray_end = s) ∧
      (∀ rays : List DVec3, rays.length % 2 = 0 →
        (∀ p ∈ rayPairs rays, (ray_filter p.1 p.2 0).1 = false) →
        ∃ map', mapper.integrateRays map rays ray_update_flags = some (rays.length / 2, map') ∧
          map'.chunks = map.chunks) := by
  have hskip : ∀ touch_stamp s ray_start ray_end, (ray_filter ray_start ray_end 0).1 = false →
      integrateRay mapper map ray_update_flags touch_stamp s ray_start ray_end = s := by
    intro ts s a b hrej
    unfold integrateRay
    rw [hfilter]
    rcases hf : ray_filter a b 0 with ⟨r, x, y, z⟩
    rw [hf] at hrej
    simp only at hrej
    subst hrej
    simp only [hf]
  refine ⟨hskip, ?_⟩
  intro rays heven hall
  obtain ⟨s', hs', hP⟩ := integrateLoop_inv mapper map ray_update_flags map.touch.1
    (fun s => s.chunks = map.chunks) rays ⟨map.touch.2.chunks, none, false⟩ heven rfl
    (fun s a b hm hp => by rw [hskip _ s a b (hall (a, b) hm)]; exact hp)
  exact ⟨_, integrateRays_of_loop hs', hP⟩

theorem rejected_ray_skipped_witness :
    rejectingMap.rayFilter = some rejectAllFilter ∧
      (rejectAllFilter ⟨0, 0, 0⟩ ⟨5000, 0, 0⟩ 0).1 = false ∧
      integrateRay (RayMapperOccupancy.create rejectingMap) rejectingMap kRfDefault 1
          ⟨s3Map.chunks, none, false⟩ ⟨0, 0, 0⟩ ⟨5000, 0, 0⟩ = ⟨s3Map.chunks, none, false⟩ ∧
      ([⟨0, 0, 0⟩, ⟨5000, 0, 0⟩] : List DVec3).length % 2 = 0 ∧
      ∃ map', (RayMapperOccupancy.create rejectingMap).integrateRays rejectingMap
            [⟨0, 0, 0⟩, ⟨5000, 0, 0⟩] kRfDefault =
          some (([⟨0, 0, 0⟩, ⟨5000, 0, 0⟩] : List DVec3).length / 2, map') ∧
        map'.chunks = rejectingMap.chunks :=
  ⟨rfl, rfl, (rejected_ray_skipped _ _ _ _ rfl).1 _ _ _ _ rfl, by decide,
    (rejected_ray_skipped _ _ _ _ rfl).2 _ (by decide) (by decide)⟩

/-- C3: for an accepted ray the hit pass runs on the state the miss pass left exactly when
`stop_adjustments` is false, the sample is not part of the ray and neither `kRfClearOnly` nor
`kRfExcludeSample` is set; when it runs, the chunk of the sample voxel gets the value of
`occupancyAdjustHit` at the sample voxel and the touch stamp as dirty stamp and occupancy stamp;
with `kRfExcludeSample` the ray ends with the miss pass and no mean record of the store changes. -/
theorem hit_pass_iff (mapper : RayMapperOccupancy) (map : OccupancyMap)
    (ray_update_flags touch_stamp : Nat) (s : LoopState) (start end_ : DVec3) (filter_flags : Nat)
    (hs : s.Valid) :
    (integrateAccepted mapper map ray_update_flags touch_stamp s start end_ filter_flags =
      if (afterMissPass mapper map ray_update_flags touch_stamp s start end_ filter_flags).stop_adjustments
            = false ∧
          includeSampleInRay filter_flags ray_update_flags = false ∧
          flagSet ray_update_flags kRfClearOnly = false ∧
          flagSet ray_update_flags kRfExcludeSample = false then
        hitPass mapper map touch_stamp
          (afterMissPass mapper map ray_update_flags touch_stamp s start end_ filter_flags) end_
      else afterMissPass mapper map ray_update_flags touch_stamp s start end_ filter_flags) ∧
    (∀ s1 : LoopState, s1.Valid →
      (chunkAt (hitPass mapper map touch_stamp s1 end_).chunks
          (selectChunk s1 (map.voxelKey end_).regionKey).2).occupancy
          (voxelIndex (map.voxelKey end_) mapper.occupancy_dim) =
        occupancyAdjustHit
          ((chunkAt s1.chunks (selectChunk s1 (map.voxelKey end_).regionKey).2).occupancy
            (voxelIndex (map.voxelKey end_) mapper.occupancy_dim))
          map.hitValue unobservedOccupancyValue map.maxVoxelValue (saturationMin map)
          (saturationMax map) s1.stop_adjustments ∧
      (chunkAt (hitPass mapper map touch_stamp s1 end_).chunks
          (selectChunk s1 (map.voxelKey end_).regionKey).2).region_coord =
        (map.voxelKey end_).regionKey ∧
      (chunkAt (hitPass mapper map touch_stamp s1 end_).chunks
          (selectChunk s1 (map.voxelKey end_).regionKey).2).dirty_stamp = touch_stamp ∧
      (chunkAt (hitPass mapper map touch_stamp s1 end_).chunks
          (selectChunk s1 (map.voxelKey end_).regionKey).2).touched_stamps mapper.occupancy_layer =
        touch_stamp) ∧
    (flagSet ray_update_flags kRfExcludeSample = true →
      integrateAccepted mapper map ray_update_flags touch_stamp s start end_ filter_flags =
        afterMissPass mapper map ray_update_flags touch_stamp s start end_ filter_flags ∧
      ∀ j v, (chunkAt (integrateAccepted mapper map ray_update_flags touch_stamp s start end_
          filter_flags).chunks j).mean v = (chunkAt s.chunks j).mean v) := by
  refine ⟨?_, ?_, ?_⟩
  · rw [integrateAccepted_eq]
    by_cases h : hitCondition (afterMissPass mapper map ray_update_flags touch_stamp s start end_
        filter_flags).stop_adjustments (includeSampleInRay filter_flags ray_update_flags)
        ray_update_flags = true
    · rw [if_pos h, if_pos ((hitCondition_iff _ _ _).mp h)]
    · rw [if_neg h, if_neg (fun h' => h ((hitCondition_iff _ _ _).mpr h'))]
  · intro s1 hs1
    rw [hitPass_chunkAt mapper map touch_stamp hs1, if_pos rfl]
    simp [hitChunk]
  · intro hex
    have hno : hitCondition (afterMissPass mapper map ray_update_flags touch_stamp s start end_
        filter_flags).stop_adjustments (includeSampleInRay filter_flags ray_update_flags)
        ray_update_flags = false := by
      simp [hitCondition, hex]
    have heq : integrateAccepted mapper map ray_update_flags touch_stamp s start end_ filter_flags =
        afterMissPass mapper map ray_update_flags touch_stamp s start end_ filter_flags := by
      rw [integrateAccepted_eq, hno]
      rfl
    refine ⟨heq, ?_⟩
    intro j v
    rw [heq]
    unfold afterMissPass
    split
    · rfl
    · rw [missPass_mean mapper map ray_update_flags touch_stamp hs]

theorem hit_pass_iff_witness :
    (⟨s3Map.chunks, none, false⟩ : LoopState).Valid ∧
      flagSet kRfExcludeSample kRfExcludeSample = true ∧
      integrateAccepted (RayMapperOccupancy.create s3Map) s3Map kRfExcludeSample 1
          ⟨s3Map.chunks, none, false⟩ ⟨0, 0, 0⟩ ⟨5000, 0, 0⟩ 0 =
        afterMissPass (RayMapperOccupancy.create s3Map) s3Map kRfExcludeSample 1
          ⟨s3Map.chunks, none, false⟩ ⟨0, 0, 0⟩ ⟨5000, 0, 0⟩ 0 ∧
      ∀ j v, (chunkAt (integrateAccepted (RayMapperOccupancy.create s3Map) s3Map kRfExcludeSample 1
          ⟨s3Map.chunks, none, false⟩ ⟨0, 0, 0⟩ ⟨5000, 0, 0⟩ 0).chunks j).mean v =
        (chunkAt s3Map.chunks j).mean v :=
  ⟨valid_start _ _, by decide,
    (hit_pass_iff (RayMapperOccupancy.create s3Map) s3Map kRfExcludeSample 1
      ⟨s3Map.chunks, none, false⟩ ⟨0, 0, 0⟩ ⟨5000, 0, 0⟩ 0 (valid_start _ _)).2.2 (by decide)⟩

/-- C4: when the ray is not excluded the keys the visitor sees are those of the walker called
with `include_end = clipped end || kRfEndPointAsFree || kRfClearOnly`. With default flags and a
clipped end the sample voxel is the last voxel of the miss pass and the ray ends there, without
hit pass; with default flags and no clipped end the sample voxel is not among the walked keys
and the hit pass follows the miss pass. -/
theorem include_end_rule (mapper : RayMapperOccupancy) (map : OccupancyMap) (touch_stamp : Nat)
    (s : LoopState) (start end_ : DVec3) (filter_flags : Nat)
    (hx : 0 < map.regionVoxelDimensions.x) (hy : 0 < map.regionVoxelDimensions.y)
    (hz : 0 < map.regionVoxelDimensions.z) :
    (∀ ray_update_flags, flagSet ray_update_flags kRfExcludeRay = false →
      afterMissPass mapper map ray_update_flags touch_stamp s start end_ filter_flags =
        (walkSegmentKeys map (start.sub map.origin) (end_.sub map.origin)
          (flagSet filter_flags kRffClippedEnd || flagSet ray_update_flags kRfEndPointAsFree ||
            flagSet ray_update_flags kRfClearOnly)).foldl
          (visit_func mapper map ray_update_flags touch_stamp) { s with stop_adjustments := false }) ∧
    (flagSet filter_flags kRffClippedEnd = true →
      ∃ init, walkSegmentKeys map (start.sub map.origin) (end_.sub map.origin) true =
          init ++ [map.voxelKey end_] ∧
        integrateAccepted mapper map kRfDefault touch_stamp s start end_ filter_flags =
          visit_func mapper map kRfDefault touch_stamp
            (init.foldl (visit_func mapper map kRfDefault touch_stamp)
              { s with stop_adjustments := false })
            (map.voxelKey end_)) ∧
    (flagSet filter_flags kRffClippedEnd = false →
      map.voxelKey end_ ∉
          walkSegmentKeys map (start.sub map.origin) (end_.sub map.origin) false ∧
        integrateAccepted mapper map kRfDefault touch_stamp s start end_ filter_flags =
          hitPass mapper map touch_stamp
            ((walkSegmentKeys map (start.sub map.origin) (end_.sub map.origin) false).foldl
              (visit_func mapper map kRfDefault touch_stamp) { s with stop_adjustments := false })
            end_) := by
  refine ⟨?_, ?_, ?_⟩
  · intro flags hex
    simp [afterMissPass, hex, missPass, includeSampleInRay]
  · intro hclip
    obtain ⟨init, hinit⟩ := walkSegmentKeys_include_end map start end_
    refine ⟨init, hinit, ?_⟩
    rw [integrateAccepted_eq]
    have hinc : includeSampleInRay filter_flags kRfDefault = true := by
      simp [includeSampleInRay, hclip]
    rw [hinc]
    have hno : ∀ b, hitCondition b true kRfDefault = false := by
      intro b; simp [hitCondition]
    rw [hno]
    have hex : flagSet kRfDefault kRfExcludeRay = false := flagSet_zero _
    simp only [afterMissPass, hex, hinc, missPass]
    rw [if_neg (by simp), if_neg (by simp), hinit, List.foldl_append]
    rfl
  · intro hclip
    refine ⟨walkSegmentKeys_exclude_end map start end_ hx hy hz, ?_⟩
    rw [integrateAccepted_eq]
    have hex : flagSet kRfDefault kRfExcludeRay = false := flagSet_zero _
    have hinc : includeSampleInRay filter_flags kRfDefault = false := by
      have h1 : flagSet kRfDefault kRfEndPointAsFree = false := flagSet_zero _
      have h2 : flagSet kRfDefault kRfClearOnly = false := flagSet_zero _
      simp [includeSampleInRay, hclip, h1, h2]
    have hafter : afterMissPass mapper map kRfDefault touch_stamp s start end_ filter_flags =
        (walkSegmentKeys map (start.sub map.origin) (end_.sub map.origin) false).foldl
          (visit_func mapper map kRfDefault touch_stamp) { s with stop_adjustments := false } := by
      simp [afterMissPass, hex, missPass, hinc]
    have hstop : (afterMissPass mapper map kRfDefault touch_stamp s start end_
        filter_flags).stop_adjustments = false := by
      rw [hafter, foldl_visit_stop_of_not_flag mapper map kRfDefault touch_stamp (flagSet_zero _)]
    rw [hstop, hinc, ← hafter]
    have hc : hitCondition false false kRfDefault = true := by decide
    rw [hc]
    rfl

theorem include_end_rule_witness :
    0 < scenarioMap.regionVoxelDimensions.x ∧ 0 < scenarioMap.regionVoxelDimensions.y ∧
      0 < scenarioMap.regionVoxelDimensions.z ∧ flagSet 0 kRffClippedEnd = false ∧
      scenarioMap.voxelKey ⟨5000, 0, 0⟩ ∉
        walkSegmentKeys scenarioMap ((⟨0, 0, 0⟩ : DVec3).sub scenarioMap.origin)
          ((⟨5000, 0, 0⟩ : DVec3).sub scenarioMap.origin) false ∧
      integrateAccepted (RayMapperOccupancy.create scenarioMap) scenarioMap kRfDefault 1
          ⟨[], none, false⟩ ⟨0, 0, 0⟩ ⟨5000, 0, 0⟩ 0 =
        hitPass (RayMapperOccupancy.create scenarioMap) scenarioMap 1
          ((walkSegmentKeys scenarioMap ((⟨0, 0, 0⟩ : DVec3).sub scenarioMap.origin)
              ((⟨5000, 0, 0⟩ : DVec3).sub scenarioMap.origin) false).foldl
            (visit_func (RayMapperOccupancy.create scenarioMap) scenarioMap kRfDefault 1)
            { (⟨[], none, false⟩ : LoopState) with stop_adjustments := false })
          ⟨5000, 0, 0⟩ :=
  ⟨by decide, by decide, by decide, by decide,
    (include_end_rule (RayMapperOccupancy.create scenarioMap) scenarioMap 1 ⟨[], none, false⟩
      ⟨0, 0, 0⟩ ⟨5000, 0, 0⟩ 0 (by decide) (by decide) (by decide)).2.2 (by decide)⟩

/-- C5 (failing input): in scenario S3 the walker visits (0,0,0) .. (4,0,0), voxel (2,0,0) is the
first occupied voxel and voxel (3,0,0), visited after it, is unobserved; with
`kRfStopOnFirstOccupied` it holds the miss value after `integrateRays`, while the sample voxel
(5,0,0) is not hit. -/
theorem stop_on_first_occupied_writes_unobserved :
    walkSegmentKeys s3Map ⟨0, 0, 0⟩ ⟨5000, 0, 0⟩ false = [xKey 0, xKey 1, xKey 2, xKey 3, xKey 4] ∧
      isOccupied s3Map ((chunkAt s3Map.chunks 0).occupancy 0) = false ∧
      isOccupied s3Map ((chunkAt s3Map.chunks 0).occupancy 1) = false ∧
      isOccupied s3Map ((chunkAt s3Map.chunks 0).occupancy 2) = true ∧
      (chunkAt s3Map.chunks 0).occupancy 3 = unobservedOccupancyValue ∧
      occupancyAfter ((RayMapperOccupancy.create s3Map).integrateRays s3Map
        [⟨0, 0, 0⟩, ⟨5000, 0, 0⟩] kRfStopOnFirstOccupied) 0 3 = some s3Map.missValue ∧
      occupancyAfter ((RayMapperOccupancy.create s3Map).integrateRays s3Map
        [⟨0, 0, 0⟩, ⟨5000, 0, 0⟩] kRfStopOnFirstOccupied) 0 5 = some unobservedOccupancyValue := by
  decide

/-- C6 (counterexample): in scenario S3 with `kRfStopOnFirstOccupied` the voxels (0,0,0) and
(1,0,0) get the miss value, and the first occupied voxel (2,0,0) is adjusted as well: it drops
from the maximum voxel value 3511 to 3106 when the map does not saturate, and from 847 to 442 in
a saturating map where it holds the hit value. -/
theorem first_occupied_voxel_changes :
    occupancyAfter ((RayMapperOccupancy.create s3Map).integrateRays s3Map
        [⟨0, 0, 0⟩, ⟨5000, 0, 0⟩] kRfStopOnFirstOccupied) 0 0 = some s3Map.missValue ∧
      occupancyAfter ((RayMapperOccupancy.create s3Map).integrateRays s3Map
        [⟨0, 0, 0⟩, ⟨5000, 0, 0⟩] kRfStopOnFirstOccupied) 0 1 = some s3Map.missValue ∧
      (chunkAt s3Map.chunks 0).occupancy 2 = s3Map.maxVoxelValue ∧
      occupancyAfter ((RayMapperOccupancy.create s3Map).integrateRays s3Map
        [⟨0, 0, 0⟩, ⟨5000, 0, 0⟩] kRfStopOnFirstOccupied) 0 2 = some 3106 ∧
      (chunkAt s3SaturatingMap.chunks 0).occupancy 2 = 847 ∧
      occupancyAfter ((RayMapperOccupancy.create s3SaturatingMap).integrateRays s3SaturatingMap
        [⟨0, 0, 0⟩, ⟨5000, 0, 0⟩] kRfStopOnFirstOccupied) 0 2 = some 442 := by
  decide

/-- C6 (amended): with `kRfStopOnFirstOccupied` set, a voxel visited while `stop_adjustments` is
still false, the first occupied voxel included, receives the miss adjustment
`occupancyAdjustMiss` (with `stop_adjustments` false) and no other voxel value changes at that
visit; `stop_adjustments` is set after the visit exactly when the voxel was occupied. The first
occupied voxel keeps its value when it is saturated and drops strictly when it is not. -/
theorem first_occupied_voxel_adjusted (mapper : RayMapperOccupancy) (map : OccupancyMap)
    (ray_update_flags touch_stamp : Nat) (s : LoopState) (key : Key) (hs : s.Valid)
    (hstop : s.stop_adjustments = false)
    (hflag : flagSet ray_update_flags kRfStopOnFirstOccupied = true) :
    (chunkAt (visit_func mapper map ray_update_flags touch_stamp s key).chunks
        (selectChunk s key.regionKey).2).occupancy (voxelIndex key mapper.occupancy_dim) =
      occupancyAdjustMiss
        ((chunkAt s.chunks (selectChunk s key.regionKey).2).occupancy
          (voxelIndex key mapper.occupancy_dim))
        map.missValue unobservedOccupancyValue map.minVoxelValue (saturationMin map)
        (saturationMax map) false ∧
    (∀ j v, ¬(j = (selectChunk s key.regionKey).2 ∧ v = voxelIndex key mapper.occupancy_dim) →
      (chunkAt (visit_func mapper map ray_update_flags touch_stamp s key).chunks j).occupancy v =
        (chunkAt s.chunks j).occupancy v) ∧
    (visit_func mapper map ray_update_flags touch_stamp s key).stop_adjustments =
      isOccupied map ((chunkAt s.chunks (selectChunk s key.regionKey).2).occupancy
        (voxelIndex key mapper.occupancy_dim)) ∧
    (isOccupied map ((chunkAt s.chunks (selectChunk s key.regionKey).2).occupancy
        (voxelIndex key mapper.occupancy_dim)) = true →
      (saturationMax map ≤ (chunkAt s.chunks (selectChunk s key.regionKey).2).occupancy
          (voxelIndex key mapper.occupancy_dim) →
        (chunkAt (visit_func mapper map ray_update_flags touch_stamp s key).chunks
            (selectChunk s key.regionKey).2).occupancy (voxelIndex key mapper.occupancy_dim) =
          (chunkAt s.chunks (selectChunk s key.regionKey).2).occupancy
            (voxelIndex key mapper.occupancy_dim)) ∧
      (saturationMin map < (chunkAt s.chunks (selectChunk s key.regionKey).2).occupancy
          (voxelIndex key mapper.occupancy_dim) →
        (chunkAt s.chunks (selectChunk s key.regionKey).2).occupancy
          (voxelIndex key mapper.occupancy_dim) < saturationMax map →
        map.missValue < 0 → map.minVoxelValue ≤ map.occupancyThresholdValue →
        (chunkAt (visit_func mapper map ray_update_flags touch_stamp s key).chunks
            (selectChunk s key.regionKey).2).occupancy (voxelIndex key mapper.occupancy_dim) <
          (chunkAt s.chunks (selectChunk s key.regionKey).2).occupancy
            (voxelIndex key mapper.occupancy_dim))) := by
  have hocc := visit_func_occupancy mapper map ray_update_flags touch_stamp hs key
  have htarget := hocc (selectChunk s key.regionKey).2 (voxelIndex key mapper.occupancy_dim)
  rw [if_pos ⟨rfl, rfl⟩, hstop] at htarget
  refine ⟨htarget, ?_, ?_, ?_⟩
  · intro j v hne
    rw [hocc, if_neg hne]
  · rcases selectChunk_cases hs key.regionKey with ⟨h1, -, -⟩ | ⟨h1, h2⟩
    · simp [visit_func, hstop, hflag, h1]
    · simp only [visit_func, hstop, hflag, h1, h2, Bool.false_or, Bool.true_and]
      rw [chunkAt_append_length, chunkAt_ge (le_refl _)]
      rfl
  · intro hoccupied
    unfold isOccupied at hoccupied
    simp only [Bool.and_eq_true, bne_iff_ne, ne_eq, decide_eq_true_eq] at hoccupied
    refine ⟨?_, ?_⟩
    · intro hsat
      rw [htarget]
      exact occupancyAdjustMiss_saturated hoccupied.1 false (Or.inr hsat)
    · intro h1 h2 hm hlo
      rw [htarget]
      exact occupancyAdjustMiss_lt hoccupied.1 h1 h2 hm (by omega)

theorem first_occupied_voxel_adjusted_witness :
    (⟨s3Map.chunks, none, false⟩ : LoopState).Valid ∧
      (⟨s3Map.chunks, none, false⟩ : LoopState).stop_adjustments = false ∧
      flagSet kRfStopOnFirstOccupied kRfStopOnFirstOccupied = true ∧
      (chunkAt (visit_func (RayMapperOccupancy.create s3Map) s3Map kRfStopOnFirstOccupied 1
          ⟨s3Map.chunks, none, false⟩ (xKey 2)).chunks
          (selectChunk ⟨s3Map.chunks, none, false⟩ (xKey 2).regionKey).2).occupancy
          (voxelIndex (xKey 2) (RayMapperOccupancy.create s3Map).occupancy_dim) =
        occupancyAdjustMiss
          ((chunkAt (⟨s3Map.chunks, none, false⟩ : LoopState).chunks
            (selectChunk ⟨s3Map.chunks, none, false⟩ (xKey 2).regionKey).2).occupancy
            (voxelIndex (xKey 2) (RayMapperOccupancy.create s3Map).occupancy_dim))
          s3Map.missValue unobservedOccupancyValue s3Map.minVoxelValue (saturationMin s3Map)
          (saturationMax s3Map) false ∧
      (visit_func (RayMapperOccupancy.create s3Map) s3Map kRfStopOnFirstOccupied 1
          ⟨s3Map.chunks, none, false⟩ (xKey 2)).stop_adjustments =
        isOccupied s3Map ((chunkAt (⟨s3Map.chunks, none, false⟩ : LoopState).chunks
          (selectChunk ⟨s3Map.chunks, none, false⟩ (xKey 2).regionKey).2).occupancy
          (voxelIndex (xKey 2) (RayMapperOccupancy.create s3Map).occupancy_dim)) :=
  ⟨valid_start _ _, rfl, by decide,
    (first_occupied_voxel_adjusted (RayMapperOccupancy.create s3Map) s3Map kRfStopOnFirstOccupied 1
      ⟨s3Map.chunks, none, false⟩ (xKey 2) (valid_start _ _) rfl (by decide)).1,
    (first_occupied_voxel_adjusted (RayMapperOccupancy.create s3Map) s3Map kRfStopOnFirstOccupied 1
      ⟨s3Map.chunks, none, false⟩ (xKey 2) (valid_start _ _) rfl (by decide)).2.2.1⟩

/-- C7 (failing input): in scenario S4 with `kRfClearOnly` the unobserved voxels (0,0,0) and
(5,0,0) on the ray hold the miss value after `integrateRays` (the occupied voxel (3,0,0) drops by
the miss value); for every map and ray array `kRfClearOnly` has the effect of
`kRfEndPointAsFree`. -/
theorem clear_only_adjusts_unobserved :
    ((chunkAt s4Map.chunks 0).occupancy 0 = unobservedOccupancyValue ∧
      isOccupied s4Map ((chunkAt s4Map.chunks 0).occupancy 0) = false ∧
      occupancyAfter ((RayMapperOccupancy.create s4Map).integrateRays s4Map
        [⟨0, 0, 0⟩, ⟨5000, 0, 0⟩] kRfClearOnly) 0 0 = some s4Map.missValue ∧
      occupancyAfter ((RayMapperOccupancy.create s4Map).integrateRays s4Map
        [⟨0, 0, 0⟩, ⟨5000, 0, 0⟩] kRfClearOnly) 0 5 = some s4Map.missValue ∧
      (chunkAt s4Map.chunks 0).occupancy 3 = s4Map.hitValue ∧
      occupancyAfter ((RayMapperOccupancy.create s4Map).integrateRays s4Map
        [⟨0, 0, 0⟩, ⟨5000, 0, 0⟩] kRfClearOnly) 0 3 = some (s4Map.hitValue + s4Map.missValue)) ∧
    ∀ (mapper : RayMapperOccupancy) (map : OccupancyMap) (rays : List DVec3),
      mapper.integrateRays map rays kRfClearOnly =
        mapper.integrateRays map rays kRfEndPointAsFree := by
  refine ⟨by decide, ?_⟩
  intro mapper map rays
  have hvisit : ∀ ts, visit_func mapper map kRfClearOnly ts =
      visit_func mapper map kRfEndPointAsFree ts := by
    intro ts
    funext s k
    have h1 : flagSet kRfClearOnly kRfStopOnFirstOccupied = false := by decide
    have h2 : flagSet kRfEndPointAsFree kRfStopOnFirstOccupied = false := by decide
    simp [visit_func, h1, h2]
  have hacc : ∀ ts s a b ff, integrateAccepted mapper map kRfClearOnly ts s a b ff =
      integrateAccepted mapper map kRfEndPointAsFree ts s a b ff := by
    intro ts s a b ff
    have h1 : includeSampleInRay ff kRfClearOnly = true := by
      have : flagSet kRfClearOnly kRfClearOnly = true := by decide
      simp [includeSampleInRay, this]
    have h2 : includeSampleInRay ff kRfEndPointAsFree = true := by
      have : flagSet kRfEndPointAsFree kRfEndPointAsFree = true := by decide
      simp [includeSampleInRay, this]
    have h3 : flagSet kRfClearOnly kRfExcludeRay = false := by decide
    have h4 : flagSet kRfEndPointAsFree kRfExcludeRay = false := by decide
    simp [integrateAccepted, h1, h2, h3, h4, hitCondition, missPass, hvisit]
  have hray : ∀ ts, integrateRay mapper map kRfClearOnly ts =
      integrateRay mapper map kRfEndPointAsFree ts := by
    intro ts
    funext s a b
    simp only [integrateRay, hacc]
  simp only [RayMapperOccupancy.integrateRays, integrateLoop_congr mapper map _ _ _ (hray _)]

/-- C8: with `kRfExcludeRay` an accepted ray runs no miss pass: the state after the ray is the
state before it or the hit pass applied to it. Every chunk other than the chunk of the sample
voxel is as before, in the chunk of the sample voxel the occupancy value and the mean record of
every other voxel are as before, and at most one chunk, that of the sample voxel, is created. -/
theorem exclude_ray_frame (mapper : RayMapperOccupancy) (map : OccupancyMap)
    (ray_update_flags touch_stamp : Nat) (s : LoopState) (start end_ : DVec3) (filter_flags : Nat)
    (hs : s.Valid) (hexclude : flagSet ray_update_flags kRfExcludeRay = true) :
    (integrateAccepted mapper map ray_update_flags touch_stamp s start end_ filter_flags =
      if hitCondition s.stop_adjustments (includeSampleInRay filter_flags ray_update_flags)
          ray_update_flags then hitPass mapper map touch_stamp s end_
      else s) ∧
    (∀ j, j ≠ (selectChunk s (map.voxelKey end_).regionKey).2 →
      chunkAt (integrateAccepted mapper map ray_update_flags touch_stamp s start end_
        filter_flags).chunks j = chunkAt s.chunks j) ∧
    (∀ v, v ≠ voxelIndex (map.voxelKey end_) mapper.occupancy_dim →
      (chunkAt (integrateAccepted mapper map ray_update_flags touch_stamp s start end_
          filter_flags).chunks (selectChunk s (map.voxelKey end_).regionKey).2).occupancy v =
        (chunkAt s.chunks (selectChunk s (map.voxelKey end_).regionKey).2).occupancy v ∧
      (chunkAt (integrateAccepted mapper map ray_update_flags touch_stamp s start end_
          filter_flags).chunks (selectChunk s (map.voxelKey end_).regionKey).2).mean v =
        (chunkAt s.chunks (selectChunk s (map.voxelKey end_).regionKey).2).mean v) ∧
    ((selectChunk s (map.voxelKey end_).regionKey).2 < s.chunks.length →
      (chunkAt s.chunks (selectChunk s (map.voxelKey end_).regionKey).2).region_coord =
        (map.voxelKey end_).regionKey) ∧
    s.chunks.length ≤ (integrateAccepted mapper map ray_update_flags touch_stamp s start end_
      filter_flags).chunks.length ∧
    (integrateAccepted mapper map ray_update_flags touch_stamp s start end_
      filter_flags).chunks.length ≤ s.chunks.length + 1 := by
  have heq : integrateAccepted mapper map ray_update_flags touch_stamp s start end_ filter_flags =
      if hitCondition s.stop_adjustments (includeSampleInRay filter_flags ray_update_flags)
          ray_update_flags then hitPass mapper map touch_stamp s end_
      else s := by
    rw [integrateAccepted_eq]
    simp [afterMissPass, hexclude]
  refine ⟨heq, ?_, ?_, selectChunk_region_coord hs _, ?_⟩
  · intro j hj
    rw [heq]
    split
    · rw [hitPass_chunkAt mapper map touch_stamp hs, if_neg hj]
    · rfl
  · intro v hv
    rw [heq]
    split
    · rw [hitPass_chunkAt mapper map touch_stamp hs, if_pos rfl]
      constructor
      · simp [hitChunk, Function.update_noteq hv]
      · by_cases hm : 0 ≤ mapper.mean_layer
        · simp [hitChunk, hm, Function.update_noteq hv]
        · simp [hitChunk, hm]
    · exact ⟨rfl, rfl⟩
  · rw [heq]
    split
    · exact hitPass_length mapper map touch_stamp hs end_
    · exact ⟨le_refl _, Nat.le_succ _⟩

theorem exclude_ray_frame_witness :
    (⟨s3Map.chunks, none, false⟩ : LoopState).Valid ∧
      flagSet kRfExcludeRay kRfExcludeRay = true ∧
      ∀ j, j ≠ (selectChunk ⟨s3Map.chunks, none, false⟩ (s3Map.voxelKey ⟨5000, 0, 0⟩).regionKey).2 →
        chunkAt (integrateAccepted (RayMapperOccupancy.create s3Map) s3Map kRfExcludeRay 1
          ⟨s3Map.chunks, none, false⟩ ⟨0, 0, 0⟩ ⟨5000, 0, 0⟩ 0).chunks j =
            chunkAt (⟨s3Map.chunks, none, false⟩ : LoopState).chunks j :=
  ⟨valid_start _ _, by decide,
    (exclude_ray_frame (RayMapperOccupancy.create s3Map) s3Map kRfExcludeRay 1
      ⟨s3Map.chunks, none, false⟩ ⟨0, 0, 0⟩ ⟨5000, 0, 0⟩ 0 (valid_start _ _) (by decide)).2.1⟩

/-- C9 (counterexample): with `kRfEndPointAsFree` and `kRfExcludeRay` together the unobserved
sample voxel (5,0,0) of scenario S3 is still unobserved after `integrateRays`: it receives no
miss adjustment. With `kRfEndPointAsFree` alone it holds the miss value. -/
theorem end_point_as_free_excluded_ray :
    (chunkAt s3Map.chunks 0).occupancy 5 = unobservedOccupancyValue ∧
      occupancyAfter ((RayMapperOccupancy.create s3Map).integrateRays s3Map
        [⟨0, 0, 0⟩, ⟨5000, 0, 0⟩] (kRfEndPointAsFree ||| kRfExcludeRay)) 0 5 =
          some unobservedOccupancyValue ∧
      occupancyAfter ((RayMapperOccupancy.create s3Map).integrateRays s3Map
        [⟨0, 0, 0⟩, ⟨5000, 0, 0⟩] kRfEndPointAsFree) 0 5 = some s3Map.missValue := by
  decide

/-- C9 (amended): with `kRfEndPointAsFree` an accepted ray never runs the hit pass. When
`kRfExcludeRay` is not set the sample voxel is the last voxel the miss pass visits, so
`occupancyAdjustMiss` is applied to it; when `kRfExcludeRay` is set as well the ray changes
nothing. -/
theorem end_point_as_free (mapper : RayMapperOccupancy) (map : OccupancyMap)
    (ray_update_flags touch_stamp : Nat) (s : LoopState) (start end_ : DVec3) (filter_flags : Nat)
    (hfree : flagSet ray_update_flags kRfEndPointAsFree = true) :
    integrateAccepted mapper map ray_update_flags touch_stamp s start end_ filter_flags =
      afterMissPass mapper map ray_update_flags touch_stamp s start end_ filter_flags ∧
    (flagSet ray_update_flags kRfExcludeRay = false →
      ∃ init, walkSegmentKeys map (start.sub map.origin) (end_.sub map.origin) true =
          init ++ [map.voxelKey end_] ∧
        integrateAccepted mapper map ray_update_flags touch_stamp s start end_ filter_flags =
          visit_func mapper map ray_update_flags touch_stamp
            (init.foldl (visit_func mapper map ray_update_flags touch_stamp)
              { s with stop_adjustments := false })
            (map.voxelKey end_)) ∧
    (flagSet ray_update_flags kRfExcludeRay = true →
      integrateAccepted mapper map ray_update_flags touch_stamp s start end_ filter_flags = s) := by
  have hinc : includeSampleInRay filter_flags ray_update_flags = true := by
    simp [includeSampleInRay, hfree]
  have heq : integrateAccepted mapper map ray_update_flags touch_stamp s start end_ filter_flags =
      afterMissPass mapper map ray_update_flags touch_stamp s start end_ filter_flags := by
    rw [integrateAccepted_eq, hinc]
    have hno : ∀ b, hitCondition b true ray_update_flags = false := by
      intro b; simp [hitCondition]
    rw [hno]
    rfl
  refine ⟨heq, ?_, ?_⟩
  · intro hex
    obtain ⟨init, hinit⟩ := walkSegmentKeys_include_end map start end_
    refine ⟨init, hinit, ?_⟩
    rw [heq]
    simp only [afterMissPass, hex, hinc, missPass]
    rw [if_neg (by simp), hinit, List.foldl_append]
    rfl
  · intro hex
    rw [heq]
    simp [afterMissPass, hex]

theorem end_point_as_free_witness :
    flagSet kRfEndPointAsFree kRfEndPointAsFree = true ∧
      integrateAccepted (RayMapperOccupancy.create s3Map) s3Map kRfEndPointAsFree 1
          ⟨s3Map.chunks, none, false⟩ ⟨0, 0, 0⟩ ⟨5000, 0, 0⟩ 0 =
        afterMissPass (RayMapperOccupancy.create s3Map) s3Map kRfEndPointAsFree 1
          ⟨s3Map.chunks, none, false⟩ ⟨0, 0, 0⟩ ⟨5000, 0, 0⟩ 0 :=
  ⟨by decide,
    (end_point_as_free (RayMapperOccupancy.create s3Map) s3Map kRfEndPointAsFree 1
      ⟨s3Map.chunks, none, false⟩ ⟨0, 0, 0⟩ ⟨5000, 0, 0⟩ 0 (by decide)).1⟩

/-- C15: `MapFlag` has `kNone = 0`, `kVoxelMean = 1` (bit 0), `kCompressed = 2` (bit 1) and
`kDefault = kCompressed`; the operators act bit by bit on the underlying 32 bit value, so that
`kDefault & kVoxelMean` is `kNone` and, for all flag values `a` and `b`, `(a | b) & a == a` and
`a & ~a == kNone`. -/
theorem map_flag_bit_set (a b : MapFlag) (ha : a.val < 2 ^ 32) (hb : b.val < 2 ^ 32) :
    MapFlag.kNone.val = 0 ∧ MapFlag.kVoxelMean.val = 1 ∧ MapFlag.kCompressed.val = 2 ∧
      MapFlag.kDefault = MapFlag.kCompressed ∧
      MapFlag.kDefault.and MapFlag.kVoxelMean = MapFlag.kNone ∧
      (a.or b).val = a.val ||| b.val ∧ (a.and b).val = a.val &&& b.val ∧
      (a.xor b).val = a.val ^^^ b.val ∧
      (a.or b).and a = a ∧ a.and a.not = MapFlag.kNone := by
  have hor : (a.val ||| b.val) % 2 ^ 32 = a.val ||| b.val :=
    Nat.mod_eq_of_lt (Nat.or_lt_two_pow ha hb)
  have hand : (a.val &&& b.val) % 2 ^ 32 = a.val &&& b.val :=
    Nat.mod_eq_of_lt (Nat.and_lt_two_pow _ hb)
  have hxor : (a.val ^^^ b.val) % 2 ^ 32 = a.val ^^^ b.val :=
    Nat.mod_eq_of_lt (Nat.xor_lt_two_pow ha hb)
  refine ⟨rfl, rfl, rfl, rfl, by decide, hor, hand, hxor, ?_, ?_⟩
  · cases a with
    | mk av =>
      simp only [MapFlag.or, MapFlag.and, MapFlag.mk.injEq] at *
      rw [hor, land_lor_self]
      exact Nat.mod_eq_of_lt ha
  · cases a with
    | mk av =>
      simp only [MapFlag.not, MapFlag.and, MapFlag.kNone, MapFlag.mk.injEq] at *
      rw [Nat.mod_eq_of_lt ha, Nat.mod_eq_of_lt (by omega : 2 ^ 32 - 1 - av < 2 ^ 32),
        land_complement av 32 ha]
      exact Nat.zero_mod _

theorem map_flag_bit_set_witness :
    MapFlag.kDefault.val < 2 ^ 32 ∧ MapFlag.kVoxelMean.val < 2 ^ 32 ∧
      (MapFlag.kDefault.or MapFlag.kVoxelMean).and MapFlag.kDefault = MapFlag.kDefault ∧
      MapFlag.kDefault.and MapFlag.kDefault.not = MapFlag.kNone :=
  ⟨by decide, by decide,
    (map_flag_bit_set MapFlag.kDefault MapFlag.kVoxelMean (by decide) (by decide)).2.2.2.2.2.2.2.2.1,
    (map_flag_bit_set MapFlag.kDefault MapFlag.kVoxelMean (by decide) (by decide)).2.2.2.2.2.2.2.2.2⟩

/-- C11 (counterexample): a hit on a voxel whose sample count is `2^32 - 2` stores the count
`2^32 - 1`, not `2^32 - 2`, and a hit on a voxel whose count is `2^32 - 1` stores 0: the count
does not saturate and wraps around. -/
theorem mean_count_not_saturating :
    voxelIndex (voxelMeanMap.voxelKey ⟨1100, 1100, 1100⟩)
        (RayMapperOccupancy.create voxelMeanMap).occupancy_dim = 2114 ∧
      meanCountAfter ((RayMapperOccupancy.create (countedMeanMap (2 ^ 32 - 2))).integrateRays
        (countedMeanMap (2 ^ 32 - 2)) [⟨0, 0, 0⟩, ⟨1100, 1100, 1100⟩] kRfDefault) 0 2114 =
          some (2 ^ 32 - 1) ∧
      min (2 ^ 32 - 2 + 1) (2 ^ 32 - 2) ≠ 2 ^ 32 - 1 ∧
      meanCountAfter ((RayMapperOccupancy.create (countedMeanMap (2 ^ 32 - 1))).integrateRays
        (countedMeanMap (2 ^ 32 - 1)) [⟨0, 0, 0⟩, ⟨1100, 1100, 1100⟩] kRfDefault) 0 2114 =
          some 0 := by
  decide

/-- C11 (amended): the hit pass on a sample voxel with mean record `(q, n)` stores the count
`(n + 1) mod 2^32`: `n + 1` whenever that fits in 32 bits, without saturation at `2^32 - 2`. -/
theorem mean_count_incremented (mapper : RayMapperOccupancy) (map : OccupancyMap)
    (touch_stamp : Nat) (s : LoopState) (end_ : DVec3) (hs : s.Valid)
    (hmean : 0 ≤ mapper.mean_layer) :
    ((chunkAt (hitPass mapper map touch_stamp s end_).chunks
        (selectChunk s (map.voxelKey end_).regionKey).2).mean
        (voxelIndex (map.voxelKey end_) mapper.occupancy_dim)).count =
      (((chunkAt s.chunks (selectChunk s (map.voxelKey end_).regionKey).2).mean
        (voxelIndex (map.voxelKey end_) mapper.occupancy_dim)).count + 1) % 2 ^ 32 ∧
    (((chunkAt s.chunks (selectChunk s (map.voxelKey end_).regionKey).2).mean
        (voxelIndex (map.voxelKey end_) mapper.occupancy_dim)).count + 1 < 2 ^ 32 →
      ((chunkAt (hitPass mapper map touch_stamp s end_).chunks
          (selectChunk s (map.voxelKey end_).regionKey).2).mean
          (voxelIndex (map.voxelKey end_) mapper.occupancy_dim)).count =
        ((chunkAt s.chunks (selectChunk s (map.voxelKey end_).regionKey).2).mean
          (voxelIndex (map.voxelKey end_) mapper.occupancy_dim)).count + 1) := by
  have h : ((chunkAt (hitPass mapper map touch_stamp s end_).chunks
      (selectChunk s (map.voxelKey end_).regionKey).2).mean
      (voxelIndex (map.voxelKey end_) mapper.occupancy_dim)).count =
      (((chunkAt s.chunks (selectChunk s (map.voxelKey end_).regionKey).2).mean
        (voxelIndex (map.voxelKey end_) mapper.occupancy_dim)).count + 1) % 2 ^ 32 := by
    rw [hitPass_chunkAt mapper map touch_stamp hs, if_pos rfl]
    simp [hitChunk, hmean]
  exact ⟨h, fun hlt => by rw [h, Nat.mod_eq_of_lt hlt]⟩

theorem mean_count_incremented_witness :
    (⟨(countedMeanMap 5).chunks, none, false⟩ : LoopState).Valid ∧
      0 ≤ (RayMapperOccupancy.create (countedMeanMap 5)).mean_layer ∧
      ((chunkAt (hitPass (RayMapperOccupancy.create (countedMeanMap 5)) (countedMeanMap 5) 1
          ⟨(countedMeanMap 5).chunks, none, false⟩ ⟨1100, 1100, 1100⟩).chunks
          (selectChunk ⟨(countedMeanMap 5).chunks, none, false⟩
            ((countedMeanMap 5).voxelKey ⟨1100, 1100, 1100⟩).regionKey).2).mean
          (voxelIndex ((countedMeanMap 5).voxelKey ⟨1100, 1100, 1100⟩)
            (RayMapperOccupancy.create (countedMeanMap 5)).occupancy_dim)).count =
        (((chunkAt (⟨(countedMeanMap 5).chunks, none, false⟩ : LoopState).chunks
          (selectChunk ⟨(countedMeanMap 5).chunks, none, false⟩
            ((countedMeanMap 5).voxelKey ⟨1100, 1100, 1100⟩).regionKey).2).mean
          (voxelIndex ((countedMeanMap 5).voxelKey ⟨1100, 1100, 1100⟩)
            (RayMapperOccupancy.create (countedMeanMap 5)).occupancy_dim)).count + 1) % 2 ^ 32 :=
  ⟨valid_start _ _, by decide,
    (mean_count_incremented (RayMapperOccupancy.create (countedMeanMap 5)) (countedMeanMap 5) 1
      ⟨(countedMeanMap 5).chunks, none, false⟩ ⟨1100, 1100, 1100⟩ (valid_start _ _) (by decide)).1⟩

/-- C12: when the layout declares a mean layer, distinct from the occupancy layer, whose voxel
byte size is not `sizeof(VoxelMean)` or whose dimensions differ from those of the occupancy
layer, the constructed mapper has no mean layer (`mean_layer = -1`); `integrateRays` returns on
every array of even length, leaves every mean record and the mean layer stamp of every chunk as
they were, and produces the map it produces for the same map without the mean layer in its
layout. -/
theorem layer_mismatch_absorbed (map : OccupancyMap) (rays : List DVec3) (ray_update_flags : Nat)
    (heven : rays.length % 2 = 0) (hdeclared : 0 ≤ map.layout.meanLayer)
    (hdistinct : map.layout.meanLayer ≠ map.layout.occupancyLayer)
    (hmismatch : (map.layout.layer map.layout.meanLayer).voxelByteSize ≠ sizeofVoxelMean ∨
      (map.layout.layer map.layout.meanLayer).dimensions map.regionVoxelDimensions ≠
        (map.layout.layer map.layout.occupancyLayer).dimensions map.regionVoxelDimensions) :
    (RayMapperOccupancy.create map).mean_layer = -1 ∧
    ∃ map', (RayMapperOccupancy.create map).integrateRays map rays ray_update_flags =
        some (rays.length / 2, map') ∧
      (∀ j v, (chunkAt map'.chunks j).mean v = (chunkAt map.chunks j).mean v) ∧
      (∀ j, (chunkAt map'.chunks j).touched_stamps map.layout.meanLayer =
        (chunkAt map.chunks j).touched_stamps map.layout.meanLayer) ∧
      (RayMapperOccupancy.create (withoutMeanLayer map)).integrateRays (withoutMeanLayer map) rays
          ray_update_flags = some (rays.length / 2, withoutMeanLayer map') := by
  have hcreate := create_of_mismatch map hdeclared hmismatch
  have hml : (RayMapperOccupancy.create map).mean_layer = -1 := by rw [hcreate]
  have hol : (RayMapperOccupancy.create map).occupancy_layer = map.layout.occupancyLayer := by
    rw [hcreate]
  have hneg : ¬ (0 : Int) ≤ (RayMapperOccupancy.create map).mean_layer := by rw [hml]; decide
  refine ⟨hml, ?_⟩
  obtain ⟨s', hs', -, hrel⟩ := integrateLoop_inv (RayMapperOccupancy.create map) map
    ray_update_flags map.touch.1
    (fun s => s.Valid ∧ ∀ j, (chunkAt s.chunks j).mean = (chunkAt map.chunks j).mean ∧
      (chunkAt s.chunks j).touched_stamps map.layout.meanLayer =
        (chunkAt map.chunks j).touched_stamps map.layout.meanLayer)
    rays ⟨map.touch.2.chunks, none, false⟩ heven
    ⟨valid_start _ _, fun j => ⟨rfl, rfl⟩⟩
    (fun s a b _ hp => ⟨integrateRay_valid _ map ray_update_flags _ hp.1 a b, fun j => by
      have h := integrateRay_rel (RayMapperOccupancy.create map) map ray_update_flags map.touch.1
        (fun c c' => c'.mean = c.mean ∧
          c'.touched_stamps map.layout.meanLayer = c.touched_stamps map.layout.meanLayer)
        (fun c => ⟨rfl, rfl⟩)
        (fun a b c hab hbc => ⟨hbc.1.trans hab.1, hbc.2.trans hab.2⟩)
        (fun stop v c coord => ⟨rfl, by simp [missChunk, hol, Function.update_noteq hdistinct]⟩)
        (fun key e c coord =>
          ⟨by simp [hitChunk, hneg], by simp [hitChunk, hneg, hol, Function.update_noteq hdistinct]⟩)
        hp.1 a b j
      exact ⟨h.1.trans (hp.2 j).1, h.2.trans (hp.2 j).2⟩⟩)
  refine ⟨_, integrateRays_of_loop hs', fun j v => by rw [(hrel j).1],
    fun j => (hrel j).2, ?_⟩
  have hsame : RayMapperOccupancy.create (withoutMeanLayer map) = RayMapperOccupancy.create map := by
    rw [hcreate, create_withoutMeanLayer]
  rw [hsame]
  have hloop : integrateLoop (RayMapperOccupancy.create map) (withoutMeanLayer map)
      ray_update_flags (withoutMeanLayer map).touch.1 rays
      ⟨(withoutMeanLayer map).touch.2.chunks, none, false⟩ = some s' := by
    rw [integrateLoop_withoutMeanLayer]
    exact hs'
  rw [integrateRays_of_loop hloop]
  rfl

theorem layer_mismatch_absorbed_witness :
    ([⟨0, 0, 0⟩, ⟨1100, 1100, 1100⟩] : List DVec3).length % 2 = 0 ∧
      0 ≤ mismatchedMeanMap.layout.meanLayer ∧
      mismatchedMeanMap.layout.meanLayer ≠ mismatchedMeanMap.layout.occupancyLayer ∧
      (mismatchedMeanMap.layout.layer mismatchedMeanMap.layout.meanLayer).voxelByteSize ≠
        sizeofVoxelMean ∧
      (RayMapperOccupancy.create mismatchedMeanMap).mean_layer = -1 ∧
      ∃ map', (RayMapperOccupancy.create mismatchedMeanMap).integrateRays mismatchedMeanMap
          [⟨0, 0, 0⟩, ⟨1100, 1100, 1100⟩] kRfDefault =
            some (([⟨0, 0, 0⟩, ⟨1100, 1100, 1100⟩] : List DVec3).length / 2, map') ∧
        (∀ j v, (chunkAt map'.chunks j).mean v = (chunkAt mismatchedMeanMap.chunks j).mean v) :=
  ⟨by decide, by decide, by decide, by decide,
    (layer_mismatch_absorbed mismatchedMeanMap [⟨0, 0, 0⟩, ⟨1100, 1100, 1100⟩] kRfDefault
      (by decide) (by decide) (by decide) (Or.inl (by decide))).1,
    match (layer_mismatch_absorbed mismatchedMeanMap [⟨0, 0, 0⟩, ⟨1100, 1100, 1100⟩] kRfDefault
      (by decide) (by decide) (by decide) (Or.inl (by decide))).2 with
    | ⟨map', h, hm, _, _⟩ => ⟨map', h, hm⟩⟩

/-! ## Occupancy values -/

/-- C13: the hit pass on an unobserved sample voxel leaves it at exactly `hit_value`, and a
visit of the miss pass to an unobserved voxel leaves it at exactly `miss_value`: the value is
written, not added to the sentinel. With default flags and an unclipped ray the state after an
accepted ray is the hit pass applied to the state after the miss pass. -/
theorem sentinel_transition (mapper : RayMapperOccupancy) (map : OccupancyMap)
    (ray_update_flags touch_stamp : Nat) (s : LoopState) (key : Key) (start end_ : DVec3)
    (hs : s.Valid) :
    ((chunkAt s.chunks (selectChunk s (map.voxelKey end_).regionKey).2).occupancy
        (voxelIndex (map.voxelKey end_) mapper.occupancy_dim) = unobservedOccupancyValue →
      (chunkAt (hitPass mapper map touch_stamp s end_).chunks
          (selectChunk s (map.voxelKey end_).regionKey).2).occupancy
          (voxelIndex (map.voxelKey end_) mapper.occupancy_dim) = map.hitValue) ∧
    ((chunkAt s.chunks (selectChunk s key.regionKey).2).occupancy
        (voxelIndex key mapper.occupancy_dim) = unobservedOccupancyValue →
      (chunkAt (visit_func mapper map ray_update_flags touch_stamp s key).chunks
          (selectChunk s key.regionKey).2).occupancy (voxelIndex key mapper.occupancy_dim) =
        map.missValue) ∧
    integrateAccepted mapper map kRfDefault touch_stamp s start end_ 0 =
      hitPass mapper map touch_stamp
        (missPass mapper map kRfDefault touch_stamp s start end_ false) end_ := by
  refine ⟨?_, ?_, ?_⟩
  · intro hu
    rw [hitPass_occupancy mapper map touch_stamp hs, if_pos ⟨rfl, rfl⟩, hu,
      occupancyAdjustHit_unobserved]
  · intro hu
    rw [visit_func_occupancy mapper map ray_update_flags touch_stamp hs, if_pos ⟨rfl, rfl⟩, hu,
      occupancyAdjustMiss_unobserved]
  · rw [integrateAccepted_eq]
    have hinc : includeSampleInRay 0 kRfDefault = false := by decide
    have hafter : afterMissPass mapper map kRfDefault touch_stamp s start end_ 0 =
        missPass mapper map kRfDefault touch_stamp s start end_ false := by
      have hex : flagSet kRfDefault kRfExcludeRay = false := flagSet_zero _
      simp [afterMissPass, hex, hinc]
    have hstop : (missPass mapper map kRfDefault touch_stamp s start end_ false).stop_adjustments =
        false := by
      unfold missPass
      rw [foldl_visit_stop_of_not_flag mapper map kRfDefault touch_stamp (flagSet_zero _)]
    rw [hafter, hstop, hinc]
    have hc : hitCondition false false kRfDefault = true := by decide
    rw [hc]
    rfl

theorem sentinel_transition_witness :
    (⟨s3Map.chunks, none, false⟩ : LoopState).Valid ∧
      (chunkAt (⟨s3Map.chunks, none, false⟩ : LoopState).chunks
        (selectChunk ⟨s3Map.chunks, none, false⟩ (s3Map.voxelKey ⟨5000, 0, 0⟩).regionKey).2).occupancy
        (voxelIndex (s3Map.voxelKey ⟨5000, 0, 0⟩) (RayMapperOccupancy.create s3Map).occupancy_dim) =
          unobservedOccupancyValue ∧
      (chunkAt (hitPass (RayMapperOccupancy.create s3Map) s3Map 1 ⟨s3Map.chunks, none, false⟩
          ⟨5000, 0, 0⟩).chunks
          (selectChunk ⟨s3Map.chunks, none, false⟩ (s3Map.voxelKey ⟨5000, 0, 0⟩).regionKey).2).occupancy
          (voxelIndex (s3Map.voxelKey ⟨5000, 0, 0⟩) (RayMapperOccupancy.create s3Map).occupancy_dim) =
        s3Map.hitValue ∧
      (chunkAt (⟨s3Map.chunks, none, false⟩ : LoopState).chunks
        (selectChunk ⟨s3Map.chunks, none, false⟩ (xKey 1).regionKey).2).occupancy
        (voxelIndex (xKey 1) (RayMapperOccupancy.create s3Map).occupancy_dim) =
          unobservedOccupancyValue ∧
      (chunkAt (visit_func (RayMapperOccupancy.create s3Map) s3Map kRfDefault 1
          ⟨s3Map.chunks, none, false⟩ (xKey 1)).chunks
          (selectChunk ⟨s3Map.chunks, none, false⟩ (xKey 1).regionKey).2).occupancy
          (voxelIndex (xKey 1) (RayMapperOccupancy.create s3Map).occupancy_dim) = s3Map.missValue :=
  ⟨valid_start _ _, by decide,
    (sentinel_transition (RayMapperOccupancy.create s3Map) s3Map kRfDefault 1
      ⟨s3Map.chunks, none, false⟩ (xKey 1) ⟨0, 0, 0⟩ ⟨5000, 0, 0⟩ (valid_start _ _)).1 (by decide),
    by decide,
    (sentinel_transition (RayMapperOccupancy.create s3Map) s3Map kRfDefault 1
      ⟨s3Map.chunks, none, false⟩ (xKey 1) ⟨0, 0, 0⟩ ⟨5000, 0, 0⟩ (valid_start _ _)).2.1 (by decide)⟩

/-- C14: `saturation_max` is `max_voxel_value` when `saturate_at_max` is set and the largest
finite float otherwise. When it is set (and the maximum voxel value is not the unobserved
sentinel) a voxel whose occupancy equals `max_voxel_value` keeps that value through every hit
pass, and through `integrateRays` on every array of even length and with every flag value. -/
theorem saturated_voxel_latched (mapper : RayMapperOccupancy) (map : OccupancyMap)
    (rays : List DVec3) (ray_update_flags : Nat) (heven : rays.length % 2 = 0)
    (hsaturate : map.saturateAtMaxValue = true)
    (hsentinel : map.maxVoxelValue ≠ unobservedOccupancyValue) :
    saturationMax map = map.maxVoxelValue ∧
    (∀ m : OccupancyMap, m.saturateAtMaxValue = false → saturationMax m = floatMax) ∧
    (∀ (touch_stamp : Nat) (s : LoopState) (end_ : DVec3), s.Valid → ∀ j v,
      (chunkAt s.chunks j).occupancy v = map.maxVoxelValue →
      (chunkAt (hitPass mapper map touch_stamp s end_).chunks j).occupancy v =
        map.maxVoxelValue) ∧
    ∃ map', mapper.integrateRays map rays ray_update_flags = some (rays.length / 2, map') ∧
      ∀ j v, (chunkAt map.chunks j).occupancy v = map.maxVoxelValue →
        (chunkAt map'.chunks j).occupancy v = map.maxVoxelValue := by
  have hmax : saturationMax map = map.maxVoxelValue := by simp [saturationMax, hsaturate]
  have hhit : ∀ (x : Int) (stop : Bool), x = map.maxVoxelValue →
      occupancyAdjustHit x map.hitValue unobservedOccupancyValue map.maxVoxelValue
        (saturationMin map) (saturationMax map) stop = map.maxVoxelValue := by
    intro x stop hx
    subst hx
    exact occupancyAdjustHit_saturated hsentinel stop (Or.inr (le_of_eq hmax))
  have hmiss : ∀ (x : Int) (stop : Bool), x = map.maxVoxelValue →
      occupancyAdjustMiss x map.missValue unobservedOccupancyValue map.minVoxelValue
        (saturationMin map) (saturationMax map) stop = map.maxVoxelValue := by
    intro x stop hx
    subst hx
    exact occupancyAdjustMiss_saturated hsentinel stop (Or.inr (le_of_eq hmax))
  refine ⟨hmax, fun m hm => by simp [saturationMax, hm], ?_, ?_⟩
  · intro ts s end_ hs j v hv
    rw [hitPass_occupancy mapper map ts hs]
    split
    · exact hhit _ _ hv
    · exact hv
  · exact integrateRays_rel mapper map ray_update_flags
      (fun c c' => ∀ v, c.occupancy v = map.maxVoxelValue → c'.occupancy v = map.maxVoxelValue)
      (fun c v h => h) (fun a b c hab hbc v h => hbc v (hab v h))
      (fun stop vi c coord v h => by
        by_cases hv : v = vi
        · subst hv
          simpa [missChunk] using hmiss _ stop h
        · simpa [missChunk, Function.update_noteq hv] using h)
      (fun key e c coord v h => by
        by_cases hv : v = voxelIndex key mapper.occupancy_dim
        · subst hv
          simpa [hitChunk] using hhit _ false h
        · simpa [hitChunk, Function.update_noteq hv] using h)
      rays heven

theorem saturated_voxel_latched_witness :
    ([⟨0, 0, 0⟩, ⟨2000, 0, 0⟩, ⟨0, 0, 0⟩, ⟨5000, 0, 0⟩] : List DVec3).length % 2 = 0 ∧
      s3LatchedMap.saturateAtMaxValue = true ∧
      s3LatchedMap.maxVoxelValue ≠ unobservedOccupancyValue ∧
      (chunkAt s3LatchedMap.chunks 0).occupancy 2 = s3LatchedMap.maxVoxelValue ∧
      ∃ map', (RayMapperOccupancy.create s3LatchedMap).integrateRays s3LatchedMap
          [⟨0, 0, 0⟩, ⟨2000, 0, 0⟩, ⟨0, 0, 0⟩, ⟨5000, 0, 0⟩] kRfDefault =
            some (([⟨0, 0, 0⟩, ⟨2000, 0, 0⟩, ⟨0, 0, 0⟩, ⟨5000, 0, 0⟩] : List DVec3).length / 2,
              map') ∧
        (chunkAt map'.chunks 0).occupancy 2 = s3LatchedMap.maxVoxelValue :=
  ⟨by decide, rfl, by decide, by decide,
    match (saturated_voxel_latched (RayMapperOccupancy.create s3LatchedMap) s3LatchedMap
      [⟨0, 0, 0⟩, ⟨2000, 0, 0⟩, ⟨0, 0, 0⟩, ⟨5000, 0, 0⟩] kRfDefault (by decide) rfl
      (by decide)).2.2.2 with
    | ⟨map', h, hv⟩ => ⟨map', h, hv 0 2 (by decide)⟩⟩

/-! ## The voxel mean -/

/-- C20: on a hit of a sample voxel with mean record `(q, n)` the record stored is
`(subVoxelUpdate(q, n, sample - voxelCentreGlobal(key), resolution), n + 1 mod 2^32)`: the
update is given the count before the increment and the offset of the sample from the voxel
centre. On each axis the update quantises the running mean `(d_old * n + d_new) / (n + 1)` of
the dequantised `q` and the new offset (clamped to half a voxel), and for `q` in the quantised
range the stored offset is this running mean to within half a quantisation step. -/
theorem mean_update_running_mean (mapper : RayMapperOccupancy) (map : OccupancyMap)
    (touch_stamp : Nat) (s : LoopState) (end_ : DVec3) (hs : s.Valid)
    (hmean : 0 ≤ mapper.mean_layer) (hr : 0 < map.resolution)
    (hx : 0 < map.regionVoxelDimensions.x) (hy : 0 < map.regionVoxelDimensions.y)
    (hz : 0 < map.regionVoxelDimensions.z) :
    (chunkAt (hitPass mapper map touch_stamp s end_).chunks
        (selectChunk s (map.voxelKey end_).regionKey).2).mean
        (voxelIndex (map.voxelKey end_) mapper.occupancy_dim) =
      ⟨subVoxelUpdate
          ((chunkAt s.chunks (selectChunk s (map.voxelKey end_).regionKey).2).mean
            (voxelIndex (map.voxelKey end_) mapper.occupancy_dim)).coord
          ((chunkAt s.chunks (selectChunk s (map.voxelKey end_).regionKey).2).mean
            (voxelIndex (map.voxelKey end_) mapper.occupancy_dim)).count
          (end_.toQVec3.sub (map.voxelCentreGlobal (map.voxelKey end_))) map.resolution,
        (((chunkAt s.chunks (selectChunk s (map.voxelKey end_).regionKey).2).mean
          (voxelIndex (map.voxelKey end_) mapper.occupancy_dim)).count + 1) % 2 ^ 32⟩ ∧
    (∀ (q : Int) (n : Nat) (d_new : ℚ),
      subVoxelUpdateAxis q n d_new map.resolution =
        quantiseMean (clampQ (runningMean (dequantiseMean q map.resolution) n d_new)
          (-((map.resolution : ℚ) / 2)) ((map.resolution : ℚ) / 2)) map.resolution) ∧
    (∀ (q : I16Vec3) (n : Nat), |q.x| ≤ meanQuantum → |q.y| ≤ meanQuantum → |q.z| ≤ meanQuantum →
      |dequantiseMean (subVoxelUpdate q n
            (end_.toQVec3.sub (map.voxelCentreGlobal (map.voxelKey end_))) map.resolution).x
            map.resolution -
          runningMean (dequantiseMean q.x map.resolution) n
            (end_.toQVec3.sub (map.voxelCentreGlobal (map.voxelKey end_))).x| ≤
        (map.resolution : ℚ) / (4 * meanQuantum) ∧
      |dequantiseMean (subVoxelUpdate q n
            (end_.toQVec3.sub (map.voxelCentreGlobal (map.voxelKey end_))) map.resolution).y
            map.resolution -
          runningMean (dequantiseMean q.y map.resolution) n
            (end_.toQVec3.sub (map.voxelCentreGlobal (map.voxelKey end_))).y| ≤
        (map.resolution : ℚ) / (4 * meanQuantum) ∧
      |dequantiseMean (subVoxelUpdate q n
            (end_.toQVec3.sub (map.voxelCentreGlobal (map.voxelKey end_))) map.resolution).z
            map.resolution -
          runningMean (dequantiseMean q.z map.resolution) n
            (end_.toQVec3.sub (map.voxelCentreGlobal (map.voxelKey end_))).z| ≤
        (map.resolution : ℚ) / (4 * meanQuantum)) := by
  refine ⟨hitPass_mean mapper map touch_stamp hs end_ hmean, fun q n d => rfl, ?_⟩
  intro q n hqx hqy hqz
  obtain ⟨hox, hoy, hoz⟩ := sample_offset_abs_le map end_ hr hx hy hz
  exact ⟨subVoxelUpdateAxis_error q.x n _ map.resolution hr hqx hox,
    subVoxelUpdateAxis_error q.y n _ map.resolution hr hqy hoy,
    subVoxelUpdateAxis_error q.z n _ map.resolution hr hqz hoz⟩

theorem mean_update_running_mean_witness :
    (⟨(countedMeanMap 5).chunks, none, false⟩ : LoopState).Valid ∧
      0 ≤ (RayMapperOccupancy.create (countedMeanMap 5)).mean_layer ∧
      0 < (countedMeanMap 5).resolution ∧ 0 < (countedMeanMap 5).regionVoxelDimensions.x ∧
      0 < (countedMeanMap 5).regionVoxelDimensions.y ∧
      0 < (countedMeanMap 5).regionVoxelDimensions.z ∧
      |(0 : Int)| ≤ meanQuantum ∧
      |dequantiseMean (subVoxelUpdate ⟨0, 0, 0⟩ 5
            ((⟨1100, 1100, 1100⟩ : DVec3).toQVec3.sub ((countedMeanMap 5).voxelCentreGlobal
              ((countedMeanMap 5).voxelKey ⟨1100, 1100, 1100⟩)))
            (countedMeanMap 5).resolution).x (countedMeanMap 5).resolution -
          runningMean (dequantiseMean 0 (countedMeanMap 5).resolution) 5
            ((⟨1100, 1100, 1100⟩ : DVec3).toQVec3.sub ((countedMeanMap 5).voxelCentreGlobal
              ((countedMeanMap 5).voxelKey ⟨1100, 1100, 1100⟩))).x| ≤
        ((countedMeanMap 5).resolution : ℚ) / (4 * meanQuantum) :=
  ⟨valid_start _ _, by decide, by decide, by decide, by decide, by decide, by decide,
    ((mean_update_running_mean (RayMapperOccupancy.create (countedMeanMap 5)) (countedMeanMap 5) 1
      ⟨(countedMeanMap 5).chunks, none, false⟩ ⟨1100, 1100, 1100⟩ (valid_start _ _) (by decide)
      (by decide) (by decide) (by decide) (by decide)).2.2 ⟨0, 0, 0⟩ 5 (by decide) (by decide)
      (by decide)).1⟩

/-- C17: for a map with a mean layer and every position `p` in the closed voxel (at most half a
voxel from the centre on each axis), `position()` read after `setPosition(p)` is within
`resolution / 1000` of `p` on each axis. -/
theorem position_round_trip (map : OccupancyMap) (c : MapChunk) (key : Key) (p : DVec3)
    (hr : 0 < map.resolution) (hmean : 0 ≤ map.layout.meanLayer)
    (hx : |(p.x : ℚ) - (map.voxelCentreGlobal key).x| ≤ (map.resolution : ℚ) / 2)
    (hy : |(p.y : ℚ) - (map.voxelCentreGlobal key).y| ≤ (map.resolution : ℚ) / 2)
    (hz : |(p.z : ℚ) - (map.voxelCentreGlobal key).z| ≤ (map.resolution : ℚ) / 2) :
    withinTolerance (voxelPosition map (setVoxelPosition map c key p) key) p
      ((map.resolution : ℚ) / 1000) := by
  unfold withinTolerance voxelPosition setVoxelPosition
  simp only [hmean, if_true, Function.update_same, QVec3.add]
  exact ⟨position_axis_error _ _ _ hr hx, position_axis_error _ _ _ hr hy,
    position_axis_error _ _ _ hr hz⟩

theorem position_round_trip_witness :
    0 < voxelMeanMap.resolution ∧ 0 ≤ voxelMeanMap.layout.meanLayer ∧
      (∀ p ∈ meanTestPositions,
        |(p.x : ℚ) - (voxelMeanMap.voxelCentreGlobal (voxelMeanMap.voxelKey ⟨250, 250, 250⟩)).x| ≤
            (voxelMeanMap.resolution : ℚ) / 2 ∧
          |(p.y : ℚ) - (voxelMeanMap.voxelCentreGlobal (voxelMeanMap.voxelKey ⟨250, 250, 250⟩)).y| ≤
            (voxelMeanMap.resolution : ℚ) / 2 ∧
          |(p.z : ℚ) - (voxelMeanMap.voxelCentreGlobal (voxelMeanMap.voxelKey ⟨250, 250, 250⟩)).z| ≤
            (voxelMeanMap.resolution : ℚ) / 2) ∧
      ∀ p ∈ meanTestPositions,
        withinTolerance
          (voxelPosition voxelMeanMap
            (setVoxelPosition voxelMeanMap (newChunk ⟨0, 0, 0⟩)
              (voxelMeanMap.voxelKey ⟨250, 250, 250⟩) p)
            (voxelMeanMap.voxelKey ⟨250, 250, 250⟩))
          p ((voxelMeanMap.resolution : ℚ) / 1000) :=
  have hin : ∀ p ∈ meanTestPositions,
      |(p.x : ℚ) - (voxelMeanMap.voxelCentreGlobal (voxelMeanMap.voxelKey ⟨250, 250, 250⟩)).x| ≤
          (voxelMeanMap.resolution : ℚ) / 2 ∧
        |(p.y : ℚ) - (voxelMeanMap.voxelCentreGlobal (voxelMeanMap.voxelKey ⟨250, 250, 250⟩)).y| ≤
          (voxelMeanMap.resolution : ℚ) / 2 ∧
        |(p.z : ℚ) - (voxelMeanMap.voxelCentreGlobal (voxelMeanMap.voxelKey ⟨250, 250, 250⟩)).z| ≤
          (voxelMeanMap.resolution : ℚ) / 2 := by decide!
  ⟨by decide, by decide, hin, fun p hp =>
    position_round_trip voxelMeanMap (newChunk ⟨0, 0, 0⟩) (voxelMeanMap.voxelKey ⟨250, 250, 250⟩) p
      (by decide) (by decide) (hin p hp).1 (hin p hp).2.1 (hin p hp).2.2⟩

/-- C16 (counterexample): in a new map with mean layer, the voxel of the sample (1.1, 1.1, 1.1)
of the first ray is unobserved before its hit; when the second ray of the array hits the same
voxel its reported position after `integrateRays` is not within `resolution / 1000` of the first
sample, and when three later rays pass through it it is no longer occupied. -/
theorem first_sample_mean_overwritten :
    voxelMeanMap.chunks.length = 0 ∧
      voxelMeanMap.voxelKey ⟨1400, 1400, 1400⟩ = voxelMeanMap.voxelKey ⟨1100, 1100, 1100⟩ ∧
      (∀ q ∈ positionAfter ((RayMapperOccupancy.create voxelMeanMap).integrateRays voxelMeanMap
          sameVoxelRays kRfDefault) ⟨1100, 1100, 1100⟩,
        ¬ withinTolerance q ⟨1100, 1100, 1100⟩ ((voxelMeanMap.resolution : ℚ) / 1000)) ∧
      positionAfter ((RayMapperOccupancy.create voxelMeanMap).integrateRays voxelMeanMap
          sameVoxelRays kRfDefault) ⟨1100, 1100, 1100⟩ ≠ none ∧
      occupiedAfter ((RayMapperOccupancy.create voxelMeanMap).integrateRays voxelMeanMap
          crossingRays kRfDefault) ⟨1100, 1100, 1100⟩ = some false := by
  decide!

/-- C16 (amended): in a map with mean layer and no ray filter whose unobserved voxels have empty
mean records (such as a new map), let a ray of the array integrated with the default flags have
a sample voxel that is unobserved before its hit. Right after the hit pass the voxel is occupied
and its reported position is within `resolution / 1000` of the sample on each axis; and when no
later ray of the array hits or traverses that voxel, the same holds when `integrateRays`
returns. Visits and hits keep the mean record of every unobserved voxel empty. For the three
rays of the test each sample voxel is occupied and reports a position within
`resolution / 1000` of its sample after `integrateRays`. -/
theorem first_sample_mean (mapper : RayMapperOccupancy) (map : OccupancyMap)
    (before after : List DVec3) (start end_ : DVec3)
    (hbefore : before.length % 2 = 0) (hafter : after.length % 2 = 0)
    (hfilter : map.rayFilter = none)
    (hmean : 0 ≤ mapper.mean_layer) (hlayout : 0 ≤ map.layout.meanLayer)
    (hdim : mapper.occupancy_dim = map.regionVoxelDimensions) (hr : 0 < map.resolution)
    (hx : 0 < map.regionVoxelDimensions.x) (hy : 0 < map.regionVoxelDimensions.y)
    (hz : 0 < map.regionVoxelDimensions.z)
    (hthreshold : map.occupancyThresholdValue < map.hitValue)
    (hhit : map.hitValue ≤ floatMax) (hmin : map.minVoxelValue ≤ floatMax)
    (hmax : map.maxVoxelValue ≤ floatMax)
    (hinv : ∀ c ∈ map.chunks, MeanCountInv c)
    (hunobserved :
      (lookupChunk
          (missPass mapper map kRfDefault map.touch.1
            (stateAfter mapper map kRfDefault map.touch.1 before) start end_ false).chunks
          (map.voxelKey end_)).occupancy
        (voxelIndex (map.voxelKey end_) mapper.occupancy_dim) = unobservedOccupancyValue)
    (hlater : ∀ ray ∈ rayPairs after, map.voxelKey ray.2 ≠ map.voxelKey end_ ∧
      map.voxelKey end_ ∉
        walkSegmentKeys map (ray.1.sub map.origin) (ray.2.sub map.origin) false) :
    (occupiedAfter (mapper.integrateRays map (before ++ start :: end_ :: after) kRfDefault)
        end_ = some true ∧
      ∃ q, positionAfter (mapper.integrateRays map (before ++ start :: end_ :: after) kRfDefault)
          end_ = some q ∧
        withinTolerance q end_ ((map.resolution : ℚ) / 1000)) ∧
    (∀ (s : LoopState) (touch_stamp : Nat) (sample : DVec3), s.Valid →
      ((chunkAt s.chunks (selectChunk s (map.voxelKey sample).regionKey).2).occupancy
          (voxelIndex (map.voxelKey sample) mapper.occupancy_dim) = unobservedOccupancyValue →
        ((chunkAt s.chunks (selectChunk s (map.voxelKey sample).regionKey).2).mean
          (voxelIndex (map.voxelKey sample) mapper.occupancy_dim)).count = 0 →
        isOccupied map ((chunkAt (hitPass mapper map touch_stamp s sample).chunks
            (selectChunk s (map.voxelKey sample).regionKey).2).occupancy
            (voxelIndex (map.voxelKey sample) mapper.occupancy_dim)) = true ∧
          withinTolerance
            (voxelPosition map (chunkAt (hitPass mapper map touch_stamp s sample).chunks
              (selectChunk s (map.voxelKey sample).regionKey).2) (map.voxelKey sample))
            sample ((map.resolution : ℚ) / 1000)) ∧
      ((∀ j, MeanCountInv (chunkAt s.chunks j)) →
        (∀ (flags : Nat) (key : Key) j,
          MeanCountInv (chunkAt (visit_func mapper map flags touch_stamp s key).chunks j)) ∧
        ∀ j, MeanCountInv (chunkAt (hitPass mapper map touch_stamp s sample).chunks j))) ∧
    (∀ j, MeanCountInv (chunkAt ([] : List MapChunk) j)) ∧
    (∀ p ∈ [(⟨1100, 1100, 1100⟩ : DVec3), ⟨-2400, -2400, -2400⟩, ⟨1000, -2200, -3300⟩],
      occupiedAfter ((RayMapperOccupancy.create voxelMeanMap).integrateRays voxelMeanMap
          voxelMeanRays kRfDefault) p = some true ∧
        positionAfter ((RayMapperOccupancy.create voxelMeanMap).integrateRays voxelMeanMap
          voxelMeanRays kRfDefault) p ≠ none ∧
        ∀ q ∈ positionAfter ((RayMapperOccupancy.create voxelMeanMap).integrateRays voxelMeanMap
            voxelMeanRays kRfDefault) p,
          withinTolerance q p ((voxelMeanMap.resolution : ℚ) / 1000)) := by
  refine ⟨?_, ?_, fun j => ?_, by decide!⟩
  · -- the state before the ray, after its miss pass and after its hit pass
    have hB := stateAfter_inv mapper map kRfDefault map.touch.1 hhit hmin hmax hinv before
    have hM := missPass_inv mapper map kRfDefault map.touch.1 hmin hmax hB.1 hB.2 start end_
      false
    generalize hsm : missPass mapper map kRfDefault map.touch.1
      (stateAfter mapper map kRfDefault map.touch.1 before) start end_ false = sm at hM hunobserved
    rw [lookupChunk_occupancy hM.1] at hunobserved
    have hfirst := hitPass_first_sample mapper map map.touch.1 sm end_ hM.1.valid hmean hlayout
      hdim hr hx hy hz hthreshold hhit hunobserved (hM.2 _ _ hunobserved)
    have hcache : (hitPass mapper map map.touch.1 sm end_).CacheOK :=
      select_write_cacheOK hM.1 (map.voxelKey end_).regionKey
        (hitChunk mapper map map.touch.1 sm.stop_adjustments (map.voxelKey end_) end_)
        (fun c => rfl) _
    have hfind : findChunk (hitPass mapper map map.touch.1 sm end_).chunks
        (map.voxelKey end_).regionKey = some (selectChunk sm (map.voxelKey end_).regionKey).2 := by
      have h1 := hcache (selectChunk sm (map.voxelKey end_).regionKey).2 rfl
      rwa [hitPass_chunkAt mapper map map.touch.1 hM.1.valid, if_pos rfl] at h1
    -- the later rays
    have hheld := foldl_integrateRay_held mapper map kRfDefault map.touch.1 hfilter hdim hx hy
      (rayPairs after) hlater (s := hitPass mapper map map.touch.1 sm end_)
      ⟨hcache, hfind, rfl, rfl⟩
    -- the call
    have hlen : (before ++ start :: end_ :: after).length % 2 = 0 := by
      simp only [List.length_append, List.length_cons]
      omega
    have hcall := integrateRays_eq_foldl mapper map (before ++ start :: end_ :: after) kRfDefault
      hlen
    have hpairs : rayPairs (before ++ start :: end_ :: after) =
        rayPairs before ++ (start, end_) :: rayPairs after := by
      rw [rayPairs_append _ _ hbefore]
      rfl
    rw [hpairs, List.foldl_append, List.foldl_cons] at hcall
    have hstate : (rayPairs before).foldl
        (fun s p => integrateRay mapper map kRfDefault map.touch.1 s p.1 p.2)
        ⟨map.chunks, none, false⟩ = stateAfter mapper map kRfDefault map.touch.1 before := rfl
    rw [hstate, integrateRay_default mapper map map.touch.1 hfilter, hsm] at hcall
    generalize (rayPairs after).foldl
      (fun s p => integrateRay mapper map kRfDefault map.touch.1 s p.1 p.2)
      (hitPass mapper map map.touch.1 sm end_) = sf at hcall hheld
    obtain ⟨-, hf2, hf3, hf4⟩ := hheld
    rw [hcall]
    have hkey : ({ map.touch.2 with chunks := sf.chunks } : OccupancyMap).voxelKey end_ =
        map.voxelKey end_ := rfl
    constructor
    · simp only [occupiedAfter, Option.map_some', hkey]
      rw [lookupChunk_of_findChunk hf2]
      show some (isOccupied map ((chunkAt sf.chunks _).occupancy
        (voxelIndex (map.voxelKey end_) map.regionVoxelDimensions))) = some true
      rw [← hdim, hf3, hfirst.1]
    · refine ⟨_, rfl, ?_⟩
      simp only [hkey]
      rw [lookupChunk_of_findChunk hf2]
      have hpos : voxelPosition ({ map.touch.2 with chunks := sf.chunks } : OccupancyMap)
          (chunkAt sf.chunks (selectChunk sm (map.voxelKey end_).regionKey).2)
          (map.voxelKey end_) =
          voxelPosition map (chunkAt (hitPass mapper map map.touch.1 sm end_).chunks
            (selectChunk sm (map.voxelKey end_).regionKey).2) (map.voxelKey end_) := by
        rw [hdim] at hf4
        simp only [voxelPosition]
        show (if 0 ≤ map.layout.meanLayer then _ else _) = _
        rw [show ({ map.touch.2 with chunks := sf.chunks } : OccupancyMap).regionVoxelDimensions =
          map.regionVoxelDimensions from rfl, hf4]
        rfl
      rw [hpos]
      exact hfirst.2
  · intro s touch_stamp sample hs
    refine ⟨fun hu hc => hitPass_first_sample mapper map touch_stamp s sample hs hmean hlayout
      hdim hr hx hy hz hthreshold hhit hu hc, fun hi => ⟨fun flags key j => ?_, fun j => ?_⟩⟩
    · rw [visit_func_chunkAt mapper map flags touch_stamp hs]
      split
      · exact missChunk_meanCountInv mapper map touch_stamp hmin hmax _ _ _ _ (hi j)
      · exact hi j
    · rw [hitPass_chunkAt mapper map touch_stamp hs]
      split
      · exact hitChunk_meanCountInv mapper map touch_stamp hhit hmax _ _ _ _ _ (hi j)
      · exact hi j
  · rw [chunkAt_ge (Nat.zero_le _)]
    exact meanCountInv_default

theorem first_sample_mean_witness :
    meanRaysBefore.length % 2 = 0 ∧ meanRaysAfter.length % 2 = 0 ∧
      voxelMeanMap.rayFilter = none ∧
      0 ≤ (RayMapperOccupancy.create voxelMeanMap).mean_layer ∧
      0 ≤ voxelMeanMap.layout.meanLayer ∧
      (RayMapperOccupancy.create voxelMeanMap).occupancy_dim = voxelMeanMap.regionVoxelDimensions ∧
      0 < voxelMeanMap.resolution ∧ 0 < voxelMeanMap.regionVoxelDimensions.x ∧
      0 < voxelMeanMap.regionVoxelDimensions.y ∧ 0 < voxelMeanMap.regionVoxelDimensions.z ∧
      voxelMeanMap.occupancyThresholdValue < voxelMeanMap.hitValue ∧
      voxelMeanMap.hitValue ≤ floatMax ∧ voxelMeanMap.minVoxelValue ≤ floatMax ∧
      voxelMeanMap.maxVoxelValue ≤ floatMax ∧
      (∀ c ∈ voxelMeanMap.chunks, MeanCountInv c) ∧
      (lookupChunk
          (missPass (RayMapperOccupancy.create voxelMeanMap) voxelMeanMap kRfDefault
            voxelMeanMap.touch.1
            (stateAfter (RayMapperOccupancy.create voxelMeanMap) voxelMeanMap kRfDefault
              voxelMeanMap.touch.1 meanRaysBefore)
            ⟨0, 0, 0⟩ ⟨-2400, -2400, -2400⟩ false).chunks
          (voxelMeanMap.voxelKey ⟨-2400, -2400, -2400⟩)).occupancy
        (voxelIndex (voxelMeanMap.voxelKey ⟨-2400, -2400, -2400⟩)
          (RayMapperOccupancy.create voxelMeanMap).occupancy_dim) = unobservedOccupancyValue ∧
      (∀ ray ∈ rayPairs meanRaysAfter,
        voxelMeanMap.voxelKey ray.2 ≠ voxelMeanMap.voxelKey ⟨-2400, -2400, -2400⟩ ∧
        voxelMeanMap.voxelKey ⟨-2400, -2400, -2400⟩ ∉
          walkSegmentKeys voxelMeanMap (ray.1.sub voxelMeanMap.origin)
            (ray.2.sub voxelMeanMap.origin) false) ∧
      occupiedAfter ((RayMapperOccupancy.create voxelMeanMap).integrateRays voxelMeanMap
          (meanRaysBefore ++ ⟨0, 0, 0⟩ :: ⟨-2400, -2400, -2400⟩ :: meanRaysAfter) kRfDefault)
        ⟨-2400, -2400, -2400⟩ = some true ∧
      ∃ q, positionAfter ((RayMapperOccupancy.create voxelMeanMap).integrateRays voxelMeanMap
            (meanRaysBefore ++ ⟨0, 0, 0⟩ :: ⟨-2400, -2400, -2400⟩ :: meanRaysAfter) kRfDefault)
          ⟨-2400, -2400, -2400⟩ = some q ∧
        withinTolerance q ⟨-2400, -2400, -2400⟩ ((voxelMeanMap.resolution : ℚ) / 1000) :=
  have hinv : ∀ c ∈ voxelMeanMap.chunks, MeanCountInv c :=
    fun c hc => absurd hc (List.not_mem_nil c)
  ⟨by decide, by decide, rfl, by decide, by decide, by decide, by decide, by decide, by decide,
    by decide, by decide, by decide, by decide, by decide, hinv, by decide!, by decide,
    (first_sample_mean (RayMapperOccupancy.create voxelMeanMap) voxelMeanMap meanRaysBefore
      meanRaysAfter ⟨0, 0, 0⟩ ⟨-2400, -2400, -2400⟩ (by decide) (by decide) rfl (by decide)
      (by decide) (by decide) (by decide) (by decide) (by decide) (by decide) (by decide)
      (by decide) (by decide) (by decide) hinv (by decide!) (by decide)).1⟩

/-- C18: in a map without mean layer the position of every voxel is its centre. Adding the mean
layer, and updating the layout of any map to a layout with occupancy layer, such as restoring
the layout the map had before, keeps the region and the occupancy values of every chunk, so an
occupied voxel stays occupied; once the layout has no mean layer again the position of every
voxel is its centre again. -/
theorem layout_toggle (map : OccupancyMap) (hoccupancy : 0 ≤ map.layout.occupancyLayer)
    (hnomean : map.layout.meanLayer < 0) :
    (∀ c key, voxelPosition map c key = map.voxelCentreGlobal key) ∧
    map.addVoxelMeanLayer.chunks.map (fun c => (c.region_coord, c.occupancy)) =
      map.chunks.map (fun c => (c.region_coord, c.occupancy)) ∧
    0 ≤ map.addVoxelMeanLayer.layout.meanLayer ∧
    0 ≤ map.addVoxelMeanLayer.layout.occupancyLayer ∧
    (∀ m : OccupancyMap, 0 ≤ m.layout.occupancyLayer →
      (m.updateLayout map.layout).chunks.map (fun c => (c.region_coord, c.occupancy)) =
          m.chunks.map (fun c => (c.region_coord, c.occupancy)) ∧
        (m.updateLayout map.layout).layout = map.layout ∧
        ∀ c key, voxelPosition (m.updateLayout map.layout) c key =
          (m.updateLayout map.layout).voxelCentreGlobal key) := by
  have hneg : ¬ (0 : Int) ≤ map.layout.meanLayer := by omega
  refine ⟨fun c key => by simp [voxelPosition, hneg], ?_, ?_, ?_, ?_⟩
  · simp only [OccupancyMap.addVoxelMeanLayer, hneg, if_false]
    exact updateLayout_occupancy map _ hoccupancy hoccupancy
  · simp [OccupancyMap.addVoxelMeanLayer, hneg, OccupancyMap.updateLayout]
  · simp only [OccupancyMap.addVoxelMeanLayer, hneg, if_false, OccupancyMap.updateLayout]
    exact hoccupancy
  · intro m hm
    refine ⟨updateLayout_occupancy m _ hm hoccupancy, rfl, fun c key => ?_⟩
    simp [voxelPosition, OccupancyMap.updateLayout, hneg]

theorem layout_toggle_witness :
    0 ≤ layoutToggleMap.layout.occupancyLayer ∧ layoutToggleMap.layout.meanLayer < 0 ∧
      voxelPosition layoutToggleMap (chunkAt layoutToggleMap.chunks 0)
          (layoutToggleMap.voxelKey ⟨1100, 1100, 1100⟩) =
        layoutToggleMap.voxelCentreGlobal (layoutToggleMap.voxelKey ⟨1100, 1100, 1100⟩) ∧
      layoutToggleMap.addVoxelMeanLayer.chunks.map (fun c => (c.region_coord, c.occupancy)) =
        layoutToggleMap.chunks.map (fun c => (c.region_coord, c.occupancy)) ∧
      isOccupied layoutToggleMap.addVoxelMeanLayer
        ((chunkAt layoutToggleMap.addVoxelMeanLayer.chunks 0).occupancy 2114) = true ∧
      withinTolerance
        (voxelPosition layoutToggleMap.addVoxelMeanLayer
          (setVoxelPosition layoutToggleMap.addVoxelMeanLayer
            (chunkAt layoutToggleMap.addVoxelMeanLayer.chunks 0)
            (layoutToggleMap.voxelKey ⟨1100, 1100, 1100⟩) ⟨1100, 1100, 1100⟩)
          (layoutToggleMap.voxelKey ⟨1100, 1100, 1100⟩))
        ⟨1100, 1100, 1100⟩ ((layoutToggleMap.resolution : ℚ) / 1000) ∧
      (voxelPosition layoutToggleMap.addVoxelMeanLayer
          (setVoxelPosition layoutToggleMap.addVoxelMeanLayer
            (chunkAt layoutToggleMap.addVoxelMeanLayer.chunks 0)
            (layoutToggleMap.voxelKey ⟨1100, 1100, 1100⟩) ⟨1100, 1100, 1100⟩)
          (layoutToggleMap.voxelKey ⟨1100, 1100, 1100⟩)).x ≠
        (layoutToggleMap.voxelCentreGlobal (layoutToggleMap.voxelKey ⟨1100, 1100, 1100⟩)).x ∧
      isOccupied (layoutToggleMap.addVoxelMeanLayer.updateLayout layoutToggleMap.layout)
        ((chunkAt (layoutToggleMap.addVoxelMeanLayer.updateLayout layoutToggleMap.layout).chunks
          0).occupancy 2114) = true :=
  ⟨by decide, by decide,
    (layout_toggle layoutToggleMap (by decide) (by decide)).1 _ _,
    (layout_toggle layoutToggleMap (by decide) (by decide)).2.1,
    by decide, by decide!, by decide!, by decide⟩

/-! ## Batches -/

/-- C19: `integrateRays` applies the loop body to the pairs of the array in input order, and
for arrays `A` and `B` of even length, every flag value and every (stateless) ray filter,
`integrateRays` on `A ++ B` leaves the same chunk store, up to the stamps, as `integrateRays` on
`A` followed by `integrateRays` on `B`: the same chunks in the same order with equal regions,
occupancy values, mean records and first valid indices. -/
theorem batching_independent (mapper : RayMapperOccupancy) (map : OccupancyMap)
    (rays_a rays_b : List DVec3) (ray_update_flags : Nat)
    (ha : rays_a.length % 2 = 0) (hb : rays_b.length % 2 = 0) :
    ∃ map_ab map_a map_b,
      mapper.integrateRays map (rays_a ++ rays_b) ray_update_flags =
        some ((rays_a ++ rays_b).length / 2, map_ab) ∧
      mapper.integrateRays map rays_a ray_update_flags = some (rays_a.length / 2, map_a) ∧
      mapper.integrateRays map_a rays_b ray_update_flags = some (rays_b.length / 2, map_b) ∧
      map_ab.chunks.map eraseStamps = map_b.chunks.map eraseStamps ∧
      map_ab.chunks =
        ((rayPairs rays_a ++ rayPairs rays_b).foldl
          (fun s p => integrateRay mapper map ray_update_flags map.touch.1 s p.1 p.2)
          ⟨map.chunks, none, false⟩).chunks := by
  have hab : (rays_a ++ rays_b).length % 2 = 0 := by
    rw [List.length_append]
    omega
  have h1 := integrateRays_eq_foldl mapper map (rays_a ++ rays_b) ray_update_flags hab
  have h2 := integrateRays_eq_foldl mapper map rays_a ray_update_flags ha
  rw [rayPairs_append rays_a rays_b ha] at h1
  have h3 := integrateRays_eq_foldl mapper
    { map.touch.2 with chunks := ((rayPairs rays_a).foldl
      (fun s p => integrateRay mapper map ray_update_flags map.touch.1 s p.1 p.2)
      ⟨map.chunks, none, false⟩).chunks } rays_b ray_update_flags hb
  refine ⟨_, _, _, h1, h2, h3, ?_, rfl⟩
  have hself := foldl_integrateRay_sim mapper map ray_update_flags map.touch.1 map.touch.1
    (rayPairs rays_a) (sim_refl_start map.chunks false) (fun _ => ⟨rfl, rfl⟩)
  have hsim : LoopState.Sim
      ((rayPairs rays_a).foldl
        (fun s p => integrateRay mapper map ray_update_flags map.touch.1 s p.1 p.2)
        ⟨map.chunks, none, false⟩)
      ⟨((rayPairs rays_a).foldl
        (fun s p => integrateRay mapper map ray_update_flags map.touch.1 s p.1 p.2)
        ⟨map.chunks, none, false⟩).chunks, none, false⟩ :=
    ⟨hself.1.1, cacheOK_start _ _, rfl⟩
  have hfin := (foldl_integrateRay_sim mapper map ray_update_flags map.touch.1
    (map.stamp + 1 + 1) (rayPairs rays_b) hsim (fun hex => ⟨(hself.2 hex).1, rfl⟩)).1.2.2
  rw [← List.foldl_append] at hfin
  exact hfin

theorem batching_independent_witness :
    firstBatch.length % 2 = 0 ∧ secondBatch.length % 2 = 0 ∧
      ∃ map_ab map_a map_b,
        (RayMapperOccupancy.create s3Map).integrateRays s3Map (firstBatch ++ secondBatch)
            kRfStopOnFirstOccupied = some ((firstBatch ++ secondBatch).length / 2, map_ab) ∧
        (RayMapperOccupancy.create s3Map).integrateRays s3Map firstBatch kRfStopOnFirstOccupied =
          some (firstBatch.length / 2, map_a) ∧
        (RayMapperOccupancy.create s3Map).integrateRays map_a secondBatch
            kRfStopOnFirstOccupied = some (secondBatch.length / 2, map_b) ∧
        map_ab.chunks.map eraseStamps = map_b.chunks.map eraseStamps :=
  ⟨by decide, by decide,
    match batching_independent (RayMapperOccupancy.create s3Map) s3Map firstBatch secondBatch
      kRfStopOnFirstOccupied (by decide) (by decide) with
    | ⟨map_ab, map_a, map_b, h1, h2, h3, h4, _⟩ => ⟨map_ab, map_a, map_b, h1, h2, h3, h4⟩⟩

/-! ## OpenCL utilities -/

/-- C22: `parseVersion` does not verify the separator. In "1x2" the character that follows the
first run of digits is `x`, not a dot, and `parseVersion` returns true with major version 1 and
minor version 2: the character after the digits is skipped whatever it is. It returns false when
the string ends right after the first run of digits or one character later. -/
theorem parseVersion_separator_unchecked :
    cstrHead (readDigits 0 false (skipNonDigits "1x2".toList)).2.2 = (Char.ofNat 120) ∧
      (Char.ofNat 120) ≠ (Char.ofNat 46) ∧
      parseVersion "1x2".toList (some 0) (some 0) = (true, some 1, some 2) ∧
      parseVersion "OpenCL 1 2".toList (some 0) (some 0) = (true, some 1, some 2) ∧
      parseVersion "12".toList (some 0) (some 0) = (false, some 0, some 0) ∧
      parseVersion "12x".toList (some 0) (some 0) = (false, some 0, some 0) := by
  decide

/-- C25: for a string `P ++ M ++ "." ++ N ++ R` where `P` has no digit (and, being part of a C
string, no NUL), `M` and `N` are non-empty strings of digits and `R` does not start with a digit,
`parseVersion` returns true and writes the decimal value of `M` modulo `2^32` through
`version_major` and that of `N` through `version_minor` (a null pointer is not written). For a
string without any digit it returns false and leaves both outputs as they were. -/
theorem parseVersion_value (P M N R : List Char) (version_major version_minor : Option Nat)
    (hP : ∀ c ∈ P, c ≠ nulChar ∧ isdigit c = false)
    (hM : M ≠ []) (hMd : ∀ c ∈ M, isdigit c = true)
    (hN : N ≠ []) (hNd : ∀ c ∈ N, isdigit c = true)
    (hR : isdigit (cstrHead R) = false) :
    parseVersion (P ++ M ++ (Char.ofNat 46) :: N ++ R) version_major version_minor =
        (true, version_major.map (fun _ => decimalValue M % 2 ^ 32),
          version_minor.map (fun _ => decimalValue N % 2 ^ 32)) ∧
      ∀ s : List Char, (∀ c ∈ s, isdigit c = false) →
        parseVersion s version_major version_minor = (false, version_major, version_minor) := by
  constructor
  · obtain ⟨m, M', rfl⟩ := List.exists_cons_of_ne_nil hM
    obtain ⟨n, N', rfl⟩ := List.exists_cons_of_ne_nil hN
    have hm := hMd m (List.mem_cons_self _ _)
    have hn := hNd n (List.mem_cons_self _ _)
    have h1 : skipNonDigits (P ++ (m :: M') ++ (Char.ofNat 46) :: (n :: N') ++ R) =
        (m :: M') ++ ((Char.ofNat 46) :: ((n :: N') ++ R)) := by
      rw [List.append_assoc, List.append_assoc, skipNonDigits_append _ _ hP]
      rw [skipNonDigits_of_stop _ (Or.inr (by simpa [cstrHead] using hm))]
      simp
    have h2 : readDigits 0 false ((m :: M') ++ ((Char.ofNat 46) :: ((n :: N') ++ R))) =
        (decimalValue (m :: M') % 2 ^ 32, true, (Char.ofNat 46) :: ((n :: N') ++ R)) := by
      rw [readDigits_append _ _ hMd, readDigits_of_stop _ _ _ (by simp [cstrHead, isdigit]),
        foldl_digits_mod _ 0 0 rfl]
      rfl
    have h3 : readDigits 0 false ((n :: N') ++ R) = (decimalValue (n :: N') % 2 ^ 32, true, R) := by
      rw [readDigits_append _ _ hNd, readDigits_of_stop _ _ _ hR, foldl_digits_mod _ 0 0 rfl]
      rfl
    have hm0 : m ≠ nulChar := isdigit_ne_nul hm
    have hn0 : n ≠ nulChar := isdigit_ne_nul hn
    have hdot : (Char.ofNat 46) ≠ nulChar := by decide
    simp only [parseVersion, h1, h2, List.tail_cons, h3]
    simp [cstrHead, hm0, hn0, hdot]
  · intro s hs
    simp [parseVersion, skipNonDigits_no_digit s hs]

theorem parseVersion_value_witness :
    (∀ c ∈ "OpenCL ".toList, c ≠ nulChar ∧ isdigit c = false) ∧ "12".toList ≠ [] ∧
      (∀ c ∈ "12".toList, isdigit c = true) ∧ "0".toList ≠ [] ∧
      (∀ c ∈ "0".toList, isdigit c = true) ∧ isdigit (cstrHead " CUDA".toList) = false ∧
      parseVersion ("OpenCL ".toList ++ "12".toList ++ (Char.ofNat 46) :: "0".toList ++
          " CUDA".toList) (some 7) none =
        (true, (some 7).map (fun _ => decimalValue "12".toList % 2 ^ 32),
          (none : Option Nat).map (fun _ => decimalValue "0".toList % 2 ^ 32)) ∧
      (∀ c ∈ "Version".toList, isdigit c = false) ∧
      parseVersion "Version".toList (some 7) none = (false, some 7, none) :=
  ⟨by decide, by decide, by decide, by decide, by decide, by decide,
    (parseVersion_value "OpenCL ".toList "12".toList "0".toList " CUDA".toList (some 7) none
      (by decide) (by decide) (by decide) (by decide) (by decide) (by decide)).1,
    by decide,
    (parseVersion_value "OpenCL ".toList "12".toList "0".toList " CUDA".toList (some 7) none
      (by decide) (by decide) (by decide) (by decide) (by decide) (by decide)).2 "Version".toList
      (by decide)⟩

/-- C24: `filterPlatforms` and `filterDevices` call only the first constraint of the array, once
for each of the `constraint_count` rounds: with at least one constraint they keep, in order, the
elements the first constraint accepts, whatever the other constraints say. With the constraints
"any platform" and "number below 2" the platforms 1, 2, 3 are all kept although 2 and 3 fail the
second constraint. With `constraint_count = 0` the list is unchanged, and the returned flag tells
whether the list left is non-empty. -/
theorem filter_first_constraint_only :
    filterPlatforms [1, 2, 3] [fun _ => true, fun n => decide (n < 2)] 2 =
        some (true, [1, 2, 3]) ∧
      [1, 2, 3].filter (fun n => [fun _ => true, fun n => decide (n < 2)].all fun c => c n) =
        [1] ∧
      filterDevices 0 [1, 2, 3] [fun _ _ => true, fun _ n => decide (n < 2)] 2 =
        some (true, [1, 2, 3]) ∧
      (∀ (Platform : Type) (platforms : List Platform) (constraint : Platform → Bool)
          (constraints : List (Platform → Bool)) (remaining : Nat),
        filterPlatforms platforms (constraint :: constraints) (remaining + 1) =
          some (!(platforms.filter constraint).isEmpty, platforms.filter constraint)) ∧
      (∀ (Platform : Type) (platforms : List Platform) (constraints : List (Platform → Bool)),
        filterPlatforms platforms constraints 0 = some (!platforms.isEmpty, platforms)) := by
  refine ⟨by decide, by decide, by decide, ?_, ?_⟩
  · intro Platform platforms constraint constraints remaining
    simp [filterPlatforms, filterLoop_succ]
  · intro Platform platforms constraints
    simp [filterPlatforms, filterLoop_zero]

/-! ## The conical ray pattern -/

/-- C23: the swizzled vector `(n.z, n.x, n.y)` is not perpendicular to the unit vector
`n = (3/5, 4/5, 0)`: their dot product is `12/25`. In general the dot product is
`x * z + y * x + z * y`. -/
theorem deflection_base_not_perpendicular :
    QVec3.dot ⟨3 / 5, 4 / 5, 0⟩ ⟨3 / 5, 4 / 5, 0⟩ = 1 ∧
      QVec3.dot ⟨3 / 5, 4 / 5, 0⟩ (deflectionBase ⟨3 / 5, 4 / 5, 0⟩) = 12 / 25 ∧
      QVec3.dot ⟨3 / 5, 4 / 5, 0⟩ (deflectionBase ⟨3 / 5, 4 / 5, 0⟩) ≠ 0 ∧
      ∀ n : QVec3, n.dot (deflectionBase n) = n.x * n.z + n.y * n.x + n.z * n.y := by
  refine ⟨?_, ?_, ?_, fun n => rfl⟩ <;> norm_num [QVec3.dot, deflectionBase]

/-! ## Stream operators of glm vectors -/

/-- C26: the text `operator<<` writes for a vector of four components is `(w,x,y,z)`, and
`operator>>` stores the four values it reads in memory order `x, y, z, w`: reading back the text
of `(x, y, z, w) = (1, 2, 3, 4)` succeeds and yields `(4, 1, 2, 3)`. For every vector `v` of
`int` components, reading back the text of `v` succeeds and yields `v` for 2 and 3 components
and `(v.w, v.x, v.y, v.z)` for 4 components, which is `v` only when all components are equal. -/
theorem vec4_round_trip_rotates :
    writeVec4 [] ⟨1, 2, 3, 4⟩ = "(4,1,2,3)".toList ∧
      readVec4 ⟨writeVec4 [] ⟨1, 2, 3, 4⟩, false⟩ ⟨0, 0, 0, 0⟩ nulChar =
        (⟨[], false⟩, ⟨4, 1, 2, 3⟩) ∧
      (⟨4, 1, 2, 3⟩ : IVec4) ≠ ⟨1, 2, 3, 4⟩ ∧
      (∀ (v value : IVec2) (ch : Char), inIntRange v.x → inIntRange v.y →
        readVec2 ⟨writeVec2 [] v, false⟩ value ch = (⟨[], false⟩, v)) ∧
      (∀ (v value : IVec3) (ch : Char), inIntRange v.x → inIntRange v.y → inIntRange v.z →
        readVec3 ⟨writeVec3 [] v, false⟩ value ch = (⟨[], false⟩, v)) ∧
      (∀ (v value : IVec4) (ch : Char), inIntRange v.x → inIntRange v.y → inIntRange v.z →
        inIntRange v.w →
        readVec4 ⟨writeVec4 [] v, false⟩ value ch = (⟨[], false⟩, ⟨v.w, v.x, v.y, v.z⟩) ∧
        ((⟨v.w, v.x, v.y, v.z⟩ : IVec4) = v ↔ v.x = v.y ∧ v.y = v.z ∧ v.z = v.w)) := by
  refine ⟨by decide, by decide, by decide, ?_, ?_, ?_⟩
  · intro v value ch hx hy
    exact readVec2_writeVec2 v hx hy value ch
  · intro v value ch hx hy hz
    exact readVec3_writeVec3 v hx hy hz value ch
  · intro v value ch hx hy hz hw
    refine ⟨readVec4_writeVec4 v hx hy hz hw value ch, ?_⟩
    obtain ⟨x, y, z, w⟩ := v
    simp only [IVec4.mk.injEq]
    constructor
    · rintro ⟨h1, h2, h3, h4⟩
      omega
    · rintro ⟨h1, h2, h3⟩
      omega

/-! ## Segment keys and the chunk cache -/

/-- C29: for a ray the map does not filter and flags that do not exclude the ray, the miss pass
of `integrateRays` is `visit_func` applied, in order, to exactly the keys that
`calculateSegmentKeys(keys, map, start, end, include_sample_in_ray)` leaves in `keys`, and the
hit pass, if any, follows. `calculateSegmentKeys` clears `keys` first, so its result does not
depend on the previous contents, and it returns the number of keys. -/
theorem miss_pass_visits_segment_keys (mapper : RayMapperOccupancy) (map : OccupancyMap)
    (ray_update_flags touch_stamp : Nat) (s : LoopState) (start end_ : DVec3) (keys : List Key)
    (hfilter : map.rayFilter = none) (hray : flagSet ray_update_flags kRfExcludeRay = false) :
    afterMissPass mapper map ray_update_flags touch_stamp s start end_ 0 =
        (calculateSegmentKeys keys map start end_
          (includeSampleInRay 0 ray_update_flags)).2.foldl
          (visit_func mapper map ray_update_flags touch_stamp)
          { s with stop_adjustments := false } ∧
      integrateRay mapper map ray_update_flags touch_stamp s start end_ =
        (if hitCondition
            (afterMissPass mapper map ray_update_flags touch_stamp s start end_ 0).stop_adjustments
            (includeSampleInRay 0 ray_update_flags) ray_update_flags then
          hitPass mapper map touch_stamp
            (afterMissPass mapper map ray_update_flags touch_stamp s start end_ 0) end_
        else afterMissPass mapper map ray_update_flags touch_stamp s start end_ 0) ∧
      (calculateSegmentKeys keys map start end_ (includeSampleInRay 0 ray_update_flags)).2 =
        walkSegmentKeys map (start.sub map.origin) (end_.sub map.origin)
          (includeSampleInRay 0 ray_update_flags) ∧
      (∀ include_end_point,
        calculateSegmentKeys keys map start end_ include_end_point =
          calculateSegmentKeys [] map start end_ include_end_point ∧
        (calculateSegmentKeys keys map start end_ include_end_point).1 =
          (calculateSegmentKeys keys map start end_ include_end_point).2.length) := by
  have hkeys : ∀ include_end_point,
      (calculateSegmentKeys keys map start end_ include_end_point).2 =
        walkSegmentKeys map (start.sub map.origin) (end_.sub map.origin) include_end_point := by
    intro include_end_point
    simp [calculateSegmentKeys, foldl_keyList_add, KeyList.clear]
  refine ⟨?_, ?_, hkeys _, fun include_end_point => ⟨rfl, ?_⟩⟩
  · rw [hkeys]
    simp [afterMissPass, hray, missPass]
  · simp only [integrateRay, hfilter]
    exact integrateAccepted_eq mapper map ray_update_flags touch_stamp s start end_ 0
  · rw [hkeys]
    rfl

theorem miss_pass_visits_segment_keys_witness :
    s3Map.rayFilter = none ∧ flagSet kRfStopOnFirstOccupied kRfExcludeRay = false ∧
      afterMissPass (RayMapperOccupancy.create s3Map) s3Map kRfStopOnFirstOccupied 1
          ⟨s3Map.chunks, none, false⟩ ⟨0, 0, 0⟩ ⟨5000, 0, 0⟩ 0 =
        (calculateSegmentKeys [xKey 7] s3Map ⟨0, 0, 0⟩ ⟨5000, 0, 0⟩
          (includeSampleInRay 0 kRfStopOnFirstOccupied)).2.foldl
          (visit_func (RayMapperOccupancy.create s3Map) s3Map kRfStopOnFirstOccupied 1)
          { (⟨s3Map.chunks, none, false⟩ : LoopState) with stop_adjustments := false } ∧
      (calculateSegmentKeys [xKey 7] s3Map ⟨0, 0, 0⟩ ⟨5000, 0, 0⟩
          (includeSampleInRay 0 kRfStopOnFirstOccupied)).2 =
        [xKey 0, xKey 1, xKey 2, xKey 3, xKey 4] :=
  ⟨rfl, by decide,
    (miss_pass_visits_segment_keys (RayMapperOccupancy.create s3Map) s3Map kRfStopOnFirstOccupied 1
      ⟨s3Map.chunks, none, false⟩ ⟨0, 0, 0⟩ ⟨5000, 0, 0⟩ [xKey 7] rfl (by decide)).1,
    by decide⟩

/-- C30: the chunk selected through the `last_chunk` cache is the chunk the store returns for
`region(key.regionKey(), true)`: the cache is sound at the start of `integrateRays`, every visit
and every hit pass keep it sound, and with a sound cache the two selections coincide. So
`integrateRays` gives the same result, map and count, as the same loop with an uncached region
lookup for every voxel, on every ray array and for every flag value. -/
theorem chunk_cache_equivalence (mapper : RayMapperOccupancy) (map : OccupancyMap)
    (rays : List DVec3) (ray_update_flags : Nat) :
    mapper.integrateRays map rays ray_update_flags =
        integrateRaysUncached mapper map rays ray_update_flags ∧
      (⟨map.touch.2.chunks, none, false⟩ : LoopState).CacheOK ∧
      (∀ s : LoopState, s.CacheOK → ∀ coord, selectChunk s coord = region s.chunks coord) ∧
      (∀ (s : LoopState) (touch_stamp : Nat), s.CacheOK →
        (∀ key, (visit_func mapper map ray_update_flags touch_stamp s key).CacheOK) ∧
        (∀ end_, (hitPass mapper map touch_stamp s end_).CacheOK) ∧
        ∀ ray_start ray_end,
          (integrateRay mapper map ray_update_flags touch_stamp s ray_start ray_end).CacheOK) := by
  refine ⟨?_, cacheOK_start _ _, fun s hs coord => selectChunk_eq_region hs coord,
    fun s touch_stamp hs => ⟨fun key => ?_, fun end_ => ?_, fun a b => ?_⟩⟩
  · have h := integrateLoop_cacheRel mapper map ray_update_flags map.touch.1 rays
      ⟨map.touch.2.chunks, none, false⟩ ⟨map.touch.2.chunks, false⟩
      ⟨cacheOK_start _ _, rfl, rfl⟩
    simp only [RayMapperOccupancy.integrateRays, integrateRaysUncached]
    cases h1 : integrateLoop mapper map ray_update_flags map.touch.1 rays
        ⟨map.touch.2.chunks, none, false⟩ <;>
      cases h2 : integrateLoopUncached mapper map ray_update_flags map.touch.1 rays
        ⟨map.touch.2.chunks, false⟩ <;>
      simp_all
  · exact (visit_func_cacheRel mapper map ray_update_flags touch_stamp
      (u := ⟨s.chunks, s.stop_adjustments⟩) ⟨hs, rfl, rfl⟩ key).1
  · exact (hitPass_cacheRel mapper map touch_stamp
      (u := ⟨s.chunks, s.stop_adjustments⟩) ⟨hs, rfl, rfl⟩ end_).1
  · exact (integrateRay_cacheRel mapper map ray_update_flags touch_stamp
      (u := ⟨s.chunks, s.stop_adjustments⟩) ⟨hs, rfl, rfl⟩ a b).1

/-! ## The first valid voxel hint -/

/-- C21: if every chunk of the map satisfies the invariant of `first_valid_index` (an invalid
hint only while all voxels of the chunk are unobserved, and every voxel with linear index below
a valid hint unobserved), every chunk does after `integrateRays`, the chunks created by the call
included; the hint of a chunk is never raised; and each visit and each hit pass lowers the hint
of its chunk to the minimum of the hint and
`local.z * dims.x * dims.y + local.y * dims.x + local.x` of the key. -/
theorem first_valid_index_invariant (mapper : RayMapperOccupancy) (map : OccupancyMap)
    (rays : List DVec3) (ray_update_flags : Nat) (heven : rays.length % 2 = 0)
    (hinv : ∀ c ∈ map.chunks, FirstValidInv c) :
    (∃ map', mapper.integrateRays map rays ray_update_flags = some (rays.length / 2, map') ∧
      (∀ c ∈ map'.chunks, FirstValidInv c) ∧
      ∀ j, HintNotRaised (chunkAt map.chunks j) (chunkAt map'.chunks j)) ∧
    (∀ (s : LoopState) (touch_stamp : Nat) (key : Key), s.Valid →
      (chunkAt (visit_func mapper map ray_update_flags touch_stamp s key).chunks
          (selectChunk s key.regionKey).2).first_valid_index =
        updateFirstValid (chunkAt s.chunks (selectChunk s key.regionKey).2).first_valid_index
          (key.localKey.z * mapper.occupancy_dim.x * mapper.occupancy_dim.y +
            key.localKey.y * mapper.occupancy_dim.x + key.localKey.x)) ∧
    (∀ (s : LoopState) (touch_stamp : Nat) (end_ : DVec3), s.Valid →
      (chunkAt (hitPass mapper map touch_stamp s end_).chunks
          (selectChunk s (map.voxelKey end_).regionKey).2).first_valid_index =
        updateFirstValid
          (chunkAt s.chunks (selectChunk s (map.voxelKey end_).regionKey).2).first_valid_index
          ((map.voxelKey end_).localKey.z * mapper.occupancy_dim.x * mapper.occupancy_dim.y +
            (map.voxelKey end_).localKey.y * mapper.occupancy_dim.x +
            (map.voxelKey end_).localKey.x)) := by
  refine ⟨?_, ?_, ?_⟩
  · obtain ⟨map', h1, h2⟩ := integrateRays_rel mapper map ray_update_flags
      (fun c c' => (FirstValidInv c → FirstValidInv c') ∧ HintNotRaised c c')
      (fun c => ⟨id, fun i hi => ⟨i, hi, le_refl _⟩⟩)
      (fun a b c hab hbc => ⟨fun h => hbc.1 (hab.1 h), fun i hi => by
        obtain ⟨i', hi', hle⟩ := hab.2 i hi
        obtain ⟨i'', hi'', hle'⟩ := hbc.2 i' hi'
        exact ⟨i'', hi'', le_trans hle' hle⟩⟩)
      (fun stop v c coord => firstValid_rel_miss mapper map _ stop v c coord)
      (fun key end_ c coord => firstValid_rel_hit mapper map _ false key end_ c coord)
      rays heven
    refine ⟨map', h1, fun c hc => ?_, fun j => (h2 j).2⟩
    obtain ⟨j, hj, rfl⟩ := List.getElem_of_mem hc
    have := (h2 j).1 (firstValidInv_chunkAt hinv j)
    rwa [chunkAt_of_getElem? (List.getElem?_eq_getElem hj)] at this
  · intro s touch_stamp key hs
    rw [visit_func_chunkAt mapper map ray_update_flags touch_stamp hs, if_pos rfl]
    rfl
  · intro s touch_stamp end_ hs
    rw [hitPass_chunkAt mapper map touch_stamp hs, if_pos rfl]
    rfl

theorem first_valid_index_invariant_witness :
    voxelMeanRays.length % 2 = 0 ∧ (∀ c ∈ s3Map.chunks, FirstValidInv c) ∧
      ∃ map', (RayMapperOccupancy.create s3Map).integrateRays s3Map voxelMeanRays kRfDefault =
          some (voxelMeanRays.length / 2, map') ∧
        (∀ c ∈ map'.chunks, FirstValidInv c) ∧
        ∀ j, HintNotRaised (chunkAt s3Map.chunks j) (chunkAt map'.chunks j) :=
  have hinv : ∀ c ∈ s3Map.chunks, FirstValidInv c := by
    intro c hc
    have hc' : c = s3Chunk := by simpa [s3Map] using hc
    subst hc'
    intro v hv
    have hv' : v < 2 := hv
    simp [s3Chunk, newChunk, Function.update, Nat.ne_of_lt hv']
  ⟨by decide, hinv,
    (first_valid_index_invariant (RayMapperOccupancy.create s3Map) s3Map voxelMeanRays kRfDefault
      (by decide) hinv).1⟩

/-! ## The index of the loop -/

/-- C27: for every `element_count` an array can have, which is below `SIZE_MAX`, the loop
terminates, after the body has run with the indices `0, 2, 4, ..` below `element_count`. For an
even `element_count` the body runs `element_count / 2` times and every index `i` it runs with
has `i + 1 < element_count`, so `rays[i]` and `rays[i + 1]` are elements of the array; the loop
of `integrateRays` over an array of `element_count` elements is then the body applied to these
elements, index by index. -/
theorem loop_index_in_bounds (element_count : Nat) (hcount : element_count < sizeMax) :
    (∀ fuel, element_count / 2 + 1 < fuel →
      loopIndices element_count fuel 0 =
        some ((List.range ((element_count + 1) / 2)).map fun j => 2 * j)) ∧
    (element_count % 2 = 0 →
      ((List.range ((element_count + 1) / 2)).map fun j => 2 * j).length = element_count / 2 ∧
      (∀ i ∈ (List.range ((element_count + 1) / 2)).map fun j => 2 * j,
        i + 1 < element_count) ∧
      ∀ (mapper : RayMapperOccupancy) (map : OccupancyMap) (ray_update_flags touch_stamp : Nat)
        (rays : List DVec3) (s : LoopState), rays.length = element_count →
        integrateLoop mapper map ray_update_flags touch_stamp rays s =
          (loopIndices element_count (element_count / 2 + 2) 0).map fun indices =>
            indices.foldl (fun s i => integrateRay mapper map ray_update_flags touch_stamp s
              (rays.getD i ⟨0, 0, 0⟩) (rays.getD (i + 1) ⟨0, 0, 0⟩)) s) := by
  have hrun : ∀ fuel, element_count / 2 + 1 < fuel →
      loopIndices element_count fuel 0 =
        some ((List.range ((element_count + 1) / 2)).map fun j => 2 * j) := by
    intro fuel hfuel
    rw [loopIndices_from element_count hcount fuel 0 (by omega)]
    simp
  refine ⟨hrun, fun heven => ⟨?_, ?_, ?_⟩⟩
  · rw [List.length_map, List.length_range]
    omega
  · intro i hi
    obtain ⟨j, hj, rfl⟩ := List.mem_map.1 hi
    have := List.mem_range.1 hj
    omega
  · intro mapper map ray_update_flags touch_stamp rays s hlen
    subst hlen
    have hdiv : (rays.length + 1) / 2 = rays.length / 2 := by omega
    rw [hrun _ (by omega), integrateLoop_eq_foldl mapper map ray_update_flags touch_stamp rays s
      heven, rayPairs_eq_map rays heven, hdiv]
    simp only [Option.map_some', List.foldl_map]

theorem loop_index_in_bounds_witness :
    6 < sizeMax ∧
      loopIndices 6 5 0 = some ((List.range ((6 + 1) / 2)).map fun j => 2 * j) ∧
      ((List.range ((6 + 1) / 2)).map fun j => 2 * j) = [0, 2, 4] ∧
      (6 % 2 = 0 → ∀ i ∈ (List.range ((6 + 1) / 2)).map fun j => 2 * j, i + 1 < 6) :=
  ⟨by decide, (loop_index_in_bounds 6 (by decide)).1 5 (by decide), by decide,
    fun h => ((loop_index_in_bounds 6 (by decide)).2 h).2.1⟩

/-! ## Batching of the rays in `ohmpop` -/

/-- C28 (counterexample): with a batch size of `2^31` and `2^31` points loaded, the buffer holds
`2^32` elements when it is flushed and `unsigned(origin_sample_pairs.size())` is 0: the one
array passed to `integrateRays` is empty, although `2^31` points were accepted. -/
theorem large_batch_truncated :
    1 ≤ largeBatchOptions.batch_size ∧
      (populateMap largeBatchOptions false (List.replicate (2 ^ 31) firstPoint)).calls = [[]] ∧
      (populateMap largeBatchOptions false
        (List.replicate (2 ^ 31) firstPoint)).accepted.length = 2 ^ 31 :=
  ⟨by decide, (populateMap_large_batch (2 ^ 31) (2 ^ 31 - 1) (by norm_num) (by norm_num)).1,
    (populateMap_large_batch (2 ^ 31) (2 ^ 31 - 1) (by norm_num) (by norm_num)).2⟩

/-- C28 (amended): with a batch size of at least 1 and below `2^31` and no quit signal, the
arrays passed to `integrateRays`, concatenated in call order, are the sequence `origin, sample`
of the points the population loop accepted, which are points of the loader in load order, each
at most once; every array passed has an even length of at most twice the batch size; and the
buffer is empty after the final flush. -/
theorem populate_batches (opt : PopulateOptions) (points : List LoadedPoint)
    (hbatch : 1 ≤ opt.batch_size) (hsize : opt.batch_size < 2 ^ 31) :
    (populateMap opt false points).calls.flatten =
        originSamplePairs (populateMap opt false points).accepted ∧
      (populateMap opt false points).accepted.Sublist points ∧
      (∀ a ∈ (populateMap opt false points).calls,
        a.length % 2 = 0 ∧ a.length ≤ 2 * opt.batch_size) ∧
      (populateMap opt false points).origin_sample_pairs = [] := by
  have hinit : PopulateInv opt ⟨0, -1, -1, [], [], []⟩ :=
    ⟨rfl, by simp, by decide, fun a ha => by simp at ha⟩
  obtain ⟨⟨h1, h2, h3, h4⟩, taken, h5, h6⟩ :=
    populateLoop_inv opt hbatch (by omega) points _ hinit
  have h5' : (populateLoop opt false points ⟨0, -1, -1, [], [], []⟩).accepted = taken := by
    rw [h5]
    rfl
  have hmod := Nat.mod_lt
    (populateLoop opt false points ⟨0, -1, -1, [], [], []⟩).point_count
    (show 0 < opt.batch_size by omega)
  unfold populateMap
  dsimp only
  split
  · rw [passedArray_of_lt _ (by omega)]
    refine ⟨?_, by rw [h5']; exact h6, ?_, rfl⟩
    · show (_ ++ [_]).flatten = _
      rw [← h1]
      simp
    · intro a ha
      rcases List.mem_append.1 ha with ha | ha
      · exact h4 a ha
      · rw [List.mem_singleton.1 ha, h2]
        omega
  · rename_i hempty
    have hnil : (populateLoop opt false points ⟨0, -1, -1, [], [], []⟩).origin_sample_pairs =
        [] := by
      simpa using hempty
    refine ⟨?_, by rw [h5']; exact h6, h4, hnil⟩
    rw [← h1, hnil, List.append_nil]

theorem populate_batches_witness :
    1 ≤ (⟨0, 0, 0, 2⟩ : PopulateOptions).batch_size ∧
      (⟨0, 0, 0, 2⟩ : PopulateOptions).batch_size < 2 ^ 31 ∧
      (populateMap ⟨0, 0, 0, 2⟩ false loadedPoints).calls =
        [[⟨0, 0, 0⟩, ⟨1000, 0, 0⟩, ⟨0, 0, 0⟩, ⟨2000, 0, 0⟩], [⟨0, 0, 0⟩, ⟨3000, 0, 0⟩]] ∧
      (populateMap ⟨0, 0, 0, 2⟩ false loadedPoints).calls.flatten =
        originSamplePairs (populateMap ⟨0, 0, 0, 2⟩ false loadedPoints).accepted :=
  ⟨by decide, by decide, by decide,
    (populate_batches ⟨0, 0, 0, 2⟩ loadedPoints (by decide) (by decide)).1⟩

end ohm
